import Mathlib

/-!
The sketch `suffrage`: a leaderless majority vote for a mesh of IXM boards.

A shallow embedding of `suffrage.cpp` / `suffrage.h`.

* The globals of the sketch are the fields of `State`.  Every `u32` / `u16`
  global or array cell is a natural number; arithmetic that can leave the range
  of its C type is reduced modulo `2^32` / `2^16` at the place where the source
  performs it.
* The 32-entry arrays are functions on indices.  Only the cells `0 .. 31` exist
  in the sketch: every read or write of a cell is guarded, and an access at an
  index `>= 32` ends the run with `Halt.outOfBounds`.  The buffer `sieve` is a
  list of its cells, guarded in the same way by its declared length.
* Code that does not return (`reenterBootloader`, a failed `API_ASSERT`,
  unbounded recursion) ends the run with the corresponding `Halt`.
* What the sketch does to the outside world (packets printed on a face, power
  switching, alarms) is appended to the field `TRACE`; the LED shown by
  `setStatus` is the field `STATUS`.  Diagnostic `logNormal` text is not
  recorded.
* `millis()`, `packetSource(packet)` and the result of `packetScanf` are
  arguments of the handlers.  A handler runs to completion on one event, and
  `millis()` is read as one value `now` for the whole invocation.
-/

namespace Suffrage

/-! ## Constants of `suffrage.h` -/

def INVALID : Nat := 0xffffffff
def TIE : Nat := 0xfffffffe
def OFF : Nat := 0xffffffff
def MINORITY : Nat := 0
def MAJORITY : Nat := 1
def PROCESSING : Nat := 2
def PRIME_THRESHOLD : Nat := 1000
def PRIME_ARR_THRESHOLD : Nat := 7920
def IDLE : Nat := 5000
def pingAll_PERIOD : Nat := 1000
def VOTE_COUNT_MIN : Nat := 2

/-- Number of values of a `u32`. -/
def U32 : Nat := 4294967296

/-- Number of values of a `u16`. -/
def U16 : Nat := 65536

/-- Entries of each registry / candidate array: `sizeof(ID_NODE_ARR) / sizeof(u32)`. -/
def CAP : Nat := 32

/-- The `struct KEY` of the header. -/
structure KEY where
  ID : Nat
  TIME : Nat
deriving DecidableEq, Repr

/-- The `struct R_PKT`.  Its member `calc` is spelled `CALC` here, as in `R_ZScanner`,
because `calc` is a keyword of Lean.  The sketch also reads and writes a member `neighbor`,
which the header at hand does not declare. -/
structure R_PKT where
  key : KEY
  CALC : Nat
  calc_ver : Nat
  rslt : Nat
  neighbor : Nat
deriving DecidableEq, Repr

/-- Ways in which a run of the sketch ends without returning to its caller. -/
inductive Halt where
  | reset
  | outOfBounds
  | assertFail
  | diverge
deriving DecidableEq, Repr

/-- Effects on the outside world, in the order in which they happen. -/
inductive Event where
  | send (face : Nat) (p : R_PKT)
  | powerOut (face : Nat) (level : Nat)
  | alarmReboot (due : Nat)
  | alarmHeartBeat (due : Nat)
deriving DecidableEq, Repr

/-- Things the sketch uses whose declarations are not in the sources at hand: the board
identifier returned by `getBootBlockBoardId()`, the number of faces `FACE_COUNT`, the delay
`reboot_PERIOD`, and the bit width of one `STRIKES_NODE_ARR` cell.  The arrays
`NEIGHBORS_ARR` and `REBOOT_ARR` are scanned over `[0, FACE_COUNT)` by the sketch and are
taken to have `FACE_COUNT` entries; `STRIKES_NODE_ARR` is indexed like the other registry
arrays and is taken to have 32. -/
structure Platform where
  ID_HOST : Nat
  FACE_COUNT : Nat
  reboot_PERIOD : Nat
  STRIKES_BITS : Nat

/-- The globals of the sketch, the LED and the trace of effects. -/
structure State where
  FAULTY : Bool
  HOST_CALC : Nat
  HOST_CALC_VER : Nat
  MAJORITY_RSLT : Nat
  NODE_COUNT : Nat
  CANDIDATE_COUNT : Nat
  TERMINAL_FACE : Nat
  VOTE_COUNT : Nat
  sieve : List Nat
  ACTIVE_NODE_ARR : Nat → Char
  PC_NODE_ARR : Nat → Nat
  ID_NODE_ARR : Nat → Nat
  CANDIDATE_ARR : Nat → Nat
  VOTE_NODE_ARR : Nat → Nat
  TS_HOST_ARR : Nat → Nat
  TS_NODE_ARR : Nat → Nat
  CANDIDATE_VOTES_ARR : Nat → Nat
  STRIKES_NODE_ARR : Nat → Nat
  NEIGHBORS_ARR : Nat → Nat
  REBOOT_ARR : Nat → Nat
  STATUS : Nat
  TRACE : List Event

/-- The array `a` after the assignment `a[i] = v`. -/
def setAt {α : Type} (a : Nat → α) (i : Nat) (v : α) : Nat → α :=
  fun j => if j = i then v else a j

/-- The array `a` after a loop that stores `v` in each of its first `n` cells. -/
def fillTo {α : Type} (a : Nat → α) (n : Nat) (v : α) : Nat → α :=
  fun j => if j < n then v else a j

/-! ## `setStatus`, `flush` -/

/-- `setStatus(STATUS)`: an argument that is none of the four codes fails the assertion;
otherwise the three LEDs are switched off and the one named by the code is lit. -/
def setStatus (STATUS : Nat) (s : State) : Except Halt State :=
  if STATUS ≠ OFF ∧ STATUS ≠ MINORITY ∧ STATUS ≠ MAJORITY ∧ STATUS ≠ PROCESSING then
    .error .assertFail
  else
    .ok { s with STATUS := STATUS }

/-- `flush()`. -/
def flush (s : State) : Except Halt State :=
  setStatus OFF
    { s with
      MAJORITY_RSLT := 0
      CANDIDATE_COUNT := 0
      VOTE_COUNT := 0
      VOTE_NODE_ARR := fillTo s.VOTE_NODE_ARR 32 0
      CANDIDATE_ARR := fillTo s.CANDIDATE_ARR 32 0
      CANDIDATE_VOTES_ARR := fillTo s.CANDIDATE_VOTES_ARR 32 0 }

/-! ## `linearSearch`, `getMaxIndex` -/

/-- The loop of `linearSearch`, with `rem` iterations left and the loop variable at `i`. -/
def linearSearchLoop (a : Nat → Nat) (key : Nat) : Nat → Nat → Except Halt Nat
  | 0, _ => .ok INVALID
  | rem + 1, i =>
    if i < CAP then
      if a i = key then .ok i else linearSearchLoop a key rem (i + 1)
    else .error .outOfBounds

/-- `linearSearch(a, size, key)` on one of the 32-entry arrays. -/
def linearSearch (a : Nat → Nat) (size key : Nat) : Except Halt Nat :=
  if size ≤ 0 then .error .assertFail else linearSearchLoop a key size 0

/-- The loop of `getMaxIndex`: `rem` iterations left, loop variable `i`, and the locals
`tiedetected`, `maxVotes`, `maxIndex`. -/
def getMaxLoop (a : Nat → Nat) : Nat → Nat → Bool → Nat → Nat → Except Halt (Bool × Nat × Nat)
  | 0, _, tiedetected, maxVotes, maxIndex => .ok (tiedetected, maxVotes, maxIndex)
  | rem + 1, i, tiedetected, maxVotes, maxIndex =>
    if i < CAP then
      if a i > maxVotes then getMaxLoop a rem (i + 1) false (a i) i
      else if a i = maxVotes then getMaxLoop a rem (i + 1) true maxVotes maxIndex
      else getMaxLoop a rem (i + 1) tiedetected maxVotes maxIndex
    else .error .outOfBounds

/-- `getMaxIndex(a, size)` on one of the 32-entry arrays. -/
def getMaxIndex (a : Nat → Nat) (size : Nat) : Except Halt Nat :=
  if size ≤ 0 then .error .assertFail
  else
    match getMaxLoop a size 0 false 0 INVALID with
    | .error e => .error e
    | .ok (tiedetected, maxVotes, maxIndex) =>
      if tiedetected then .ok TIE
      else if 0 ≠ maxVotes ∧ INVALID ≠ maxIndex then .ok maxIndex
      else .ok INVALID

/-! ## Flooding -/

/-- `BRD_R_PKT(PKT_T)`: one copy on each face `0 .. 3` other than the terminal face. -/
def BRD_R_PKT (p : R_PKT) (s : State) : State :=
  { s with
    TRACE := s.TRACE ++
      ((List.range 4).filter (fun i => decide (s.TERMINAL_FACE ≠ i))).map (fun i => Event.send i p) }

/-- `FWD_R_PKT(PKT_T, face)`: one copy on each face `0 .. 3` that is neither the terminal
face nor `face`. -/
def FWD_R_PKT (p : R_PKT) (face : Nat) (s : State) : State :=
  { s with
    TRACE := s.TRACE ++
      ((List.range 4).filter (fun i => decide (s.TERMINAL_FACE ≠ i ∧ face ≠ i))).map
        (fun i => Event.send i p) }

/-! ## Power cycling of a face -/

/-- The loop of `reboot`. -/
def rebootLoop : Nat → Nat → State → State
  | 0, _, s => s
  | rem + 1, i, s =>
    if s.REBOOT_ARR i ≠ 0 then
      rebootLoop rem (i + 1)
        { s with
          TRACE := s.TRACE ++ [Event.powerOut (s.REBOOT_ARR i) 1]
          REBOOT_ARR := setAt s.REBOOT_ARR i 0 }
    else rebootLoop rem (i + 1) s

/-- `reboot(when)`. -/
def reboot (P : Platform) (s : State) : State :=
  rebootLoop P.FACE_COUNT 0 s

/-- The loop of `getNeighborFace`. -/
def getNeighborFaceLoop (nb : Nat → Nat) (id : Nat) : Nat → Nat → Nat
  | 0, _ => INVALID
  | rem + 1, i => if id = nb i then i else getNeighborFaceLoop nb id rem (i + 1)

/-- `getNeighborFace(id)`. -/
def getNeighborFace (P : Platform) (id : Nat) (s : State) : Nat :=
  getNeighborFaceLoop s.NEIGHBORS_ARR id P.FACE_COUNT 0

/-- The first statement of the body of the loop of `strikeCheck`: node `i` gets one more
strike when its vote differs from the majority result, and none otherwise. -/
def strikeNode (P : Platform) (i : Nat) (s : State) : State :=
  { s with
    STRIKES_NODE_ARR :=
      if s.VOTE_NODE_ARR i ≠ s.MAJORITY_RSLT then
        setAt s.STRIKES_NODE_ARR i ((s.STRIKES_NODE_ARR i + 1) % 2 ^ P.STRIKES_BITS)
      else setAt s.STRIKES_NODE_ARR i 0 }

/-- The loop of `strikeCheck`, with `rem` iterations left and the loop variable at `i`. -/
def strikeLoop (P : Platform) (now : Nat) : Nat → Nat → State → Except Halt State
  | 0, _, s => .ok s
  | rem + 1, i, s =>
    if i < CAP then
      let s1 := strikeNode P i s
      let face := getNeighborFace P (s1.ID_NODE_ARR i) s1
      if s1.STRIKES_NODE_ARR i > 2 ∧ INVALID ≠ face then
        .ok
          { s1 with
            REBOOT_ARR := setAt s1.REBOOT_ARR face 1
            TRACE := s1.TRACE ++
              [Event.powerOut face 0, Event.alarmReboot ((now + P.reboot_PERIOD) % U32)] }
      else strikeLoop P now rem (i + 1) s1
    else .error .outOfBounds

/-- `strikeCheck()`. -/
def strikeCheck (P : Platform) (now : Nat) (s : State) : Except Halt State :=
  strikeLoop P now s.NODE_COUNT 0 s

/-! ## The registry: `log` -/

/-- The search loop of `log`.  `none` means that the loop ran to its end without meeting
`ID`; `some (r, s1)` is a `return r` from inside the loop, leaving the globals as `s1`. -/
def logLoop (ID TIME now : Nat) (s : State) : Nat → Nat → Except Halt (Option (Nat × State))
  | 0, _ => .ok none
  | rem + 1, i =>
    if i < CAP then
      if ID = s.ID_NODE_ARR i then
        if TIME ≠ s.TS_NODE_ARR i then
          .ok (some (i,
            { s with
              PC_NODE_ARR :=
                if s.PC_NODE_ARR i < 0xffff then setAt s.PC_NODE_ARR i (s.PC_NODE_ARR i + 1)
                else s.PC_NODE_ARR
              TS_NODE_ARR := setAt s.TS_NODE_ARR i TIME
              TS_HOST_ARR := setAt s.TS_HOST_ARR i now }))
        else .ok (some (INVALID, s))
      else logLoop ID TIME now s rem (i + 1)
    else .error .outOfBounds

/-- `log(ID, TIME)`: the returned index (or `INVALID`) and the globals afterwards. -/
def log (ID TIME now : Nat) (s : State) : Except Halt (Nat × State) :=
  match logLoop ID TIME now s s.NODE_COUNT 0 with
  | .error e => .error e
  | .ok (some r) => .ok r
  | .ok none =>
    if s.NODE_COUNT ≥ CAP then .error .reset
    else
      .ok (s.NODE_COUNT,
        { s with
          ID_NODE_ARR := setAt s.ID_NODE_ARR s.NODE_COUNT ID
          TS_NODE_ARR := setAt s.TS_NODE_ARR s.NODE_COUNT TIME
          TS_HOST_ARR := setAt s.TS_HOST_ARR s.NODE_COUNT now
          PC_NODE_ARR :=
            setAt s.PC_NODE_ARR s.NODE_COUNT ((s.PC_NODE_ARR s.NODE_COUNT + 1) % U16)
          NODE_COUNT := s.NODE_COUNT + 1 })

/-! ## `evalMajority` -/

/-- `evalMajority()`. -/
def evalMajority (s : State) : Except Halt State :=
  if s.VOTE_COUNT ≥ VOTE_COUNT_MIN then
    if 0 = s.HOST_CALC then flush s
    else
      match getMaxIndex s.CANDIDATE_VOTES_ARR ((s.CANDIDATE_COUNT + 1) % U32) with
      | .error e => .error e
      | .ok j =>
        if TIE = j then setStatus OFF { s with MAJORITY_RSLT := TIE }
        else if j < CAP then
          setStatus (if s.VOTE_NODE_ARR 0 = s.CANDIDATE_ARR j then MAJORITY else MINORITY)
            { s with MAJORITY_RSLT := s.CANDIDATE_ARR j }
        else .error .outOfBounds
  else setStatus OFF s

/-! ## The workload: `calculate` -/

/-- The innermost loop `for (k = j + j; k < i; k += j) sieve[k] = 1;`, with at most `fuel`
iterations. -/
def markLoop (i j : Nat) : Nat → Nat → List Nat → Except Halt (List Nat)
  | 0, k, sv => if k < i then .error .diverge else .ok sv
  | fuel + 1, k, sv =>
    if k < i then
      if k < PRIME_ARR_THRESHOLD then markLoop i j fuel ((k + j) % U32) (sv.set k 1)
      else .error .outOfBounds
    else .ok sv

/-- The loop `for (j = 2; j * j <= i; j++) if (!sieve[j]) ...`, with at most `fuel`
iterations. -/
def sieveLoop (i : Nat) : Nat → Nat → List Nat → Except Halt (List Nat)
  | 0, j, sv => if (j * j) % U32 ≤ i then .error .diverge else .ok sv
  | fuel + 1, j, sv =>
    if (j * j) % U32 ≤ i then
      if j < PRIME_ARR_THRESHOLD then
        if sv.getD j 0 = 0 then
          match markLoop i j i ((j + j) % U32) sv with
          | .error e => .error e
          | .ok sv1 => sieveLoop i fuel (j + 1) sv1
        else sieveLoop i fuel (j + 1) sv
      else .error .outOfBounds
    else .ok sv

/-- The loop `for (j = 2; j < i; j++) { if (!sieve[j]) ++c; if (b == c) return j; }`, with
`rem` iterations left.  `some j` is the `return j`; `none` means the loop ran to its end. -/
def countLoop (sv : List Nat) (b : Nat) : Nat → Nat → Nat → Except Halt (Option Nat)
  | 0, _, _ => .ok none
  | rem + 1, j, c =>
    if j < PRIME_ARR_THRESHOLD then
      let c1 := if sv.getD j 0 = 0 then c + 1 else c
      if b = c1 then .ok (some j) else countLoop sv b rem (j + 1) c1
    else .error .outOfBounds

/-- The outer loop `for (i = 3; i < PRIME_ARR_THRESHOLD; ++i)` with at most `fuel`
iterations; `T` stands for `PRIME_ARR_THRESHOLD`, which `calculate` passes in.  The body
reuses `i` as the variable of the loop that clears the sieve, so the rest of the body runs
with `i = T` and with all `T` cells of the buffer holding 0.  The result is the value
returned by `calculate` and the sieve buffer it leaves. -/
def calcLoop (T b : Nat) : Nat → Nat → List Nat → Except Halt (Nat × List Nat)
  | 0, i, sv => if i < T then .error .diverge else .ok (0, sv)
  | fuel + 1, i, sv =>
    if i < T then
      let sv0 := List.replicate T 0
      let i1 := T
      match sieveLoop i1 i1 2 sv0 with
      | .error e => .error e
      | .ok sv1 =>
        match countLoop sv1 b (i1 - 2) 2 0 with
        | .error e => .error e
        | .ok (some j) => .ok (j, sv1)
        | .ok none => calcLoop T b fuel (i1 + 1) sv1
    else .ok (0, sv)

/-- `calculate(a)`: the returned value and the globals afterwards.  `setStatus` leaves
`FAULTY` and the sieve buffer alone, so both are read from the globals at entry. -/
def calculate (a : Nat) (s : State) : Except Halt (Nat × State) :=
  if a < 1 then
    match flush s with
    | .error e => .error e
    | .ok s1 =>
      match setStatus OFF s1 with
      | .error e => .error e
      | .ok s2 => .ok (0, s2)
  else
    match setStatus PROCESSING s with
    | .error e => .error e
    | .ok s1 =>
      match calcLoop PRIME_ARR_THRESHOLD (if s.FAULTY then (a + 1) % U32 else a)
          PRIME_ARR_THRESHOLD 3 s.sieve with
      | .error e => .error e
      | .ok (r, sv) => .ok (r, { s1 with sieve := sv })

/-! ## `voteCount` -/

/-- `voteCount(NODE_INDEX, BALLOT)` with the depth of its recursion bounded by `fuel`. -/
def voteCountAux : Nat → Nat → Nat → State → Except Halt State
  | 0, _, _, _ => .error .diverge
  | fuel + 1, NODE_INDEX, BALLOT, s =>
    if 0 = BALLOT then .ok s
    else if NODE_INDEX < CAP then
      if BALLOT = s.VOTE_NODE_ARR NODE_INDEX then .ok s
      else if 0 ≠ s.VOTE_NODE_ARR NODE_INDEX then .ok s
      else
        let s1 : State :=
          if 0 = s.VOTE_NODE_ARR NODE_INDEX then
            { s with VOTE_COUNT := (s.VOTE_COUNT + 1) % U32 }
          else s
        if s1.VOTE_COUNT > s1.NODE_COUNT then
          match flush s1 with
          | .error e => .error e
          | .ok s2 =>
            match calculate s2.HOST_CALC s2 with
            | .error e => .error e
            | .ok (v, s3) => voteCountAux fuel 0 v s3
        else
          match linearSearch s1.CANDIDATE_ARR ((s1.CANDIDATE_COUNT + 1) % U32) BALLOT with
          | .error e => .error e
          | .ok k =>
            if INVALID ≠ k then
              if k < CAP then
                evalMajority
                  { s1 with
                    CANDIDATE_VOTES_ARR :=
                      setAt s1.CANDIDATE_VOTES_ARR k ((s1.CANDIDATE_VOTES_ARR k + 1) % U32)
                    VOTE_NODE_ARR := setAt s1.VOTE_NODE_ARR NODE_INDEX BALLOT }
              else .error .outOfBounds
            else
              let k1 := s1.CANDIDATE_COUNT
              if k1 < CAP then
                evalMajority
                  { s1 with
                    CANDIDATE_COUNT := (s1.CANDIDATE_COUNT + 1) % U32
                    CANDIDATE_ARR := setAt s1.CANDIDATE_ARR k1 BALLOT
                    CANDIDATE_VOTES_ARR :=
                      setAt s1.CANDIDATE_VOTES_ARR k1 ((s1.CANDIDATE_VOTES_ARR k1 + 1) % U32)
                    VOTE_NODE_ARR := setAt s1.VOTE_NODE_ARR NODE_INDEX BALLOT }
              else .error .outOfBounds
    else .error .outOfBounds

/-- `voteCount(NODE_INDEX, BALLOT)`.  The call re-enters itself only after a `flush`, with
`VOTE_COUNT = 0`; the inner call re-enters again only when `NODE_COUNT = 0`, and then every
further call does the same, so a recursion that is not cut off at depth two never ends. -/
def voteCount (NODE_INDEX BALLOT : Nat) (s : State) : Except Halt State :=
  voteCountAux 2 NODE_INDEX BALLOT s

/-! ## The packet and alarm handlers -/

/-- `r_handler(packet)`.  `scan` is what `packetScanf` made of the packet (`none` when the
text is not a result packet), `face` is `packetSource(packet)`. -/
def r_handler (P : Platform) (now face : Nat) (scan : Option R_PKT) (s : State) :
    Except Halt State :=
  match scan with
  | none => .ok s
  | some PKT_R =>
    match log PKT_R.key.ID PKT_R.key.TIME now s with
    | .error e => .error e
    | .ok (NODE_INDEX, s1) =>
      if INVALID = NODE_INDEX then .ok s1
      else if NODE_INDEX < CAP then
        if s1.PC_NODE_ARR NODE_INDEX > PKT_R.key.TIME / 1000 then
          .ok { s1 with
                PC_NODE_ARR :=
                  setAt s1.PC_NODE_ARR NODE_INDEX ((s1.PC_NODE_ARR NODE_INDEX + U16 - 2) % U16) }
        else if PKT_R.calc_ver < s1.HOST_CALC_VER then .ok s1
        else
          let learn : Except Halt (R_PKT × State) :=
            if PKT_R.neighbor ≠ 0 then
              if face < P.FACE_COUNT then
                .ok ({ PKT_R with neighbor := 0 },
                  { s1 with NEIGHBORS_ARR := setAt s1.NEIGHBORS_ARR face PKT_R.key.ID })
              else .error .outOfBounds
            else .ok (PKT_R, s1)
          match learn with
          | .error e => .error e
          | .ok (PKT_F, s2) =>
            let s3 := FWD_R_PKT PKT_F face s2
            if PKT_F.calc_ver = s3.HOST_CALC_VER then voteCount NODE_INDEX PKT_F.rslt s3
            else if PKT_F.calc_ver > s3.HOST_CALC_VER then
              match strikeCheck P now s3 with
              | .error e => .error e
              | .ok s4 =>
                match flush s4 with
                | .error e => .error e
                | .ok s5 =>
                  match voteCount NODE_INDEX PKT_F.rslt s5 with
                  | .error e => .error e
                  | .ok s6 =>
                    let s7 : State :=
                      { s6 with HOST_CALC := PKT_F.CALC, HOST_CALC_VER := PKT_F.calc_ver }
                    match calculate s7.HOST_CALC s7 with
                    | .error e => .error e
                    | .ok (v, s8) => voteCount 0 v s8
            else .ok s3
      else .error .outOfBounds

/-- `c_handler(packet)`.  `scan` is the number read by `C_ZScanner` (`none` when the text is
not a calculation packet), `face` is `packetSource(packet)`, and `junk` is the content of
the member `PKT_T.neighbor`, which the handler prints without having assigned it. -/
def c_handler (P : Platform) (now face junk : Nat) (scan : Option Nat) (s : State) :
    Except Halt State :=
  match scan with
  | none => .ok s
  | some CALC =>
    if CALC > PRIME_THRESHOLD then .ok s
    else
      match strikeCheck P now s with
      | .error e => .error e
      | .ok s1 =>
        match flush s1 with
        | .error e => .error e
        | .ok s2 =>
          let s3 : State :=
            { s2 with HOST_CALC_VER := (s2.HOST_CALC_VER + 1) % U32, HOST_CALC := CALC }
          let PKT_T : R_PKT :=
            { key := { ID := P.ID_HOST, TIME := now }
              CALC := s3.HOST_CALC
              calc_ver := s3.HOST_CALC_VER
              rslt := s3.VOTE_NODE_ARR 0
              neighbor := junk }
          let s4 := FWD_R_PKT PKT_T face s3
          match calculate s4.HOST_CALC s4 with
          | .error e => .error e
          | .ok (v, s5) => voteCount 0 v s5

/-- The first statement of the body of the liveness loop of `heartBeat`: node `i` is
marked active or inactive by the age of its host-side time-stamp. -/
def markActive (i : Nat) (s : State) : State :=
  { s with
    ACTIVE_NODE_ARR :=
      setAt s.ACTIVE_NODE_ARR i
        (if (s.TS_HOST_ARR 0 + U32 - s.TS_HOST_ARR i) % U32 < IDLE then 'A' else 'I') }

/-- The liveness loop of `heartBeat`, with `rem` iterations left and the loop variable at
`i`. -/
def liveLoop : Nat → Nat → State → Except Halt State
  | 0, _, s => .ok s
  | rem + 1, i, s =>
    if i < CAP then
      let s1 := markActive i s
      if 'I' = s1.ACTIVE_NODE_ARR i then
        liveLoop rem (i + 1)
          { s1 with
            PC_NODE_ARR := setAt s1.PC_NODE_ARR i 0
            STRIKES_NODE_ARR := setAt s1.STRIKES_NODE_ARR i 0 }
      else liveLoop rem (i + 1) s1
    else .error .outOfBounds

/-- `heartBeat(when)`. -/
def heartBeat (P : Platform) (now due : Nat) (s : State) : Except Halt State :=
  let PKT_T : R_PKT :=
    { key := { ID := P.ID_HOST, TIME := now }
      CALC := s.HOST_CALC
      calc_ver := s.HOST_CALC_VER
      rslt := s.VOTE_NODE_ARR 0
      neighbor := 1 }
  if s.PC_NODE_ARR 0 > PKT_T.key.TIME / 1000 then
    .ok { s with PC_NODE_ARR := setAt s.PC_NODE_ARR 0 ((s.PC_NODE_ARR 0 + U16 - 2) % U16) }
  else
    let s1 := BRD_R_PKT PKT_T s
    let s2 : State :=
      { s1 with
        PC_NODE_ARR := setAt s1.PC_NODE_ARR 0 ((s1.PC_NODE_ARR 0 + 1) % U16)
        TS_NODE_ARR := setAt s1.TS_NODE_ARR 0 PKT_T.key.TIME
        TS_HOST_ARR := setAt s1.TS_HOST_ARR 0 PKT_T.key.TIME }
    match liveLoop (s2.NODE_COUNT - 1) 1 s2 with
    | .error e => .error e
    | .ok s3 =>
      .ok { s3 with TRACE := s3.TRACE ++ [Event.alarmHeartBeat ((due + pingAll_PERIOD) % U32)] }

/-- `t_handler(packet)`: the face of the request becomes the terminal face.  The table
printed by the alarm it sets is text for the operator and is not recorded. -/
def t_handler (face : Nat) (s : State) : State :=
  { s with TERMINAL_FACE := face }

/-- `faultToggle()`; the flash of `faultSignal` restores the LEDs it found. -/
def faultToggle (s : State) : State :=
  { s with FAULTY := !s.FAULTY }

/-- The globals as the header initialises them and `setup()` completes them.  The initial
contents of the three arrays whose declarations are not at hand are arguments. -/
def setup (P : Platform) (strikes neighbors reboots : Nat → Nat) : State :=
  { FAULTY := false
    HOST_CALC := 0
    HOST_CALC_VER := 0
    MAJORITY_RSLT := 0
    NODE_COUNT := 1
    CANDIDATE_COUNT := 0
    TERMINAL_FACE := INVALID
    VOTE_COUNT := 0
    sieve := List.replicate PRIME_ARR_THRESHOLD 0
    ACTIVE_NODE_ARR := setAt (setAt (fun _ => Char.ofNat 0) 0 'I') 0 'A'
    PC_NODE_ARR := fun _ => 0
    ID_NODE_ARR := setAt (fun _ => 0) 0 P.ID_HOST
    CANDIDATE_ARR := fun _ => 0
    VOTE_NODE_ARR := fun _ => 0
    TS_HOST_ARR := fun _ => 0
    TS_NODE_ARR := fun _ => 0
    CANDIDATE_VOTES_ARR := fun _ => 0
    STRIKES_NODE_ARR := strikes
    NEIGHBORS_ARR := neighbors
    REBOOT_ARR := reboots
    STATUS := OFF
    TRACE := [Event.alarmHeartBeat pingAll_PERIOD] }

/-! ## Auxiliary definitions: named intermediate states, invariants, reachability,
example states -/

/-- The globals after the body of `flush()`, whose call of `setStatus(OFF)` cannot fail. -/
def flushed (s : State) : State :=
  { s with
    MAJORITY_RSLT := 0
    CANDIDATE_COUNT := 0
    VOTE_COUNT := 0
    VOTE_NODE_ARR := fillTo s.VOTE_NODE_ARR 32 0
    CANDIDATE_ARR := fillTo s.CANDIDATE_ARR 32 0
    CANDIDATE_VOTES_ARR := fillTo s.CANDIDATE_VOTES_ARR 32 0
    STATUS := OFF }

/-- What the scan of `getMaxIndex` knows after `i` cells: either a leader with a positive
tally has been met, or every cell so far held 0, which is flagged as a tie from the first
cell on. -/
def ScanInv (i : Nat) (t : Bool) (mv mi : Nat) : Prop :=
  (mi < i ∧ mv ≠ 0) ∨ (mv = 0 ∧ (0 < i → t = true))

/-- The number of known nodes whose recorded vote is `v`. -/
def votesFor (s : State) (v : Nat) : Nat :=
  Nat.count (fun i => s.VOTE_NODE_ARR i = v) s.NODE_COUNT

/-- The number of known nodes with a recorded (non-zero) vote. -/
def voters (s : State) : Nat :=
  Nat.count (fun i => s.VOTE_NODE_ARR i ≠ 0) s.NODE_COUNT

/-- Consistency of the round data with the votes recorded in the registry. -/
structure Tally (s : State) : Prop where
  nc_le : s.NODE_COUNT ≤ CAP
  vote_out : ∀ i, s.NODE_COUNT ≤ i → i < CAP → s.VOTE_NODE_ARR i = 0
  vc_eq : s.VOTE_COUNT = voters s
  cc_le : s.CANDIDATE_COUNT ≤ s.VOTE_COUNT
  cand_out : ∀ k, s.CANDIDATE_COUNT ≤ k → k < CAP →
    s.CANDIDATE_ARR k = 0 ∧ s.CANDIDATE_VOTES_ARR k = 0
  cand_nz : ∀ k, k < s.CANDIDATE_COUNT → s.CANDIDATE_ARR k ≠ 0
  cand_inj : ∀ k l, k < s.CANDIDATE_COUNT → l < s.CANDIDATE_COUNT →
    s.CANDIDATE_ARR k = s.CANDIDATE_ARR l → k = l
  tally : ∀ k, k < s.CANDIDATE_COUNT → s.CANDIDATE_VOTES_ARR k = votesFor s (s.CANDIDATE_ARR k)
  voted : ∀ i, i < s.NODE_COUNT → s.VOTE_NODE_ARR i ≠ 0 →
    ∃ k, k < s.CANDIDATE_COUNT ∧ s.CANDIDATE_ARR k = s.VOTE_NODE_ARR i
  sum : (∑ k in Finset.range CAP, s.CANDIDATE_VOTES_ARR k) = s.VOTE_COUNT
  maj0 : s.VOTE_COUNT < VOTE_COUNT_MIN → s.MAJORITY_RSLT = 0

/-- Two states with the same round data. -/
def SameRound (s t : State) : Prop :=
  t.NODE_COUNT = s.NODE_COUNT ∧ t.VOTE_COUNT = s.VOTE_COUNT ∧
  t.CANDIDATE_COUNT = s.CANDIDATE_COUNT ∧ t.MAJORITY_RSLT = s.MAJORITY_RSLT ∧
  t.VOTE_NODE_ARR = s.VOTE_NODE_ARR ∧ t.CANDIDATE_ARR = s.CANDIDATE_ARR ∧
  t.CANDIDATE_VOTES_ARR = s.CANDIDATE_VOTES_ARR

/-- The globals after `voteCount` has counted the ballot `b` of node `i` in candidate slot
`k` (an existing slot, or the first free one) and before it calls `evalMajority`. -/
def tallied (s : State) (i b k : Nat) : State :=
  { s with
    VOTE_COUNT := s.VOTE_COUNT + 1
    CANDIDATE_COUNT := if k < s.CANDIDATE_COUNT then s.CANDIDATE_COUNT else s.CANDIDATE_COUNT + 1
    CANDIDATE_ARR := setAt s.CANDIDATE_ARR k b
    CANDIDATE_VOTES_ARR := setAt s.CANDIDATE_VOTES_ARR k (s.CANDIDATE_VOTES_ARR k + 1)
    VOTE_NODE_ARR := setAt s.VOTE_NODE_ARR i b }

/-- The globals after `log` has met a known sender at index `m` with a new time-stamp. -/
def logHit (s : State) (m TIME now : Nat) : State :=
  { s with
    PC_NODE_ARR :=
      if s.PC_NODE_ARR m < 0xffff then setAt s.PC_NODE_ARR m (s.PC_NODE_ARR m + 1)
      else s.PC_NODE_ARR
    TS_NODE_ARR := setAt s.TS_NODE_ARR m TIME
    TS_HOST_ARR := setAt s.TS_HOST_ARR m now }

/-- The globals after `log` has appended a sender it did not know. -/
def logNew (s : State) (ID TIME now : Nat) : State :=
  { s with
    ID_NODE_ARR := setAt s.ID_NODE_ARR s.NODE_COUNT ID
    TS_NODE_ARR := setAt s.TS_NODE_ARR s.NODE_COUNT TIME
    TS_HOST_ARR := setAt s.TS_HOST_ARR s.NODE_COUNT now
    PC_NODE_ARR := setAt s.PC_NODE_ARR s.NODE_COUNT ((s.PC_NODE_ARR s.NODE_COUNT + 1) % U16)
    NODE_COUNT := s.NODE_COUNT + 1 }

/-- Index `m` is the first cell in `[i, n)` of the identifier array that holds `ID`. -/
def FirstAt (s : State) (ID i n m : Nat) : Prop :=
  i ≤ m ∧ m < n ∧ s.ID_NODE_ARR m = ID ∧ ∀ k, i ≤ k → k < m → s.ID_NODE_ARR k ≠ ID

/-- State `t` differs from `s` at most in the round data (votes, candidates, tallies,
counts, majority), the LED and the sieve buffer. -/
structure RoundOnly (s t : State) : Prop where
  faulty : t.FAULTY = s.FAULTY
  host_calc : t.HOST_CALC = s.HOST_CALC
  host_calc_ver : t.HOST_CALC_VER = s.HOST_CALC_VER
  node_count : t.NODE_COUNT = s.NODE_COUNT
  terminal : t.TERMINAL_FACE = s.TERMINAL_FACE
  active : t.ACTIVE_NODE_ARR = s.ACTIVE_NODE_ARR
  pc : t.PC_NODE_ARR = s.PC_NODE_ARR
  id : t.ID_NODE_ARR = s.ID_NODE_ARR
  ts_host : t.TS_HOST_ARR = s.TS_HOST_ARR
  ts_node : t.TS_NODE_ARR = s.TS_NODE_ARR
  strikes : t.STRIKES_NODE_ARR = s.STRIKES_NODE_ARR
  neighbors : t.NEIGHBORS_ARR = s.NEIGHBORS_ARR
  reboots : t.REBOOT_ARR = s.REBOOT_ARR
  trace : t.TRACE = s.TRACE

/-- The packet that `r_handler` forwards: the received one with the neighbour flag reset. -/
def forwarded (p : R_PKT) : R_PKT :=
  if p.neighbor ≠ 0 then { p with neighbor := 0 } else p

/-- The globals after `r_handler` has accepted a packet (fresh, not spam, not stale): the
sender is remembered as the neighbour on the arrival face when the packet says so, and the
packet is forwarded. -/
def accepted (face : Nat) (p : R_PKT) (s1 : State) : State :=
  FWD_R_PKT (forwarded p) face
    (if p.neighbor ≠ 0 then { s1 with NEIGHBORS_ARR := setAt s1.NEIGHBORS_ARR face p.key.ID }
     else s1)

/-- The globals after the spam guard of `r_handler` has fired for node `idx`. -/
def amnesty (s1 : State) (idx : Nat) : State :=
  { s1 with
    PC_NODE_ARR := setAt s1.PC_NODE_ARR idx ((s1.PC_NODE_ARR idx + U16 - 2) % U16) }

/-- The globals after `r_handler` has adopted the round of an accepted packet. -/
def adopted (p : R_PKT) (s6 : State) : State :=
  { s6 with HOST_CALC := p.CALC, HOST_CALC_VER := p.calc_ver }

/-- The part of `r_handler` that runs once a packet has passed the three guards. -/
def r_accept (P : Platform) (now face : Nat) (p : R_PKT) (idx : Nat) (s1 : State) :
    Except Halt State :=
  if p.neighbor ≠ 0 ∧ ¬ face < P.FACE_COUNT then .error .outOfBounds
  else
    let s3 := accepted face p s1
    if p.calc_ver = s1.HOST_CALC_VER then voteCount idx p.rslt s3
    else if p.calc_ver > s1.HOST_CALC_VER then
      match strikeCheck P now s3 with
      | .error e => .error e
      | .ok s4 =>
        match voteCount idx p.rslt (flushed s4) with
        | .error e => .error e
        | .ok s6 =>
          match calculate p.CALC (adopted p s6) with
          | .error e => .error e
          | .ok (v, s8) => voteCount 0 v s8
    else .ok s3

/-- State `t` differs from `s` at most in the strike counts, the reboot flags and the
trace of effects. -/
def StrikeOnly (s t : State) : Prop :=
  ∃ st rb tr, t = { s with STRIKES_NODE_ARR := st, REBOOT_ARR := rb, TRACE := tr }

/-- The globals after `c_handler` has opened the round for input `N` and announced it. -/
def announced (P : Platform) (now face junk N : Nat) (s1 : State) : State :=
  FWD_R_PKT
    { key := { ID := P.ID_HOST, TIME := now }
      CALC := N
      calc_ver := ((flushed s1).HOST_CALC_VER + 1) % U32
      rslt := (flushed s1).VOTE_NODE_ARR 0
      neighbor := junk }
    face
    { flushed s1 with HOST_CALC_VER := ((flushed s1).HOST_CALC_VER + 1) % U32, HOST_CALC := N }

/-- State `t` differs from `s` at most in what the heartbeat touches: ping counts,
time-stamps, activity marks, strike counts and the trace of effects. -/
def BeatOnly (s t : State) : Prop :=
  ∃ pc tn th ac st tr, t =
    { s with
      PC_NODE_ARR := pc, TS_NODE_ARR := tn, TS_HOST_ARR := th, ACTIVE_NODE_ARR := ac,
      STRIKES_NODE_ARR := st, TRACE := tr }

/-- Well-formedness of the registry: the host is known, the table is not over-full, and no
identifier occurs twice among the known nodes. -/
structure Registry (s : State) : Prop where
  nc_pos : 1 ≤ s.NODE_COUNT
  nc_le : s.NODE_COUNT ≤ CAP
  ids : ∀ i j, i < s.NODE_COUNT → j < s.NODE_COUNT → s.ID_NODE_ARR i = s.ID_NODE_ARR j → i = j

/-- The invariant of the engine: the registry is well formed and the round data agree with
the votes recorded in it. -/
structure Inv (s : State) : Prop where
  tally : Tally s
  reg : Registry s

/-- States of one round: the state left by `flush()` in an engine whose registry is not
over-full and whose calculation input is not 0, and every state reached from it by
`voteCount` calls for known nodes. -/
inductive RoundReach : State → Prop where
  | start (s s0 : State) : s.NODE_COUNT ≤ CAP → s.HOST_CALC ≠ 0 → flush s = .ok s0 →
      RoundReach s0
  | vote (s s1 : State) (i b : Nat) : RoundReach s → i < s.NODE_COUNT →
      voteCount i b s = .ok s1 → RoundReach s1

/-- The state carried by a returning run, or `d` when the run halts. -/
def stateOf (r : Except Halt State) (d : State) : State :=
  match r with
  | .ok s => s
  | .error _ => d

/-- A board with identifier 100 and four faces. -/
def demoBoard : Platform :=
  { ID_HOST := 100, FACE_COUNT := 4, reboot_PERIOD := 3000, STRIKES_BITS := 8 }

/-- The state of `demoBoard` after `setup()`. -/
def demoBoot : State := setup demoBoard (fun _ => 0) (fun _ => 0) (fun _ => 0)

/-- An engine that knows three nodes and works on calculation 4, version 5. -/
def demoThree : State :=
  { demoBoot with NODE_COUNT := 3, HOST_CALC := 4, HOST_CALC_VER := 5 }

/-- The round of `demoThree` after the votes 7, 7 and 9 of nodes 0, 1 and 2. -/
def demo779 : State :=
  stateOf (voteCount 2 9 (stateOf (voteCount 1 7 (stateOf (voteCount 0 7 (flushed demoThree))
    demoThree)) demoThree)) demoThree

/-- The round of `demoThree` after the votes 7 and 9 of nodes 0 and 1. -/
def demo79 : State :=
  stateOf (voteCount 1 9 (stateOf (voteCount 0 7 (flushed demoThree)) demoThree)) demoThree

/-- States reached from a state left by `setup()` through steps of the relation `step`. -/
inductive Reach (P : Platform) (step : State → State → Prop) : State → Prop where
  | boot (st nb rb : Nat → Nat) : Reach P step (setup P st nb rb)
  | next (s s1 : State) : Reach P step s → step s s1 → Reach P step s1

/-- One run of `r_handler` that returns. -/
def RStep (P : Platform) (s s1 : State) : Prop :=
  ∃ now face scan, r_handler P now face scan s = .ok s1

/-- One run of `c_handler` that returns. -/
def CStep (P : Platform) (s s1 : State) : Prop :=
  ∃ now face junk scan, c_handler P now face junk scan s = .ok s1

/-- One run of `heartBeat` that returns. -/
def HStep (P : Platform) (s s1 : State) : Prop :=
  ∃ now due, heartBeat P now due s = .ok s1

/-- One run of `flush`. -/
def FlushStep (s s1 : State) : Prop :=
  flush s = .ok s1

/-- One run of `voteCount` for a known node that returns. -/
def VoteStep (s s1 : State) : Prop :=
  ∃ i b, i < s.NODE_COUNT ∧ voteCount i b s = .ok s1

/-- One run of `log` that returns. -/
def LogStep (s s1 : State) : Prop :=
  ∃ ID TIME now idx, log ID TIME now s = .ok (idx, s1)

/-- A result packet of node 7 for round 0 carrying the vote 5. -/
def demoVote : R_PKT :=
  { key := { ID := 7, TIME := 5000 }, CALC := 0, calc_ver := 0, rslt := 5, neighbor := 1 }

/-- The state of `demoBoard` after it has handled `demoVote` on face 1. -/
def demoOneVote : State :=
  stateOf (r_handler demoBoard 50 1 (some demoVote) demoBoot) demoBoot

/-- State `t` has the same number of known nodes, the same identifiers and the same
node-side time-stamps as `s`. -/
def KeepsKeys (s t : State) : Prop :=
  t.NODE_COUNT = s.NODE_COUNT ∧ t.ID_NODE_ARR = s.ID_NODE_ARR ∧ t.TS_NODE_ARR = s.TS_NODE_ARR

/-- The state of `demoBoard` after the command `c0`, which opens round version 1. -/
def demoRound1 : State :=
  stateOf (c_handler demoBoard 10 0 0 (some 0) demoBoot) demoBoot

/-- The state of `demoBoard` in round version 1 after it has handled `demoVote`, a packet
of round version 0. -/
def demoStale : State :=
  stateOf (r_handler demoBoard 50 1 (some demoVote) demoRound1) demoRound1

/-- A result packet of node 7 that opens round version 2 for calculation 3 with vote 5. -/
def demoNewRound : R_PKT :=
  { key := { ID := 7, TIME := 5000 }, CALC := 3, calc_ver := 2, rslt := 5, neighbor := 1 }

/-- The state of `demoBoard` after `log` has admitted the sender of `demoNewRound`. -/
def demoLogged : State :=
  logNew demoBoot 7 5000 50

/-- A result packet of node 7 that carries the highest round version a `u32` can hold. -/
def demoLastRound : R_PKT :=
  { key := { ID := 7, TIME := 5000 }, CALC := 0, calc_ver := 4294967295, rslt := 3,
    neighbor := 1 }

/-- The state of `demoBoard` after it has handled `demoLastRound`. -/
def demoMaxVer : State :=
  stateOf (r_handler demoBoard 50 1 (some demoLastRound) demoBoot) demoBoot

/-- The state of `demoBoard` after `demoLastRound` and then the command `c0`. -/
def demoWrapped : State :=
  stateOf (c_handler demoBoard 60 0 0 (some 0) demoMaxVer) demoMaxVer

/-- The tallies 1, 1, 2 in the first three cells of a tally array. -/
def demoTallies : Nat → Nat :=
  fun i => if i = 0 then 1 else if i = 1 then 1 else if i = 2 then 2 else 0

/-- The round of `demoThree` after the votes 9, 7 and 7 of nodes 0, 1 and 2. -/
def demo977 : State :=
  stateOf (voteCount 2 7 (stateOf (voteCount 1 7 (stateOf (voteCount 0 9 (flushed demoThree))
    demoThree)) demoThree)) demoThree

/-- The strike count that one run of the loop body of `strikeCheck` leaves for node `j`. -/
def strikeOf (P : Platform) (s : State) (j : Nat) : Nat :=
  if s.VOTE_NODE_ARR j ≠ s.MAJORITY_RSLT then (s.STRIKES_NODE_ARR j + 1) % 2 ^ P.STRIKES_BITS
  else 0

/-- The globals after the loop of `strikeCheck` has updated the strike counts of the nodes
`0 .. n - 1` without punishing any of them. -/
def struckTo (P : Platform) (s : State) (n : Nat) : State :=
  { s with
    STRIKES_NODE_ARR := fun j => if j < n then strikeOf P s j else s.STRIKES_NODE_ARR j }

/-- The loop body of `strikeCheck` punishes node `j`: its updated strike count exceeds 2 and
its identifier is the neighbour on some face. -/
def punished (P : Platform) (s : State) (j : Nat) : Prop :=
  strikeOf P s j > 2 ∧ INVALID ≠ getNeighborFace P (s.ID_NODE_ARR j) s

/-- The globals after `strikeCheck` has punished node `m`, the first one it punishes. -/
def punishedAt (P : Platform) (now : Nat) (s : State) (m : Nat) : State :=
  { struckTo P s (m + 1) with
    REBOOT_ARR := setAt s.REBOOT_ARR (getNeighborFace P (s.ID_NODE_ARR m) s) 1
    TRACE := s.TRACE ++
      [Event.powerOut (getNeighborFace P (s.ID_NODE_ARR m) s) 0,
        Event.alarmReboot ((now + P.reboot_PERIOD) % U32)] }

/-- Node `i` of state `s` is an offender on link `f`: it is a known node whose vote differs
from the majority result and whose identifier is the neighbour on face `f`, no node before
it in scan order is punished by a sweep run in `s`, and no other known node carries its
identifier. -/
structure Offender (P : Platform) (i f : Nat) (s : State) : Prop where
  nc_le : s.NODE_COUNT ≤ CAP
  known : i < s.NODE_COUNT
  differs : s.VOTE_NODE_ARR i ≠ s.MAJORITY_RSLT
  mapped : getNeighborFace P (s.ID_NODE_ARR i) s = f
  link : f ≠ INVALID
  earlier : ∀ j, j < i → ¬ punished P s j
  ids : ∀ j, j < s.NODE_COUNT → j ≠ i → s.ID_NODE_ARR j ≠ s.ID_NODE_ARR i

/-- The state `demoOneVote` after one strike sweep at time 100. -/
def demoStrike1 : State := stateOf (strikeCheck demoBoard 100 demoOneVote) demoOneVote

/-- The state `demoStrike1` after a second strike sweep, at time 200. -/
def demoStrike2 : State := stateOf (strikeCheck demoBoard 200 demoStrike1) demoStrike1

/-- The state `demoStrike2` after a third strike sweep, at time 300. -/
def demoStrike3 : State := stateOf (strikeCheck demoBoard 300 demoStrike2) demoStrike2

/-- A result packet of node 7 sent half a second after that node started. -/
def demoEarly : R_PKT :=
  { key := { ID := 7, TIME := 500 }, CALC := 0, calc_ver := 0, rslt := 5, neighbor := 1 }

/-- The state of `demoBoard` after it has handled `demoEarly` on face 1. -/
def demoAmnesty : State :=
  stateOf (r_handler demoBoard 50 1 (some demoEarly) demoBoot) demoBoot

/-- The age of the host-side time-stamp of node `j` as the liveness loop of `heartBeat`
computes it: the difference to the host's own time-stamp in `u32` arithmetic. -/
def age32 (s : State) (j : Nat) : Nat :=
  (s.TS_HOST_ARR 0 + U32 - s.TS_HOST_ARR j) % U32

/-- State `t` differs from `s` at most in the activity marks, the ping counts and the strike
counts. -/
def LiveOnly (s t : State) : Prop :=
  t = { s with
        ACTIVE_NODE_ARR := t.ACTIVE_NODE_ARR, PC_NODE_ARR := t.PC_NODE_ARR,
        STRIKES_NODE_ARR := t.STRIKES_NODE_ARR }

/-- The body of the liveness loop of `heartBeat` for node `i`. -/
def liveBody (i : Nat) (s : State) : State :=
  if age32 s i < IDLE then { s with ACTIVE_NODE_ARR := setAt s.ACTIVE_NODE_ARR i 'A' }
  else
    { s with
      ACTIVE_NODE_ARR := setAt s.ACTIVE_NODE_ARR i 'I'
      PC_NODE_ARR := setAt s.PC_NODE_ARR i 0
      STRIKES_NODE_ARR := setAt s.STRIKES_NODE_ARR i 0 }

/-- The globals after `heartBeat` has broadcast its packet and updated the host's own
record, before the liveness loop. -/
def beaten (P : Platform) (now : Nat) (s : State) : State :=
  { BRD_R_PKT
      { key := { ID := P.ID_HOST, TIME := now }
        CALC := s.HOST_CALC
        calc_ver := s.HOST_CALC_VER
        rslt := s.VOTE_NODE_ARR 0
        neighbor := 1 } s with
    PC_NODE_ARR := setAt s.PC_NODE_ARR 0 ((s.PC_NODE_ARR 0 + 1) % U16)
    TS_NODE_ARR := setAt s.TS_NODE_ARR 0 now
    TS_HOST_ARR := setAt s.TS_HOST_ARR 0 now }

/-- State `t` has the same number of known nodes, the same ping counts and the same activity
marks as `s`. -/
def SameBook (s t : State) : Prop :=
  t.NODE_COUNT = s.NODE_COUNT ∧ t.PC_NODE_ARR = s.PC_NODE_ARR ∧
  t.ACTIVE_NODE_ARR = s.ACTIVE_NODE_ARR

/-- The part of the registry that no handler writes: the host is known and marked active,
and the ping counts of the cells that hold no node yet are 0. -/
structure Fresh (s : State) : Prop where
  nc_pos : 1 ≤ s.NODE_COUNT
  pc_out : ∀ i, s.NODE_COUNT ≤ i → s.PC_NODE_ARR i = 0
  host_active : s.ACTIVE_NODE_ARR 0 = 'A'

/-- One step of the engine: a run of `log`, `r_handler`, `c_handler` or `heartBeat` that
returns. -/
def EngineStep (P : Platform) (s s1 : State) : Prop :=
  LogStep s s1 ∨ RStep P s s1 ∨ CStep P s s1 ∨ HStep P s s1

/-- The state of `demoBoard` after it has handled `demoVote` and then, at time 6000, sent a
heartbeat. -/
def demoBeat : State :=
  stateOf (heartBeat demoBoard 6000 6000 demoOneVote) demoOneVote

/-- A heartbeat-like result packet of peer number `k` for round version 1. -/
def demoPeer (k : Nat) : R_PKT :=
  { key := { ID := 200 + k, TIME := 5000 }, CALC := 0, calc_ver := 1, rslt := 0, neighbor := 0 }

/-- The state of `demoBoard` in round version 1 after it has heard from 31 peers: its
registry holds 32 records. -/
def demoFull : State :=
  (List.range 31).foldl
    (fun s k => stateOf (r_handler demoBoard 50 1 (some (demoPeer k)) s) s) demoRound1

/-- What the sieve of `calculate` has established once the candidates below `J` have been
processed: the buffer has its declared length, and a cell `x` holds 0 exactly when no `d`
with `2 <= d < J` is a proper divisor of `x`. -/
def SieveInv (J : Nat) (sv : List Nat) : Prop :=
  sv.length = PRIME_ARR_THRESHOLD ∧
  ∀ x, x < PRIME_ARR_THRESHOLD → (sv.getD x 0 = 0 ↔ ∀ d, 2 ≤ d → d < J → d ∣ x → x ≤ d)

/-- The buffer carried by a returning run of one of the sieve loops, or the empty list when
the run halts. -/
def bufferOf (r : Except Halt (List Nat)) : List Nat :=
  match r with
  | .ok sv => sv
  | .error _ => []

/-- The sieve buffer that every run of `calculate` on an input other than 0 leaves behind:
the cleared buffer after the sieve loop for `i = PRIME_ARR_THRESHOLD`. -/
def sieved : List Nat :=
  bufferOf
    (sieveLoop PRIME_ARR_THRESHOLD PRIME_ARR_THRESHOLD 2 (List.replicate PRIME_ARR_THRESHOLD 0))

/-- The argument `b` that `calculate(a)` searches for: `a + 1` when the fault flag is set. -/
def rank (s : State) (a : Nat) : Nat :=
  if s.FAULTY then (a + 1) % U32 else a

/-- Trial division: no `e` among the next `fuel` candidates from `d` on with `e * e <= n`
divides `n`. -/
def trial (n : Nat) : Nat → Nat → Bool
  | 0, _ => true
  | fuel + 1, d =>
    if n < d * d then true else if n % d = 0 then false else trial n fuel (d + 1)

/-- A primality test for the numbers below `89 * 89 = 7921`, by trial division. -/
def isPrimeB (n : Nat) : Bool :=
  decide (2 ≤ n) && trial n 88 2

/-- The number `acc` raised by one for each `n` in `[lo, lo + len)` that passes
`isPrimeB`. -/
def primesFrom : Nat → Nat → Nat → Nat
  | 0, _, acc => acc
  | len + 1, lo, acc => primesFrom len (lo + 1) (if isPrimeB lo then acc + 1 else acc)

/-- A board that knows the nodes 100 (itself), 7 and 8, the latter two as its neighbours on
the faces 1 and 2, works on calculation 4 in round version 5, and holds two strikes against
node 7. -/
def demoTrio : State :=
  { demoThree with
    ID_NODE_ARR := fun i => if i = 0 then 100 else if i = 1 then 7 else if i = 2 then 8 else 0
    NEIGHBORS_ARR := fun f => if f = 1 then 7 else if f = 2 then 8 else 0
    STRIKES_NODE_ARR := fun i => if i = 1 then 2 else 0 }

/-- The round of `demoTrio` after the votes 7, 9 and 8 of nodes 0, 1 and 2: a tie. -/
def demoSplit : State :=
  stateOf (voteCount 2 8 (stateOf (voteCount 1 9 (stateOf (voteCount 0 7 (flushed demoTrio))
    demoTrio)) demoTrio)) demoTrio

/-- Node `j` has been swept by the run of `strikeCheck` that led from `s` to `b`: its strike
count is 0 when its vote equals the majority result and one higher than before when it
differs, in the arithmetic of a strike cell. -/
def Swept (P : Platform) (s b : State) (j : Nat) : Prop :=
  (s.VOTE_NODE_ARR j = s.MAJORITY_RSLT → b.STRIKES_NODE_ARR j = 0) ∧
  (s.VOTE_NODE_ARR j ≠ s.MAJORITY_RSLT →
    b.STRIKES_NODE_ARR j = (s.STRIKES_NODE_ARR j + 1) % 2 ^ P.STRIKES_BITS ∧
    (s.STRIKES_NODE_ARR j + 1 < 2 ^ P.STRIKES_BITS →
      b.STRIKES_NODE_ARR j = s.STRIKES_NODE_ARR j + 1))

/-- The state `demoSplit` after a strike sweep at time 100. -/
def demoSplitSwept : State := stateOf (strikeCheck demoBoard 100 demoSplit) demoSplit

/-- Whether an effect is a call of `powerOut`. -/
def isPower : Event → Bool
  | .powerOut _ _ => true
  | _ => false

/-- A result packet of node 7 stamped `t`, carrying the vote 5 for round version `v` and the
neighbour flag. -/
def demoVoteAt (t v : Nat) : R_PKT :=
  { key := { ID := 7, TIME := t }, CALC := 0, calc_ver := v, rslt := 5, neighbor := 1 }

/-- The freshly started `demoBoard` after node 7 has voted 5 through face 2. -/
def demoLink1 : State :=
  stateOf (r_handler demoBoard 50 2 (some (demoVoteAt 5000 0)) demoBoot) demoBoot

/-- Then the command `c0` opens round version 1: first strike against node 7. -/
def demoLink2 : State :=
  stateOf (c_handler demoBoard 60 0 0 (some 0) demoLink1) demoLink1

/-- Node 7 votes 5 in round version 1. -/
def demoLink3 : State :=
  stateOf (r_handler demoBoard 70 2 (some (demoVoteAt 6000 1)) demoLink2) demoLink2

/-- The command `c0` opens round version 2: second strike against node 7. -/
def demoLink4 : State :=
  stateOf (c_handler demoBoard 80 0 0 (some 0) demoLink3) demoLink3

/-- Node 7 votes 5 in round version 2. -/
def demoLink5 : State :=
  stateOf (r_handler demoBoard 90 2 (some (demoVoteAt 7000 2)) demoLink4) demoLink4

/-- The command `c0` opens round version 3: third strike against node 7, whose link, face 2,
is powered down. -/
def demoLink6 : State :=
  stateOf (c_handler demoBoard 100 0 0 (some 0) demoLink5) demoLink5

/-- The reboot alarm set by that sweep fires. -/
def demoLink7 : State := reboot demoBoard demoLink6

/-- The packet that `c_handler` forwards for the command `c1` at time 10 on `demoBoard`,
whose unassigned member `neighbor` happens to hold 0. -/
def demoNotice : R_PKT :=
  { key := { ID := 100, TIME := 10 }, CALC := 1, calc_ver := 1, rslt := 0, neighbor := 0 }

/-- The state in which `c_handler` leaves the freshly started `demoBoard` when the command
`c1` arrives on face 0 at time 10 and `calculate(1)` has left `buf` in the sieve buffer:
the state after `voteCount(0, 2)`. -/
def demoCommandWith (buf : List Nat) : State :=
  stateOf
    (voteCount 0 2
      { announced demoBoard 10 0 0 1 (stateOf (strikeCheck demoBoard 10 demoBoot) demoBoot) with
        STATUS := PROCESSING, sieve := buf })
    demoBoot

/-- The state of `demoBoard` after the command `c1`, received on face 0 at time 10 by the
freshly started board. -/
def demoCommand1 : State := demoCommandWith sieved

/-- The freshly started `demoBoard` after its button has been pressed once. -/
def demoFaulty : State := faultToggle demoBoot

/-- The state in which `c_handler` leaves `demoFaulty` when the command `c1000` arrives on
face 0 at time 10 and `calculate(1000)` has left `buf` in the sieve buffer. -/
def demoThousandWith (buf : List Nat) : State :=
  { announced demoBoard 10 0 0 1000
      (stateOf (strikeCheck demoBoard 10 demoFaulty) demoFaulty) with
    STATUS := PROCESSING, sieve := buf }

/-- The state of `demoBoard` after the button press and the command `c1000`. -/
def demoThousand : State := demoThousandWith sieved

/-- The result packet of peer number `k` for round version 1 of calculation 1, with the
vote `3 + k`. -/
def demoBallot (k : Nat) : R_PKT :=
  { key := { ID := 200 + k, TIME := 5000 }, CALC := 1, calc_ver := 1, rslt := 3 + k,
    neighbor := 0 }

/-- The state of `demoBoard` after the command `c1` with `buf` in the sieve buffer and the
ballots of the peers `0 .. 29`, each with a vote of its own. -/
def demoCrowdWith (buf : List Nat) : State :=
  (List.range 30).foldl
    (fun s k => stateOf (r_handler demoBoard 50 1 (some (demoBallot k)) s) s)
    (demoCommandWith buf)

/-- The halt in which a run ends, if it ends in one. -/
def haltOf (r : Except Halt State) : Option Halt :=
  match r with
  | .ok _ => none
  | .error e => some e

/-- The state of `demoBoard` after the command `c1` and the ballots of 30 peers. -/
def demoCrowd : State := demoCrowdWith sieved

/-- One call `voteCount(i, b)`, with the globals `s` at the moment of the call. -/
structure VoteCall where
  i : Nat
  b : Nat
  s : State

/-- The calls of `voteCount` made by the part of `r_handler` that runs once a packet has
passed the three guards, in the order in which they are made. -/
def r_acceptCalls (P : Platform) (now face : Nat) (p : R_PKT) (idx : Nat) (s1 : State) :
    List VoteCall :=
  if p.neighbor ≠ 0 ∧ ¬ face < P.FACE_COUNT then []
  else
    let s3 := accepted face p s1
    if p.calc_ver = s1.HOST_CALC_VER then [⟨idx, p.rslt, s3⟩]
    else if p.calc_ver > s1.HOST_CALC_VER then
      match strikeCheck P now s3 with
      | .error _ => []
      | .ok s4 =>
        ⟨idx, p.rslt, flushed s4⟩ ::
          match voteCount idx p.rslt (flushed s4) with
          | .error _ => []
          | .ok s6 =>
            match calculate p.CALC (adopted p s6) with
            | .error _ => []
            | .ok (v, s8) => [⟨0, v, s8⟩]
    else []

/-- The calls of `voteCount` made by one run of `r_handler`, in order. -/
def r_handlerCalls (P : Platform) (now face : Nat) (scan : Option R_PKT) (s : State) :
    List VoteCall :=
  match scan with
  | none => []
  | some p =>
    match log p.key.ID p.key.TIME now s with
    | .error _ => []
    | .ok (idx, s1) =>
      if INVALID = idx then []
      else if idx < CAP then
        if s1.PC_NODE_ARR idx > p.key.TIME / 1000 then []
        else if p.calc_ver < s1.HOST_CALC_VER then []
        else r_acceptCalls P now face p idx s1
      else []

/-- The calls of `voteCount` made by one run of `c_handler`. -/
def c_handlerCalls (P : Platform) (now face junk : Nat) (scan : Option Nat) (s : State) :
    List VoteCall :=
  match scan with
  | none => []
  | some N =>
    if N > PRIME_THRESHOLD then []
    else
      match strikeCheck P now s with
      | .error _ => []
      | .ok s1 =>
        match calculate N (announced P now face junk N s1) with
        | .error _ => []
        | .ok (v, s5) => [⟨0, v, s5⟩]

/-- The call `c` does not take the self-heal branch of `voteCount`: its node is known, the
vote count does not exceed the node count, the test `VOTE_COUNT > NODE_COUNT` that follows
the increment for a node without a recorded vote is false, and the run of `voteCount` is
the same for every bound on the depth of its recursion and does not hit the bound 1, which
allows no recursive call. -/
def NoHeal (c : VoteCall) : Prop :=
  c.i < c.s.NODE_COUNT ∧ c.s.VOTE_COUNT ≤ c.s.NODE_COUNT ∧
  (c.s.VOTE_NODE_ARR c.i = 0 → ¬ (c.s.VOTE_COUNT + 1) % U32 > c.s.NODE_COUNT) ∧
  (∀ fuel, voteCountAux (fuel + 1) c.i c.b c.s = voteCountAux 1 c.i c.b c.s) ∧
  voteCountAux 1 c.i c.b c.s ≠ .error .diverge

/-- The globals in which `r_handler` calls `voteCount(31, 33)` for the ballot of the 31st
peer (`demoBallot 30`, received on face 1 at time 50 in `demoCrowd`): `log` has appended the
sender at index 31 and the packet has been forwarded. -/
def demoLast : State := accepted 1 (demoBallot 30) (logNew demoCrowd 230 5000 50)

/-- The globals in which that call of `voteCount` calls `evalMajority`: the ballot 33 has
been counted for node 31 in the last free candidate slot, 31. -/
def demoTie32 : State := tallied demoLast 31 33 31

/-! ## Lemmas and theorems -/

theorem setStatus_OFF (s : State) : setStatus OFF s = .ok { s with STATUS := OFF } := by
  simp [setStatus]

theorem setStatus_MINORITY (s : State) :
    setStatus MINORITY s = .ok { s with STATUS := MINORITY } := by
  simp [setStatus]

theorem setStatus_MAJORITY (s : State) :
    setStatus MAJORITY s = .ok { s with STATUS := MAJORITY } := by
  simp [setStatus]

theorem setStatus_PROCESSING (s : State) :
    setStatus PROCESSING s = .ok { s with STATUS := PROCESSING } := by
  simp [setStatus]

theorem flush_eq (s : State) : flush s = .ok (flushed s) := by
  simp [flush, flushed, setStatus]

theorem voteCount_recorded (s : State) (i b : Nat) (hi : i < CAP)
    (hv : s.VOTE_NODE_ARR i ≠ 0) : voteCount i b s = .ok s := by
  unfold voteCount voteCountAux
  by_cases hb : 0 = b
  · simp [hb]
  · have hv2 : ¬ (0 = s.VOTE_NODE_ARR i) := fun h => hv h.symm
    simp [hb, hi, hv2]

theorem getMaxLoop_below (a : Nat → Nat) :
    ∀ (rem i : Nat) (t : Bool) (mv mi : Nat), i + rem ≤ CAP →
      (∀ k, i ≤ k → k < i + rem → a k < mv) →
      getMaxLoop a rem i t mv mi = .ok (t, mv, mi) := by
  intro rem
  induction rem with
  | zero => intro i t mv mi _ _; simp [getMaxLoop]
  | succ n ih =>
    intro i t mv mi hb hlt
    have hi : i < CAP := by omega
    have h1 : a i < mv := hlt i (Nat.le_refl _) (by omega)
    have h2 : ¬ (a i > mv) := by omega
    have h3 : ¬ (a i = mv) := by omega
    rw [getMaxLoop]
    simp only [hi, h2, h3, if_true, if_false]
    exact ih (i + 1) t mv mi (by omega) (fun k hk1 hk2 => hlt k (by omega) (by omega))

theorem getMaxLoop_unique (a : Nat → Nat) (m : Nat) :
    ∀ (rem i : Nat) (t : Bool) (mv mi : Nat), i + rem ≤ CAP → i ≤ m → m < i + rem →
      mv < a m → (∀ k, i ≤ k → k < i + rem → k ≠ m → a k < a m) →
      getMaxLoop a rem i t mv mi = .ok (false, a m, m) := by
  intro rem
  induction rem with
  | zero => intro i t mv mi _ h1 h2; omega
  | succ n ih =>
    intro i t mv mi hb him hm hmv hlt
    have hi : i < CAP := by omega
    rw [getMaxLoop]
    simp only [hi, if_true]
    by_cases hEq : i = m
    · subst hEq
      have h1 : a i > mv := hmv
      simp only [h1, if_true]
      exact getMaxLoop_below a n (i + 1) false (a i) i (by omega)
        (fun k hk1 hk2 => hlt k (by omega) (by omega) (by omega))
    · have hai : a i < a m := hlt i (Nat.le_refl _) (by omega) hEq
      have hrest : ∀ k, i + 1 ≤ k → k < i + 1 + n → k ≠ m → a k < a m :=
        fun k hk1 hk2 hk3 => hlt k (by omega) (by omega) hk3
      split_ifs with h1 h2
      · exact ih (i + 1) false (a i) i (by omega) (by omega) (by omega) hai hrest
      · exact ih (i + 1) true mv mi (by omega) (by omega) (by omega) hmv hrest
      · exact ih (i + 1) t mv mi (by omega) (by omega) (by omega) hmv hrest

theorem getMaxLoop_tied (a : Nat → Nat) :
    ∀ (rem i : Nat) (mv mi : Nat), i + rem ≤ CAP →
      (∀ k, i ≤ k → k < i + rem → a k ≤ mv) →
      getMaxLoop a rem i true mv mi = .ok (true, mv, mi) := by
  intro rem
  induction rem with
  | zero => intro i mv mi _ _; simp [getMaxLoop]
  | succ n ih =>
    intro i mv mi hb hle
    have hi : i < CAP := by omega
    have h1 : a i ≤ mv := hle i (Nat.le_refl _) (by omega)
    have h2 : ¬ (a i > mv) := by omega
    rw [getMaxLoop]
    simp only [hi, h2, if_true, if_false]
    split_ifs <;>
      exact ih (i + 1) mv mi (by omega) (fun k hk1 hk2 => hle k (by omega) (by omega))

theorem getMaxLoop_hit (a : Nat → Nat) (m : Nat) :
    ∀ (rem i : Nat) (t : Bool) (mv mi : Nat), i + rem ≤ CAP → i ≤ m → m < i + rem →
      a m = mv → (∀ k, i ≤ k → k < i + rem → a k ≤ mv) →
      getMaxLoop a rem i t mv mi = .ok (true, mv, mi) := by
  intro rem
  induction rem with
  | zero => intro i t mv mi _ h1 h2; omega
  | succ n ih =>
    intro i t mv mi hb him hm hmv hle
    have hi : i < CAP := by omega
    have h1 : a i ≤ mv := hle i (Nat.le_refl _) (by omega)
    have h2 : ¬ (a i > mv) := by omega
    have hrest : ∀ k, i + 1 ≤ k → k < i + 1 + n → a k ≤ mv :=
      fun k hk1 hk2 => hle k (by omega) (by omega)
    rw [getMaxLoop]
    simp only [hi, h2, if_true, if_false]
    by_cases hEq : i = m
    · subst hEq
      simp only [hmv, if_true]
      exact getMaxLoop_tied a n (i + 1) mv mi (by omega) hrest
    · split_ifs with h3
      · exact getMaxLoop_tied a n (i + 1) mv mi (by omega) hrest
      · exact ih (i + 1) t mv mi (by omega) (by omega) (by omega) hmv hrest

theorem getMaxLoop_two (a : Nat → Nat) (m1 m2 : Nat) (hm : m1 < m2) (heq : a m1 = a m2) :
    ∀ (rem i : Nat) (t : Bool) (mv mi : Nat), i + rem ≤ CAP → i ≤ m1 → m2 < i + rem →
      mv < a m1 → (∀ k, i ≤ k → k < i + rem → a k ≤ a m1) →
      ∃ mi1, getMaxLoop a rem i t mv mi = .ok (true, a m1, mi1) := by
  intro rem
  induction rem with
  | zero => intro i t mv mi _ h1 h2; omega
  | succ n ih =>
    intro i t mv mi hb him hm2 hmv hle
    have hi : i < CAP := by omega
    have hrest : ∀ k, i + 1 ≤ k → k < i + 1 + n → a k ≤ a m1 :=
      fun k hk1 hk2 => hle k (by omega) (by omega)
    have h1 : a i ≤ a m1 := hle i (Nat.le_refl _) (by omega)
    rw [getMaxLoop]
    simp only [hi, if_true]
    by_cases hEq : a i = a m1
    · have h2 : a i > mv := by omega
      simp only [h2, if_true]
      refine ⟨i, ?_⟩
      rw [hEq]
      exact getMaxLoop_hit a m2 n (i + 1) false (a m1) i (by omega) (by omega) (by omega)
        heq.symm hrest
    · have hne : i ≠ m1 := fun h => hEq (by rw [h])
      split_ifs with h2 h3
      · exact ih (i + 1) false (a i) i (by omega) (by omega) (by omega) (by omega) hrest
      · exact ih (i + 1) true mv mi (by omega) (by omega) (by omega) hmv hrest
      · exact ih (i + 1) t mv mi (by omega) (by omega) (by omega) hmv hrest

theorem getMaxLoop_inv (a : Nat → Nat) :
    ∀ (rem i : Nat) (t : Bool) (mv mi : Nat), i + rem ≤ CAP → ScanInv i t mv mi →
      ∃ t1 mv1 mi1, getMaxLoop a rem i t mv mi = .ok (t1, mv1, mi1) ∧
        ScanInv (i + rem) t1 mv1 mi1 := by
  intro rem
  induction rem with
  | zero => intro i t mv mi _ h; exact ⟨t, mv, mi, by simp [getMaxLoop], h⟩
  | succ n ih =>
    intro i t mv mi hb hinv
    have hi : i < CAP := by omega
    rw [getMaxLoop]
    simp only [hi, if_true]
    have e : i + (n + 1) = i + 1 + n := by omega
    rw [e]
    split_ifs with h1 h2
    · exact ih (i + 1) false (a i) i (by omega) (Or.inl ⟨by omega, by omega⟩)
    · refine ih (i + 1) true mv mi (by omega) ?_
      rcases hinv with ⟨h3, h4⟩ | ⟨h3, _⟩
      · exact Or.inl ⟨by omega, h4⟩
      · exact Or.inr ⟨h3, fun _ => rfl⟩
    · refine ih (i + 1) t mv mi (by omega) ?_
      rcases hinv with ⟨h3, h4⟩ | ⟨h3, _⟩
      · exact Or.inl ⟨by omega, h4⟩
      · omega

theorem getMaxIndex_unique (a : Nat → Nat) (size m : Nat) (hs : size ≤ CAP) (hm : m < size)
    (hpos : 0 < a m) (hlt : ∀ k, k < size → k ≠ m → a k < a m) :
    getMaxIndex a size = .ok m := by
  have h0 : ¬ size ≤ 0 := by omega
  have hl := getMaxLoop_unique a m size 0 false 0 INVALID (by omega) (by omega) (by omega) hpos
    (fun k _ hk hne => hlt k (by omega) hne)
  have hmi : INVALID ≠ m := by unfold INVALID; unfold CAP at hs; omega
  have hmv : 0 ≠ a m := by omega
  simp [getMaxIndex, h0, hl, hmi, hmv]

theorem getMaxIndex_tie (a : Nat → Nat) (size m1 m2 : Nat) (hs : size ≤ CAP) (h12 : m1 < m2)
    (hm : m2 < size) (heq : a m1 = a m2) (hpos : 0 < a m1)
    (hle : ∀ k, k < size → a k ≤ a m1) :
    getMaxIndex a size = .ok TIE := by
  have h0 : ¬ size ≤ 0 := by omega
  obtain ⟨mi1, hl⟩ := getMaxLoop_two a m1 m2 h12 heq size 0 false 0 INVALID (by omega)
    (by omega) (by omega) hpos (fun k _ hk => hle k (by omega))
  simp [getMaxIndex, h0, hl]

theorem getMaxIndex_range (a : Nat → Nat) (size : Nat) (h0 : 0 < size) (hs : size ≤ CAP) :
    ∃ j, getMaxIndex a size = .ok j ∧ (j = TIE ∨ j < size) := by
  have h0' : ¬ size ≤ 0 := by omega
  obtain ⟨t1, mv1, mi1, hl, hinv⟩ := getMaxLoop_inv a size 0 false 0 INVALID (by omega)
    (Or.inr ⟨rfl, fun h => absurd h (by omega)⟩)
  simp only [getMaxIndex, h0', if_false, hl]
  cases t1 with
  | true => exact ⟨TIE, by simp, Or.inl rfl⟩
  | false =>
    rcases hinv with ⟨h3, h4⟩ | ⟨_, h4⟩
    · have hmi : INVALID ≠ mi1 := by unfold INVALID; unfold CAP at hs; omega
      have hmv : 0 ≠ mv1 := fun h => h4 h.symm
      exact ⟨mi1, by simp [hmi, hmv], Or.inr (by omega)⟩
    · have := h4 (by omega)
      simp at this

theorem count_congr (p q : Nat → Prop) [DecidablePred p] [DecidablePred q] :
    ∀ n, (∀ j, j < n → (p j ↔ q j)) → Nat.count p n = Nat.count q n := by
  intro n
  induction n with
  | zero => intro _; simp
  | succ n ih =>
    intro h
    rw [Nat.count_succ, Nat.count_succ, ih (fun j hj => h j (by omega))]
    have := h n (by omega)
    by_cases hp : p n <;> simp [hp, this.mp, ← this]

theorem count_flip (p q : Nat → Prop) [DecidablePred p] [DecidablePred q] (i : Nat) :
    ∀ n, i < n → (∀ j, j < n → j ≠ i → (p j ↔ q j)) → p i → ¬ q i →
      Nat.count p n = Nat.count q n + 1 := by
  intro n
  induction n with
  | zero => intro h; omega
  | succ n ih =>
    intro hi h hp hq
    rw [Nat.count_succ, Nat.count_succ]
    by_cases hin : i = n
    · subst hin
      rw [count_congr p q i (fun j hj => h j (by omega) (by omega))]
      simp [hp, hq]
    · rw [ih (by omega) (fun j hj hne => h j (by omega) hne) hp hq]
      have := h n (by omega) (fun e => hin e.symm)
      by_cases hpn : p n
      · have hqn : q n := this.mp hpn
        simp [hpn, hqn]
      · have hqn : ¬ q n := fun hq' => hpn (this.mpr hq')
        simp [hpn, hqn]

theorem count_none (p : Nat → Prop) [DecidablePred p] :
    ∀ n, (∀ j, j < n → ¬ p j) → Nat.count p n = 0 := by
  intro n
  induction n with
  | zero => intro _; simp
  | succ n ih =>
    intro h
    rw [Nat.count_succ, ih (fun j hj => h j (by omega))]
    simp [h n (by omega)]

theorem count_exists (p : Nat → Prop) [DecidablePred p] :
    ∀ n, 0 < Nat.count p n → ∃ j, j < n ∧ p j := by
  intro n h
  by_contra hc
  have := count_none p n (fun j hj hp => hc ⟨j, hj, hp⟩)
  omega

theorem count_pos_of (p : Nat → Prop) [DecidablePred p] (i : Nat) :
    ∀ n, i < n → p i → 0 < Nat.count p n := by
  intro n
  induction n with
  | zero => intro h; omega
  | succ n ih =>
    intro hi hp
    rw [Nat.count_succ]
    by_cases hin : i = n
    · subst hin; simp [hp]
    · have := ih (by omega) hp
      omega

theorem count_lt_of (p : Nat → Prop) [DecidablePred p] (i : Nat) :
    ∀ n, i < n → ¬ p i → Nat.count p n < n := by
  intro n
  induction n with
  | zero => intro h; omega
  | succ n ih =>
    intro hi hp
    rw [Nat.count_succ]
    by_cases hin : i = n
    · subst hin
      have := Nat.count_le (p := p) (n := i)
      simp [hp]; omega
    · have := ih (by omega) hp
      split_ifs <;> omega

theorem sum_setAt_succ (f : Nat → Nat) (i : Nat) :
    ∀ n, i < n → (∑ k in Finset.range n, setAt f i (f i + 1) k)
      = (∑ k in Finset.range n, f k) + 1 := by
  intro n
  induction n with
  | zero => intro h; omega
  | succ n ih =>
    intro hi
    rw [Finset.sum_range_succ, Finset.sum_range_succ]
    by_cases hin : i = n
    · subst hin
      have : ∑ k in Finset.range i, setAt f i (f i + 1) k = ∑ k in Finset.range i, f k := by
        apply Finset.sum_congr rfl
        intro k hk
        have : k ≠ i := by
          have := Finset.mem_range.mp hk
          omega
        simp [setAt, this]
      rw [this]
      simp [setAt]
      omega
    · rw [ih (by omega)]
      have : n ≠ i := fun e => hin e.symm
      simp [setAt, this]
      omega

theorem sum_zero_of (f : Nat → Nat) (n : Nat) (h : ∀ k, k < n → f k = 0) :
    (∑ k in Finset.range n, f k) = 0 := by
  apply Finset.sum_eq_zero
  intro k hk
  exact h k (Finset.mem_range.mp hk)

theorem Tally.tally_of_same {s t : State} (h : SameRound s t) (hs : Tally s) : Tally t := by
  obtain ⟨h1, h2, h3, h4, h5, h6, h7⟩ := h
  have hv : ∀ v, votesFor t v = votesFor s v := by intro v; simp [votesFor, h1, h5]
  have hvo : voters t = voters s := by simp [voters, h1, h5]
  constructor
  · rw [h1]; exact hs.nc_le
  · rw [h1, h5]; exact hs.vote_out
  · rw [h2, hvo]; exact hs.vc_eq
  · rw [h2, h3]; exact hs.cc_le
  · rw [h3, h6, h7]; exact hs.cand_out
  · rw [h3, h6]; exact hs.cand_nz
  · rw [h3, h6]; exact hs.cand_inj
  · intro k hk; rw [h3] at hk; rw [h7, h6, hv]; exact hs.tally k hk
  · rw [h1, h3, h5, h6]; exact hs.voted
  · rw [h2, h7]; exact hs.sum
  · rw [h2, h4]; exact hs.maj0

theorem Tally.tally_of_flushed (s : State) (h : s.NODE_COUNT ≤ CAP) : Tally (flushed s) := by
  have hz : ∀ i, i < CAP → (flushed s).VOTE_NODE_ARR i = 0 := by
    intro i hi; unfold CAP at hi; simp [flushed, fillTo, hi]
  have hvo : voters (flushed s) = 0 := by
    unfold voters
    apply count_none
    intro j hj
    have : (flushed s).NODE_COUNT = s.NODE_COUNT := rfl
    simp [hz j (by omega)]
  constructor
  · exact h
  · intro i _ hi; exact hz i hi
  · rw [hvo]; rfl
  · exact Nat.le_refl _
  · intro k _ hk; unfold CAP at hk; simp [flushed, fillTo, hk]
  · intro k hk; exact absurd hk (Nat.not_lt_zero _)
  · intro k l hk; exact absurd hk (Nat.not_lt_zero _)
  · intro k hk; exact absurd hk (Nat.not_lt_zero _)
  · intro i hi hne
    have : (flushed s).NODE_COUNT = s.NODE_COUNT := rfl
    exact absurd (hz i (by omega)) hne
  · apply sum_zero_of
    intro k hk; unfold CAP at hk; simp [flushed, fillTo, hk]
  · intro _; rfl

theorem getMaxLoop_oob (a : Nat → Nat) :
    ∀ (rem i : Nat) (t : Bool) (mv mi : Nat), i ≤ CAP → CAP < i + rem →
      getMaxLoop a rem i t mv mi = .error .outOfBounds := by
  intro rem
  induction rem with
  | zero => intro i t mv mi h1 h2; omega
  | succ n ih =>
    intro i t mv mi h1 h2
    rw [getMaxLoop]
    by_cases hi : i < CAP
    · simp only [hi, if_true]
      split_ifs <;> exact ih (i + 1) _ _ _ (by omega) (by omega)
    · simp [hi]

theorem getMaxIndex_oob (a : Nat → Nat) (size : Nat) (h : CAP < size) :
    getMaxIndex a size = .error .outOfBounds := by
  have h0 : ¬ size ≤ 0 := by omega
  simp [getMaxIndex, h0, getMaxLoop_oob a size 0 false 0 INVALID (by omega) (by omega)]

theorem setStatus_vote (c : Prop) [Decidable c] (s : State) :
    setStatus (if c then MAJORITY else MINORITY) s
      = .ok { s with STATUS := if c then MAJORITY else MINORITY } := by
  split_ifs <;> simp [setStatus]

/-- The three ways in which `evalMajority` returns. -/
theorem evalMajority_cases (s s1 : State) (h : evalMajority s = .ok s1) :
    (s.VOTE_COUNT < VOTE_COUNT_MIN ∧ s1 = { s with STATUS := OFF }) ∨
    (VOTE_COUNT_MIN ≤ s.VOTE_COUNT ∧ s.HOST_CALC = 0 ∧ s1 = flushed s) ∨
    (VOTE_COUNT_MIN ≤ s.VOTE_COUNT ∧ s.HOST_CALC ≠ 0 ∧ ∃ j st,
      getMaxIndex s.CANDIDATE_VOTES_ARR ((s.CANDIDATE_COUNT + 1) % U32) = .ok j ∧
      ((j = TIE ∧ s1 = { s with MAJORITY_RSLT := TIE, STATUS := OFF }) ∨
       (j ≠ TIE ∧ j < CAP ∧
        s1 = { s with MAJORITY_RSLT := s.CANDIDATE_ARR j, STATUS := st } ∧
        st = (if s.VOTE_NODE_ARR 0 = s.CANDIDATE_ARR j then MAJORITY else MINORITY)))) := by
  unfold evalMajority at h
  by_cases hvc : s.VOTE_COUNT ≥ VOTE_COUNT_MIN
  · simp only [hvc, if_true] at h
    by_cases hc : 0 = s.HOST_CALC
    · simp only [hc, if_true, flush_eq] at h
      exact Or.inr (Or.inl ⟨hvc, hc.symm, (Except.ok.inj h).symm⟩)
    · simp only [hc, if_false] at h
      refine Or.inr (Or.inr ⟨hvc, fun e => hc e.symm, ?_⟩)
      cases hg : getMaxIndex s.CANDIDATE_VOTES_ARR ((s.CANDIDATE_COUNT + 1) % U32) with
      | error e => simp [hg] at h
      | ok j =>
        simp only [hg] at h
        by_cases hj : TIE = j
        · simp only [hj, if_true, setStatus_OFF] at h
          exact ⟨j, OFF, rfl, Or.inl ⟨hj.symm, by rw [← Except.ok.inj h, hj]⟩⟩
        · simp only [hj, if_false] at h
          by_cases hjc : j < CAP
          · simp only [hjc, if_true] at h
            rw [setStatus_vote] at h
            exact ⟨j, _, rfl, Or.inr ⟨fun e => hj e.symm, hjc, (Except.ok.inj h).symm, rfl⟩⟩
          · simp [hjc] at h
  · simp only [hvc, if_false, setStatus_OFF] at h
    exact Or.inl ⟨by omega, (Except.ok.inj h).symm⟩

theorem Tally.tally_of_evalMajority {s s1 : State} (hs : Tally s) (h : evalMajority s = .ok s1) :
    Tally s1 := by
  rcases evalMajority_cases s s1 h with ⟨_, h1⟩ | ⟨_, _, h1⟩ | ⟨hvc, _, j, st, _, h1⟩
  · subst h1
    exact Tally.tally_of_same (s := s) ⟨rfl, rfl, rfl, rfl, rfl, rfl, rfl⟩ hs
  · subst h1
    exact Tally.tally_of_flushed s hs.nc_le
  · have key : ∀ m st, Tally { s with MAJORITY_RSLT := m, STATUS := st } := by
      intro m st
      have h0 := hs
      constructor
      · exact h0.nc_le
      · exact h0.vote_out
      · exact h0.vc_eq
      · exact h0.cc_le
      · exact h0.cand_out
      · exact h0.cand_nz
      · exact h0.cand_inj
      · exact h0.tally
      · exact h0.voted
      · exact h0.sum
      · intro hlt
        have : s.VOTE_COUNT < VOTE_COUNT_MIN := hlt
        omega
    rcases h1 with ⟨_, h1⟩ | ⟨_, _, h1, _⟩
    · subst h1; exact key _ _
    · subst h1; exact key _ _

theorem linearSearchLoop_spec (a : Nat → Nat) (key : Nat) :
    ∀ (rem i : Nat), i + rem ≤ CAP →
      ∃ r, linearSearchLoop a key rem i = .ok r ∧
        ((r = INVALID ∧ ∀ k, i ≤ k → k < i + rem → a k ≠ key) ∨
         (i ≤ r ∧ r < i + rem ∧ a r = key)) := by
  intro rem
  induction rem with
  | zero =>
    intro i _
    exact ⟨INVALID, by simp [linearSearchLoop], Or.inl ⟨rfl, fun k h1 h2 => by omega⟩⟩
  | succ n ih =>
    intro i hb
    have hi : i < CAP := by omega
    rw [linearSearchLoop]
    simp only [hi, if_true]
    by_cases hk : a i = key
    · simp only [hk, if_true]
      exact ⟨i, rfl, Or.inr ⟨Nat.le_refl _, by omega, hk⟩⟩
    · simp only [hk, if_false]
      obtain ⟨r, hr, hcase⟩ := ih (i + 1) (by omega)
      refine ⟨r, hr, ?_⟩
      rcases hcase with ⟨h1, h2⟩ | ⟨h1, h2, h3⟩
      · refine Or.inl ⟨h1, fun k hk1 hk2 => ?_⟩
        by_cases hki : k = i
        · rw [hki]; exact hk
        · exact h2 k (by omega) (by omega)
      · exact Or.inr ⟨by omega, by omega, h3⟩

theorem setAt_self {α : Type} (a : Nat → α) (i : Nat) (v : α) (h : a i = v) :
    setAt a i v = a := by
  funext j
  unfold setAt
  split_ifs with hj
  · rw [hj, h]
  · rfl

theorem Tally.voters_lt {s : State} (hs : Tally s) (i : Nat) (hi : i < s.NODE_COUNT)
    (hv : s.VOTE_NODE_ARR i = 0) : s.VOTE_COUNT < s.NODE_COUNT := by
  rw [hs.vc_eq]
  exact count_lt_of _ i _ hi (by simp [hv])

theorem voteCount_fresh {s : State} (hs : Tally s) (i b : Nat) (hi : i < s.NODE_COUNT)
    (hb : b ≠ 0) (hv : s.VOTE_NODE_ARR i = 0) :
    ∃ k, k ≤ s.CANDIDATE_COUNT ∧ (k < s.CANDIDATE_COUNT → s.CANDIDATE_ARR k = b) ∧
      (k = s.CANDIDATE_COUNT → ∀ l, l < s.CANDIDATE_COUNT → s.CANDIDATE_ARR l ≠ b) ∧
      voteCount i b s = evalMajority (tallied s i b k) := by
  have hnc := hs.nc_le
  have hvc := hs.voters_lt i hi hv
  have hcc := hs.cc_le
  unfold CAP at hnc
  have hb0 : ¬ (0 = b) := fun e => hb e.symm
  have hiC : i < CAP := by unfold CAP; omega
  have hbv : ¬ (b = s.VOTE_NODE_ARR i) := by rw [hv]; exact hb
  have hv0 : ¬ (0 ≠ s.VOTE_NODE_ARR i) := by rw [hv]; simp
  have hv1 : (0 = s.VOTE_NODE_ARR i) := hv.symm
  have hmod1 : (s.VOTE_COUNT + 1) % U32 = s.VOTE_COUNT + 1 :=
    Nat.mod_eq_of_lt (by unfold U32; omega)
  have hmod2 : (s.CANDIDATE_COUNT + 1) % U32 = s.CANDIDATE_COUNT + 1 :=
    Nat.mod_eq_of_lt (by unfold U32; omega)
  have hngt : ¬ (s.VOTE_COUNT + 1 > s.NODE_COUNT) := by omega
  have hsz : ¬ (s.CANDIDATE_COUNT + 1 ≤ 0) := by omega
  obtain ⟨r, hr, hcase⟩ := linearSearchLoop_spec s.CANDIDATE_ARR b (s.CANDIDATE_COUNT + 1) 0
    (by unfold CAP; omega)
  have hcz := (hs.cand_out s.CANDIDATE_COUNT (Nat.le_refl _) (by unfold CAP; omega))
  have hunfold : voteCount i b s =
      (if INVALID ≠ r then
        if r < CAP then
          evalMajority
            { s with
              VOTE_COUNT := s.VOTE_COUNT + 1
              CANDIDATE_VOTES_ARR :=
                setAt s.CANDIDATE_VOTES_ARR r ((s.CANDIDATE_VOTES_ARR r + 1) % U32)
              VOTE_NODE_ARR := setAt s.VOTE_NODE_ARR i b }
        else .error .outOfBounds
      else
        if s.CANDIDATE_COUNT < CAP then
          evalMajority
            { s with
              VOTE_COUNT := s.VOTE_COUNT + 1
              CANDIDATE_COUNT := s.CANDIDATE_COUNT + 1
              CANDIDATE_ARR := setAt s.CANDIDATE_ARR s.CANDIDATE_COUNT b
              CANDIDATE_VOTES_ARR :=
                setAt s.CANDIDATE_VOTES_ARR s.CANDIDATE_COUNT
                  ((s.CANDIDATE_VOTES_ARR s.CANDIDATE_COUNT + 1) % U32)
              VOTE_NODE_ARR := setAt s.VOTE_NODE_ARR i b }
        else .error .outOfBounds) := by
    unfold voteCount
    rw [voteCountAux]
    simp only [hb0, hiC, hv, hb, ne_eq, not_true_eq_false, if_true, if_false, hmod1, hmod2,
      hngt, linearSearch, hsz, hr]
  rw [hunfold]
  rcases hcase with ⟨h1, h2⟩ | ⟨_, h2, h3⟩
  · -- a new candidate
    refine ⟨s.CANDIDATE_COUNT, Nat.le_refl _, fun h => absurd h (Nat.lt_irrefl _),
      fun _ l hl => h2 l (Nat.zero_le _) (by omega), ?_⟩
    have hcap : s.CANDIDATE_COUNT < CAP := by unfold CAP; omega
    have hvm : (s.CANDIDATE_VOTES_ARR s.CANDIDATE_COUNT + 1) % U32
        = s.CANDIDATE_VOTES_ARR s.CANDIDATE_COUNT + 1 := by
      rw [hcz.2]; rfl
    simp only [h1, ne_eq, not_true_eq_false, if_false, hcap, if_true, hvm, tallied,
      Nat.lt_irrefl]
  · -- an existing candidate
    have hrne : r ≠ s.CANDIDATE_COUNT := by
      intro e
      rw [e, hcz.1] at h3
      exact hb h3.symm
    have hrlt : r < s.CANDIDATE_COUNT := by omega
    refine ⟨r, by omega, fun _ => h3, fun e => absurd e hrne, ?_⟩
    have hrC : r < CAP := by unfold CAP; omega
    have hinv : INVALID ≠ r := by unfold INVALID; omega
    have hvle : s.CANDIDATE_VOTES_ARR r ≤ s.NODE_COUNT := by
      rw [hs.tally r hrlt]
      exact Nat.count_le _
    have hvm : (s.CANDIDATE_VOTES_ARR r + 1) % U32 = s.CANDIDATE_VOTES_ARR r + 1 :=
      Nat.mod_eq_of_lt (by unfold U32; omega)
    simp only [hinv, ne_eq, not_false_eq_true, if_true, hrC, hvm, tallied, hrlt,
      setAt_self s.CANDIDATE_ARR r b h3]

theorem Tally.tally_of_tallied {s : State} (hs : Tally s) (i b k : Nat) (hi : i < s.NODE_COUNT)
    (hb : b ≠ 0) (hv : s.VOTE_NODE_ARR i = 0) (hk : k ≤ s.CANDIDATE_COUNT)
    (hfound : k < s.CANDIDATE_COUNT → s.CANDIDATE_ARR k = b)
    (hnew : k = s.CANDIDATE_COUNT → ∀ l, l < s.CANDIDATE_COUNT → s.CANDIDATE_ARR l ≠ b) :
    Tally (tallied s i b k) := by
  have hnc := hs.nc_le
  have hvc := hs.voters_lt i hi hv
  have hcc := hs.cc_le
  have hkC : k < CAP := by omega
  -- no other slot holds the ballot
  have hother : ∀ l, l < s.CANDIDATE_COUNT → l ≠ k → s.CANDIDATE_ARR l ≠ b := by
    intro l hl hlk e
    rcases Nat.lt_or_ge k s.CANDIDATE_COUNT with h | h
    · exact hlk (hs.cand_inj l k hl h (e.trans (hfound h).symm))
    · exact hnew (by omega) l hl e
  have hcount : ∀ c, c ≠ 0 →
      votesFor (tallied s i b k) c = votesFor s c + (if b = c then 1 else 0) := by
    intro c hc
    unfold votesFor
    show Nat.count (fun j => setAt s.VOTE_NODE_ARR i b j = c) s.NODE_COUNT = _
    by_cases hbc : b = c
    · simp only [hbc, if_true]
      apply count_flip _ _ i _ hi
      · intro j _ hji; simp [setAt, hji]
      · simp [setAt, hbc]
      · rw [hv]; exact fun e => hc e.symm
    · simp only [hbc, if_false, Nat.add_zero]
      apply count_congr
      intro j _
      by_cases hji : j = i
      · subst hji
        simp only [setAt, if_true, hbc, hv, false_iff]
        exact fun e => hc e.symm
      · simp [setAt, hji]
  constructor
  · exact hnc
  · intro j hj hjC
    have hji : j ≠ i := by
      have : s.NODE_COUNT ≤ j := hj
      omega
    show setAt s.VOTE_NODE_ARR i b j = 0
    simp only [setAt, hji, if_false]
    exact hs.vote_out j hj hjC
  · show s.VOTE_COUNT + 1 = Nat.count (fun j => setAt s.VOTE_NODE_ARR i b j ≠ 0) s.NODE_COUNT
    rw [hs.vc_eq]
    symm
    apply count_flip _ _ i _ hi
    · intro j _ hji; simp [setAt, hji]
    · simp [setAt, hb]
    · simp [hv]
  · show (if k < s.CANDIDATE_COUNT then s.CANDIDATE_COUNT else s.CANDIDATE_COUNT + 1)
      ≤ s.VOTE_COUNT + 1
    split_ifs <;> omega
  · intro l hl hlC
    have hl2 : s.CANDIDATE_COUNT ≤ l ∧ l ≠ k := by
      have : (if k < s.CANDIDATE_COUNT then s.CANDIDATE_COUNT else s.CANDIDATE_COUNT + 1) ≤ l :=
        hl
      split_ifs at this <;> omega
    show setAt s.CANDIDATE_ARR k b l = 0 ∧
      setAt s.CANDIDATE_VOTES_ARR k (s.CANDIDATE_VOTES_ARR k + 1) l = 0
    simp only [setAt, hl2.2, if_false]
    exact hs.cand_out l hl2.1 hlC
  · intro l hl
    show setAt s.CANDIDATE_ARR k b l ≠ 0
    by_cases hlk : l = k
    · simp [setAt, hlk, hb]
    · simp only [setAt, hlk, if_false]
      apply hs.cand_nz
      have : l < (if k < s.CANDIDATE_COUNT then s.CANDIDATE_COUNT else s.CANDIDATE_COUNT + 1) :=
        hl
      split_ifs at this <;> omega
  · intro l l1 hl hl1 e
    have hl' : l < s.CANDIDATE_COUNT ∨ l = k := by
      have : l < (if k < s.CANDIDATE_COUNT then s.CANDIDATE_COUNT else s.CANDIDATE_COUNT + 1) :=
        hl
      split_ifs at this <;> omega
    have hl1' : l1 < s.CANDIDATE_COUNT ∨ l1 = k := by
      have : l1 < (if k < s.CANDIDATE_COUNT then s.CANDIDATE_COUNT else s.CANDIDATE_COUNT + 1) :=
        hl1
      split_ifs at this <;> omega
    have e' : setAt s.CANDIDATE_ARR k b l = setAt s.CANDIDATE_ARR k b l1 := e
    by_cases hlk : l = k
    · by_cases hl1k : l1 = k
      · omega
      · simp only [setAt, hlk, hl1k, if_true, if_false] at e'
        exact absurd e'.symm (hother l1 (by omega) hl1k)
    · by_cases hl1k : l1 = k
      · simp only [setAt, hlk, hl1k, if_true, if_false] at e'
        exact absurd e' (hother l (by omega) hlk)
      · simp only [setAt, hlk, hl1k, if_false] at e'
        exact hs.cand_inj l l1 (by omega) (by omega) e'
  · intro l hl
    have hl' : l < s.CANDIDATE_COUNT ∨ l = k := by
      have : l < (if k < s.CANDIDATE_COUNT then s.CANDIDATE_COUNT else s.CANDIDATE_COUNT + 1) :=
        hl
      split_ifs at this <;> omega
    show setAt s.CANDIDATE_VOTES_ARR k (s.CANDIDATE_VOTES_ARR k + 1) l
      = votesFor (tallied s i b k) (setAt s.CANDIDATE_ARR k b l)
    by_cases hlk : l = k
    · subst hlk
      simp only [setAt, if_true]
      rw [hcount b hb]
      simp only [if_true]
      rcases Nat.lt_or_ge l s.CANDIDATE_COUNT with h | h
      · rw [hs.tally l h, hfound h]
      · have hz := (hs.cand_out l h hkC).2
        rw [hz]
        have : votesFor s b = 0 := by
          unfold votesFor
          apply count_none
          intro j hj hjb
          have hjb' : s.VOTE_NODE_ARR j = b := hjb
          obtain ⟨m, hm, hmb⟩ := hs.voted j hj (by rw [hjb']; exact hb)
          exact hnew (by omega) m hm (by rw [hmb, hjb'])
        rw [this]
    · have hlc : l < s.CANDIDATE_COUNT := by omega
      simp only [setAt, hlk, if_false]
      rw [hcount _ (hs.cand_nz l hlc), hs.tally l hlc]
      have : ¬ (b = s.CANDIDATE_ARR l) := fun e => hother l hlc hlk e.symm
      simp [this]
  · intro j hj hjv
    have hj' : j < s.NODE_COUNT := hj
    have hjv' : setAt s.VOTE_NODE_ARR i b j ≠ 0 := hjv
    show ∃ m, m < (if k < s.CANDIDATE_COUNT then s.CANDIDATE_COUNT else s.CANDIDATE_COUNT + 1) ∧
      setAt s.CANDIDATE_ARR k b m = setAt s.VOTE_NODE_ARR i b j
    by_cases hji : j = i
    · refine ⟨k, by split_ifs <;> omega, ?_⟩
      simp [setAt, hji]
    · simp only [setAt, hji, if_false] at hjv' ⊢
      obtain ⟨m, hm, hmv⟩ := hs.voted j hj' hjv'
      refine ⟨m, by split_ifs <;> omega, ?_⟩
      by_cases hmk : m = k
      · subst hmk
        simp only [if_true]
        rw [← hmv]
        exact (hfound hm).symm
      · simp only [hmk, if_false]
        exact hmv
  · show (∑ l in Finset.range CAP, setAt s.CANDIDATE_VOTES_ARR k (s.CANDIDATE_VOTES_ARR k + 1) l)
      = s.VOTE_COUNT + 1
    rw [sum_setAt_succ _ _ _ hkC, hs.sum]
  · intro hlt
    have hlt' : s.VOTE_COUNT + 1 < VOTE_COUNT_MIN := hlt
    exact hs.maj0 (by omega)

theorem logLoop_spec (ID TIME now : Nat) (s : State) :
    ∀ (rem i : Nat) (res : Option (Nat × State)), i ≤ CAP →
      logLoop ID TIME now s rem i = .ok res →
      (res = none ∧ i + rem ≤ CAP ∧ ∀ k, i ≤ k → k < i + rem → s.ID_NODE_ARR k ≠ ID) ∨
      (∃ m, FirstAt s ID i (i + rem) m ∧ m < CAP ∧
        ((TIME ≠ s.TS_NODE_ARR m ∧ res = some (m, logHit s m TIME now)) ∨
         (TIME = s.TS_NODE_ARR m ∧ res = some (INVALID, s)))) := by
  intro rem
  induction rem with
  | zero =>
    intro i res hiC h
    rw [logLoop] at h
    exact Or.inl ⟨(Except.ok.inj h).symm, hiC, fun k h1 h2 => by omega⟩
  | succ n ih =>
    intro i res _ h
    rw [logLoop] at h
    by_cases hi : i < CAP
    · simp only [hi, if_true] at h
      by_cases hid : ID = s.ID_NODE_ARR i
      · simp only [hid, if_true] at h
        refine Or.inr ⟨i, ⟨Nat.le_refl _, by omega, hid.symm, fun k h1 h2 => by omega⟩, hi, ?_⟩
        by_cases ht : TIME ≠ s.TS_NODE_ARR i
        · rw [if_pos ht] at h
          exact Or.inl ⟨ht, (Except.ok.inj h).symm⟩
        · rw [if_neg ht] at h
          exact Or.inr ⟨not_not.mp ht, (Except.ok.inj h).symm⟩
      · simp only [hid, if_false] at h
        rcases ih (i + 1) res (by omega) h with ⟨h1, h2, h3⟩ | ⟨m, ⟨h1, h2, h3, h4⟩, h5, h6⟩
        · refine Or.inl ⟨h1, by omega, fun k hk1 hk2 => ?_⟩
          by_cases hki : k = i
          · rw [hki]; exact fun e => hid e.symm
          · exact h3 k (by omega) (by omega)
        · refine Or.inr ⟨m, ⟨by omega, by omega, h3, fun k hk1 hk2 => ?_⟩, h5, h6⟩
          by_cases hki : k = i
          · rw [hki]; exact fun e => hid e.symm
          · exact h4 k (by omega) hk2
    · simp [hi] at h

/-- The three ways in which `log` returns. -/
theorem log_cases (ID TIME now : Nat) (s : State) (r : Nat) (s1 : State)
    (h : log ID TIME now s = .ok (r, s1)) :
    (∃ m, FirstAt s ID 0 s.NODE_COUNT m ∧ m < CAP ∧ TIME ≠ s.TS_NODE_ARR m ∧ r = m ∧
      s1 = logHit s m TIME now) ∨
    (∃ m, FirstAt s ID 0 s.NODE_COUNT m ∧ m < CAP ∧ TIME = s.TS_NODE_ARR m ∧ r = INVALID ∧
      s1 = s) ∨
    ((∀ k, k < s.NODE_COUNT → s.ID_NODE_ARR k ≠ ID) ∧ s.NODE_COUNT < CAP ∧
      r = s.NODE_COUNT ∧ s1 = logNew s ID TIME now) := by
  unfold log at h
  cases hl : logLoop ID TIME now s s.NODE_COUNT 0 with
  | error e => simp [hl] at h
  | ok res =>
    have hspec := logLoop_spec ID TIME now s s.NODE_COUNT 0 res (Nat.zero_le _) hl
    simp only [Nat.zero_add] at hspec
    rcases hspec with ⟨h1, h2, h3⟩ | ⟨m, hf, hm, h4⟩
    · subst h1
      simp only [hl] at h
      by_cases hfull : s.NODE_COUNT ≥ CAP
      · simp [hfull] at h
      · simp only [hfull, if_false] at h
        have e := Except.ok.inj h
        refine Or.inr (Or.inr ⟨fun k hk => h3 k (Nat.zero_le _) hk, by omega, ?_, ?_⟩)
        · exact (congrArg Prod.fst e).symm
        · exact (congrArg Prod.snd e).symm
    · rcases h4 with ⟨h5, h6⟩ | ⟨h5, h6⟩
      · subst h6
        simp only [hl] at h
        have e := Except.ok.inj h
        exact Or.inl ⟨m, hf, hm, h5, (congrArg Prod.fst e).symm, (congrArg Prod.snd e).symm⟩
      · subst h6
        simp only [hl] at h
        have e := Except.ok.inj h
        exact Or.inr (Or.inl ⟨m, hf, hm, h5, (congrArg Prod.fst e).symm,
          (congrArg Prod.snd e).symm⟩)

theorem logLoop_found (ID TIME now : Nat) (s : State) (m : Nat) (hm : m < CAP) :
    ∀ (rem i : Nat), FirstAt s ID i (i + rem) m →
      logLoop ID TIME now s rem i =
        .ok (some (if TIME ≠ s.TS_NODE_ARR m then (m, logHit s m TIME now) else (INVALID, s))) := by
  intro rem
  induction rem with
  | zero => intro i ⟨h1, h2, _, _⟩; omega
  | succ n ih =>
    intro i ⟨h1, h2, h3, h4⟩
    have hi : i < CAP := by omega
    rw [logLoop]
    simp only [hi, if_true]
    by_cases him : i = m
    · subst him
      simp only [h3, if_true]
      by_cases ht : TIME ≠ s.TS_NODE_ARR i
      · rw [if_pos ht, if_pos ht]; rfl
      · rw [if_neg ht, if_neg ht]
    · have hne : ¬ (ID = s.ID_NODE_ARR i) := fun e => h4 i (Nat.le_refl _) (by omega) e.symm
      simp only [hne, if_false]
      exact ih (i + 1) ⟨by omega, by omega, h3, fun k hk1 hk2 => h4 k (by omega) hk2⟩

theorem logLoop_absent (ID TIME now : Nat) (s : State) :
    ∀ (rem i : Nat), i + rem ≤ CAP → (∀ k, i ≤ k → k < i + rem → s.ID_NODE_ARR k ≠ ID) →
      logLoop ID TIME now s rem i = .ok none := by
  intro rem
  induction rem with
  | zero => intro i _ _; rfl
  | succ n ih =>
    intro i hb h
    have hi : i < CAP := by omega
    have hne : ¬ (ID = s.ID_NODE_ARR i) := fun e => h i (Nat.le_refl _) (by omega) e.symm
    rw [logLoop]
    simp only [hi, hne, if_true, if_false]
    exact ih (i + 1) (by omega) (fun k hk1 hk2 => h k (by omega) (by omega))

/-- A packet whose key is the one last stored for its sender is reported as a duplicate. -/
theorem log_dup (ID TIME now : Nat) (s : State) (m : Nat) (hm : m < CAP)
    (hf : FirstAt s ID 0 s.NODE_COUNT m) (ht : s.TS_NODE_ARR m = TIME) :
    log ID TIME now s = .ok (INVALID, s) := by
  have h := logLoop_found ID TIME now s m hm s.NODE_COUNT 0 (by simpa using hf)
  have ht2 : ¬ (TIME ≠ s.TS_NODE_ARR m) := by simp [ht]
  simp only [ht2, if_false] at h
  simp [log, h]

theorem log_hit (ID TIME now : Nat) (s : State) (m : Nat) (hm : m < CAP)
    (hf : FirstAt s ID 0 s.NODE_COUNT m) (ht : TIME ≠ s.TS_NODE_ARR m) :
    log ID TIME now s = .ok (m, logHit s m TIME now) := by
  have h := logLoop_found ID TIME now s m hm s.NODE_COUNT 0 (by simpa using hf)
  simp only [ht, ne_eq, not_false_eq_true, if_true] at h
  simp [log, h]

theorem log_new (ID TIME now : Nat) (s : State) (hn : s.NODE_COUNT < CAP)
    (hab : ∀ k, k < s.NODE_COUNT → s.ID_NODE_ARR k ≠ ID) :
    log ID TIME now s = .ok (s.NODE_COUNT, logNew s ID TIME now) := by
  have h := logLoop_absent ID TIME now s s.NODE_COUNT 0 (by omega)
    (fun k _ hk => hab k (by omega))
  have hfull : ¬ (s.NODE_COUNT ≥ CAP) := by omega
  simp [log, h, hfull, logNew]

theorem markLoop_total (i j : Nat) (hi : i ≤ PRIME_ARR_THRESHOLD) (hj1 : 1 ≤ j)
    (hj2 : j ≤ PRIME_ARR_THRESHOLD) :
    ∀ (fuel k : Nat) (sv : List Nat), i ≤ k + fuel →
      ∃ sv1, markLoop i j fuel k sv = .ok sv1 := by
  intro fuel
  induction fuel with
  | zero =>
    intro k sv h
    have : ¬ (k < i) := by omega
    exact ⟨sv, by simp [markLoop, this]⟩
  | succ n ih =>
    intro k sv h
    rw [markLoop]
    by_cases hk : k < i
    · have hkT : k < PRIME_ARR_THRESHOLD := by omega
      have hmod : (k + j) % U32 = k + j :=
        Nat.mod_eq_of_lt (by unfold PRIME_ARR_THRESHOLD at hkT hj2; unfold U32; omega)
      simp only [hk, hkT, if_true, hmod]
      exact ih (k + j) (sv.set k 1) (by omega)
    · exact ⟨sv, by simp [hk]⟩

theorem sq_mod (j : Nat) (hj2 : j ≤ PRIME_ARR_THRESHOLD) : (j * j) % U32 = j * j := by
  have hsq : j * j ≤ PRIME_ARR_THRESHOLD * PRIME_ARR_THRESHOLD := Nat.mul_le_mul hj2 hj2
  have hT : PRIME_ARR_THRESHOLD * PRIME_ARR_THRESHOLD = 62726400 := by decide
  rw [hT] at hsq
  exact Nat.mod_eq_of_lt (by unfold U32; omega)

theorem lt_of_sq_le (j i : Nat) (hi : i ≤ PRIME_ARR_THRESHOLD) (hj : 2 ≤ j) (h : j * j ≤ i) :
    j < PRIME_ARR_THRESHOLD := by
  by_contra hc
  have h1 : PRIME_ARR_THRESHOLD ≤ j := by omega
  have h2 : PRIME_ARR_THRESHOLD * 2 ≤ j * j := Nat.mul_le_mul h1 hj
  have h3 : PRIME_ARR_THRESHOLD = 7920 := rfl
  rw [h3] at h2 hi
  generalize j * j = q at h h2
  omega

theorem sieveLoop_total (i : Nat) (hi : i ≤ PRIME_ARR_THRESHOLD) :
    ∀ (fuel j : Nat) (sv : List Nat), 2 ≤ j → j ≤ PRIME_ARR_THRESHOLD →
      i < (j + fuel) * (j + fuel) → ∃ sv1, sieveLoop i fuel j sv = .ok sv1 := by
  intro fuel
  induction fuel with
  | zero =>
    intro j sv _ hj2 h
    have : ¬ (j * j ≤ i) := by simpa using h
    exact ⟨sv, by simp [sieveLoop, sq_mod j hj2, this]⟩
  | succ n ih =>
    intro j sv hj1 hj2 h
    rw [sieveLoop]
    simp only [sq_mod j hj2]
    by_cases hle : j * j ≤ i
    · have hjT : j < PRIME_ARR_THRESHOLD := lt_of_sq_le j i hi hj1 hle
      have hnext : i < (j + 1 + n) * (j + 1 + n) := by
        have : j + 1 + n = j + (n + 1) := by omega
        rw [this]; exact h
      simp only [hle, hjT, if_true]
      by_cases hz : sv.getD j 0 = 0
      · simp only [hz, if_true]
        obtain ⟨sv1, h1⟩ := markLoop_total i j hi (by omega) hj2 i ((j + j) % U32) sv (by omega)
        simp only [h1]
        exact ih (j + 1) sv1 (by omega) (by omega) hnext
      · simp only [hz, if_false]
        exact ih (j + 1) sv (by omega) (by omega) hnext
    · exact ⟨sv, by simp [hle]⟩

theorem countLoop_total (sv : List Nat) (b : Nat) :
    ∀ (rem j c : Nat), j + rem ≤ PRIME_ARR_THRESHOLD →
      ∃ r, countLoop sv b rem j c = .ok r := by
  intro rem
  induction rem with
  | zero => intro j c _; exact ⟨none, rfl⟩
  | succ n ih =>
    intro j c h
    have hj : j < PRIME_ARR_THRESHOLD := by omega
    rw [countLoop]
    simp only [hj, if_true]
    by_cases hb : b = (if sv.getD j 0 = 0 then c + 1 else c)
    · rw [if_pos hb]; exact ⟨_, rfl⟩
    · rw [if_neg hb]; exact ih (j + 1) _ (by omega)

theorem calcLoop_done (T b : Nat) (sv : List Nat) :
    ∀ fuel, calcLoop T b fuel (T + 1) sv = .ok (0, sv) := by
  intro fuel
  cases fuel <;> simp [calcLoop]

theorem calcLoop_total (b fuel i : Nat) (sv : List Nat) (hf : 1 ≤ fuel) :
    ∃ r sv1, calcLoop PRIME_ARR_THRESHOLD b fuel i sv = .ok (r, sv1) := by
  obtain ⟨n, rfl⟩ : ∃ n, fuel = n + 1 := ⟨fuel - 1, by omega⟩
  generalize hT : PRIME_ARR_THRESHOLD = T
  rw [calcLoop]
  by_cases hi : i < T
  · simp only [hi, if_true]
    obtain ⟨sv1, h1⟩ := sieveLoop_total T (by omega) T 2 (List.replicate T 0) (by omega)
      (by unfold PRIME_ARR_THRESHOLD; omega)
      (by
        have : T ≤ (2 + T) * (2 + T) := by nlinarith
        nlinarith)
    obtain ⟨r, h2⟩ := countLoop_total sv1 b (T - 2) 2 0
      (by rw [← hT]; unfold PRIME_ARR_THRESHOLD; omega)
    simp only [h1, h2]
    cases r with
    | none => exact ⟨0, sv1, by simp [calcLoop_done]⟩
    | some j => exact ⟨j, sv1, rfl⟩
  · exact ⟨0, sv, by simp [hi]⟩

/-- `calculate` always returns: for the input 0 it flushes and returns 0, for any other
input it shows the processing LED and changes nothing but the sieve buffer. -/
theorem calculate_spec (a : Nat) (s : State) :
    ∃ v s1, calculate a s = .ok (v, s1) ∧
      ((a = 0 ∧ v = 0 ∧ s1 = flushed s) ∨
       (1 ≤ a ∧ ∃ sv, s1 = { s with STATUS := PROCESSING, sieve := sv })) := by
  unfold calculate
  by_cases ha : a < 1
  · rw [if_pos ha, flush_eq]
    exact ⟨0, _, rfl, Or.inl ⟨by omega, rfl, rfl⟩⟩
  · rw [if_neg ha]
    obtain ⟨r, sv1, h⟩ := calcLoop_total (if s.FAULTY then (a + 1) % U32 else a)
      PRIME_ARR_THRESHOLD 3 s.sieve (by unfold PRIME_ARR_THRESHOLD; omega)
    generalize calcLoop PRIME_ARR_THRESHOLD (if s.FAULTY then (a + 1) % U32 else a)
      PRIME_ARR_THRESHOLD 3 s.sieve = c at h
    subst h
    rw [setStatus_PROCESSING]
    exact ⟨r, _, rfl, Or.inr ⟨by omega, sv1, rfl⟩⟩

theorem RoundOnly.round_refl (s : State) : RoundOnly s s :=
  ⟨rfl, rfl, rfl, rfl, rfl, rfl, rfl, rfl, rfl, rfl, rfl, rfl, rfl, rfl⟩

theorem RoundOnly.round_trans {s t u : State} (h1 : RoundOnly s t) (h2 : RoundOnly t u) :
    RoundOnly s u :=
  ⟨h2.faulty.trans h1.faulty, h2.host_calc.trans h1.host_calc,
    h2.host_calc_ver.trans h1.host_calc_ver, h2.node_count.trans h1.node_count,
    h2.terminal.trans h1.terminal, h2.active.trans h1.active, h2.pc.trans h1.pc,
    h2.id.trans h1.id, h2.ts_host.trans h1.ts_host, h2.ts_node.trans h1.ts_node,
    h2.strikes.trans h1.strikes, h2.neighbors.trans h1.neighbors,
    h2.reboots.trans h1.reboots, h2.trace.trans h1.trace⟩

theorem RoundOnly.round_of_flushed (s : State) : RoundOnly s (flushed s) :=
  ⟨rfl, rfl, rfl, rfl, rfl, rfl, rfl, rfl, rfl, rfl, rfl, rfl, rfl, rfl⟩

theorem RoundOnly.round_of_evalMajority {s s1 : State} (h : evalMajority s = .ok s1) :
    RoundOnly s s1 := by
  rcases evalMajority_cases s s1 h with ⟨_, h1⟩ | ⟨_, _, h1⟩ | ⟨_, _, j, st, _, h1⟩
  · subst h1; exact ⟨rfl, rfl, rfl, rfl, rfl, rfl, rfl, rfl, rfl, rfl, rfl, rfl, rfl, rfl⟩
  · subst h1; exact RoundOnly.round_of_flushed s
  · rcases h1 with ⟨_, h1⟩ | ⟨_, _, h1, _⟩
    · subst h1; exact ⟨rfl, rfl, rfl, rfl, rfl, rfl, rfl, rfl, rfl, rfl, rfl, rfl, rfl, rfl⟩
    · subst h1; exact ⟨rfl, rfl, rfl, rfl, rfl, rfl, rfl, rfl, rfl, rfl, rfl, rfl, rfl, rfl⟩

theorem RoundOnly.round_of_calculate {a : Nat} {s s1 : State} {v : Nat}
    (h : calculate a s = .ok (v, s1)) : RoundOnly s s1 := by
  obtain ⟨v1, s2, h1, h2⟩ := calculate_spec a s
  rw [h1] at h
  have e : s2 = s1 := congrArg Prod.snd (Except.ok.inj h)
  subst e
  rcases h2 with ⟨_, _, h3⟩ | ⟨_, sv, h3⟩
  · subst h3; exact RoundOnly.round_of_flushed s
  · subst h3; exact ⟨rfl, rfl, rfl, rfl, rfl, rfl, rfl, rfl, rfl, rfl, rfl, rfl, rfl, rfl⟩

theorem RoundOnly.round_of_voteCountAux :
    ∀ (fuel i b : Nat) (s s1 : State), voteCountAux fuel i b s = .ok s1 → RoundOnly s s1 := by
  intro fuel
  induction fuel with
  | zero => intro i b s s1 h; simp [voteCountAux] at h
  | succ n ih =>
    intro i b s s1 h
    rw [voteCountAux] at h
    by_cases hb : 0 = b
    · rw [if_pos hb] at h; rw [← Except.ok.inj h]; exact RoundOnly.round_refl s
    rw [if_neg hb] at h
    by_cases hi : i < CAP
    swap
    · rw [if_neg hi] at h; simp at h
    rw [if_pos hi] at h
    by_cases hbv : b = s.VOTE_NODE_ARR i
    · rw [if_pos hbv] at h; rw [← Except.ok.inj h]; exact RoundOnly.round_refl s
    rw [if_neg hbv] at h
    by_cases hv : 0 ≠ s.VOTE_NODE_ARR i
    · rw [if_pos hv] at h; rw [← Except.ok.inj h]; exact RoundOnly.round_refl s
    rw [if_neg hv] at h
    have hv0 : 0 = s.VOTE_NODE_ARR i := not_not.mp hv
    rw [if_pos hv0] at h
    have hr1 : RoundOnly s { s with VOTE_COUNT := (s.VOTE_COUNT + 1) % U32 } :=
      ⟨rfl, rfl, rfl, rfl, rfl, rfl, rfl, rfl, rfl, rfl, rfl, rfl, rfl, rfl⟩
    dsimp only at h
    split at h
    · -- self-heal
      rw [flush_eq] at h
      simp only at h
      obtain ⟨v1, s3, h1, _⟩ := calculate_spec
        (flushed { s with VOTE_COUNT := (s.VOTE_COUNT + 1) % U32 }).HOST_CALC
        (flushed { s with VOTE_COUNT := (s.VOTE_COUNT + 1) % U32 })
      rw [h1] at h
      simp only at h
      exact hr1.round_trans ((RoundOnly.round_of_flushed _).round_trans
        ((RoundOnly.round_of_calculate h1).round_trans
        (ih 0 v1 s3 s1 h)))
    · split at h
      · simp at h
      · split at h
        · split at h
          · have h2 := RoundOnly.round_of_evalMajority h
            exact ⟨h2.faulty, h2.host_calc, h2.host_calc_ver, h2.node_count, h2.terminal,
              h2.active, h2.pc, h2.id, h2.ts_host, h2.ts_node, h2.strikes, h2.neighbors,
              h2.reboots, h2.trace⟩
          · simp at h
        · split at h
          · have h2 := RoundOnly.round_of_evalMajority h
            exact ⟨h2.faulty, h2.host_calc, h2.host_calc_ver, h2.node_count, h2.terminal,
              h2.active, h2.pc, h2.id, h2.ts_host, h2.ts_node, h2.strikes, h2.neighbors,
              h2.reboots, h2.trace⟩
          · simp at h

theorem RoundOnly.round_of_voteCount {i b : Nat} {s s1 : State} (h : voteCount i b s = .ok s1) :
    RoundOnly s s1 :=
  RoundOnly.round_of_voteCountAux 2 i b s s1 h

theorem forwarded_calc_ver (p : R_PKT) : (forwarded p).calc_ver = p.calc_ver := by
  unfold forwarded; split_ifs <;> rfl

theorem forwarded_rslt (p : R_PKT) : (forwarded p).rslt = p.rslt := by
  unfold forwarded; split_ifs <;> rfl

theorem forwarded_CALC (p : R_PKT) : (forwarded p).CALC = p.CALC := by
  unfold forwarded; split_ifs <;> rfl

theorem r_handler_eq (P : Platform) (now face : Nat) (p : R_PKT) (s : State) :
    r_handler P now face (some p) s =
      match log p.key.ID p.key.TIME now s with
      | .error e => .error e
      | .ok (idx, s1) =>
        if INVALID = idx then .ok s1
        else if idx < CAP then
          if s1.PC_NODE_ARR idx > p.key.TIME / 1000 then .ok (amnesty s1 idx)
          else if p.calc_ver < s1.HOST_CALC_VER then .ok s1
          else r_accept P now face p idx s1
        else .error .outOfBounds := by
  unfold r_handler
  dsimp only
  cases hl : log p.key.ID p.key.TIME now s with
  | error e => rfl
  | ok r =>
    obtain ⟨idx, s1⟩ := r
    dsimp only
    by_cases h1 : INVALID = idx
    · rw [if_pos h1, if_pos h1]
    rw [if_neg h1, if_neg h1]
    by_cases h2 : idx < CAP
    swap
    · rw [if_neg h2, if_neg h2]
    rw [if_pos h2, if_pos h2]
    by_cases h3 : s1.PC_NODE_ARR idx > p.key.TIME / 1000
    · rw [if_pos h3, if_pos h3]; rfl
    rw [if_neg h3, if_neg h3]
    by_cases h4 : p.calc_ver < s1.HOST_CALC_VER
    · rw [if_pos h4, if_pos h4]
    rw [if_neg h4, if_neg h4]
    unfold r_accept accepted forwarded
    by_cases h5 : p.neighbor ≠ 0
    · by_cases h6 : face < P.FACE_COUNT
      · simp only [h5, h6, if_true, not_true_eq_false, and_false, if_false, ne_eq,
          not_false_eq_true, flush_eq]
        rfl
      · simp only [h5, h6, if_true, not_false_eq_true, and_self, if_false, ne_eq]
    · simp only [h5, if_false, false_and, flush_eq]
      rfl

theorem strikeLoop_frame (P : Platform) (now : Nat) :
    ∀ (rem i : Nat) (s s1 : State), strikeLoop P now rem i s = .ok s1 → StrikeOnly s s1 := by
  intro rem
  induction rem with
  | zero =>
    intro i s s1 h
    rw [strikeLoop] at h
    exact ⟨_, _, _, (Except.ok.inj h).symm⟩
  | succ n ih =>
    intro i s s1 h
    rw [strikeLoop] at h
    by_cases hi : i < CAP
    · rw [if_pos hi] at h
      dsimp only at h
      split at h
      · exact ⟨_, _, _, (Except.ok.inj h).symm⟩
      · obtain ⟨st, rb, tr, e⟩ := ih _ _ _ h
        exact ⟨st, rb, tr, e⟩
    · rw [if_neg hi] at h; simp at h

theorem strikeLoop_total (P : Platform) (now : Nat) :
    ∀ (rem i : Nat) (s : State), i + rem ≤ CAP → ∃ s1, strikeLoop P now rem i s = .ok s1 := by
  intro rem
  induction rem with
  | zero => intro i s _; exact ⟨s, rfl⟩
  | succ n ih =>
    intro i s hb
    have hi : i < CAP := by omega
    rw [strikeLoop, if_pos hi]
    dsimp only
    split
    · exact ⟨_, rfl⟩
    · exact ih _ _ (by omega)

theorem strikeCheck_frame {P : Platform} {now : Nat} {s s1 : State}
    (h : strikeCheck P now s = .ok s1) : StrikeOnly s s1 :=
  strikeLoop_frame P now s.NODE_COUNT 0 s s1 h

theorem strikeCheck_total (P : Platform) (now : Nat) (s : State) (h : s.NODE_COUNT ≤ CAP) :
    ∃ s1, strikeCheck P now s = .ok s1 ∧ StrikeOnly s s1 := by
  obtain ⟨s1, h1⟩ := strikeLoop_total P now s.NODE_COUNT 0 s (by omega)
  exact ⟨s1, h1, strikeCheck_frame h1⟩

theorem c_handler_eq (P : Platform) (now face junk N : Nat) (s : State) :
    c_handler P now face junk (some N) s =
      if N > PRIME_THRESHOLD then .ok s
      else
        match strikeCheck P now s with
        | .error e => .error e
        | .ok s1 =>
          match calculate N (announced P now face junk N s1) with
          | .error e => .error e
          | .ok (v, s5) => voteCount 0 v s5 := by
  unfold c_handler
  dsimp only
  by_cases h1 : N > PRIME_THRESHOLD
  · rw [if_pos h1, if_pos h1]
  rw [if_neg h1, if_neg h1]
  cases hs : strikeCheck P now s with
  | error e => rfl
  | ok s1 =>
    dsimp only
    rw [flush_eq]
    rfl

theorem liveLoop_frame :
    ∀ (rem i : Nat) (s s1 : State), liveLoop rem i s = .ok s1 → BeatOnly s s1 := by
  intro rem
  induction rem with
  | zero =>
    intro i s s1 h
    rw [liveLoop] at h
    exact ⟨_, _, _, _, _, _, (Except.ok.inj h).symm⟩
  | succ n ih =>
    intro i s s1 h
    rw [liveLoop] at h
    by_cases hi : i < CAP
    · rw [if_pos hi] at h
      dsimp only at h
      split at h
      · obtain ⟨pc, tn, th, ac, st, tr, e⟩ := ih _ _ _ h
        exact ⟨pc, tn, th, ac, st, tr, e⟩
      · obtain ⟨pc, tn, th, ac, st, tr, e⟩ := ih _ _ _ h
        exact ⟨pc, tn, th, ac, st, tr, e⟩
    · rw [if_neg hi] at h; simp at h

theorem heartBeat_frame {P : Platform} {now due : Nat} {s s1 : State}
    (h : heartBeat P now due s = .ok s1) : BeatOnly s s1 := by
  unfold heartBeat at h
  dsimp only at h
  split at h
  · exact ⟨_, _, _, _, _, _, (Except.ok.inj h).symm⟩
  · split at h
    · simp at h
    · rename_i s3 hl
      obtain ⟨pc, tn, th, ac, st, tr, e⟩ := liveLoop_frame _ _ _ _ hl
      rw [← Except.ok.inj h, e]
      exact ⟨_, _, _, _, _, _, rfl⟩

theorem Registry.registry_of_same {s t : State} (h1 : t.NODE_COUNT = s.NODE_COUNT)
    (h2 : t.ID_NODE_ARR = s.ID_NODE_ARR) (hs : Registry s) : Registry t := by
  constructor
  · rw [h1]; exact hs.nc_pos
  · rw [h1]; exact hs.nc_le
  · rw [h1, h2]; exact hs.ids

theorem Registry.registry_of_roundOnly {s t : State} (h : RoundOnly s t) (hs : Registry s) :
    Registry t :=
  Registry.registry_of_same h.node_count h.id hs

theorem Registry.registry_of_strikeOnly {s t : State} (h : StrikeOnly s t) (hs : Registry s) :
    Registry t := by
  obtain ⟨st, rb, tr, e⟩ := h
  subst e
  exact Registry.registry_of_same (s := s) rfl rfl hs

theorem Registry.registry_of_beatOnly {s t : State} (h : BeatOnly s t) (hs : Registry s) :
    Registry t := by
  obtain ⟨pc, tn, th, ac, st, tr, e⟩ := h
  subst e
  exact Registry.registry_of_same (s := s) rfl rfl hs

theorem Tally.tally_of_strikeOnly {s t : State} (h : StrikeOnly s t) (hs : Tally s) : Tally t := by
  obtain ⟨st, rb, tr, e⟩ := h
  subst e
  exact Tally.tally_of_same (s := s) ⟨rfl, rfl, rfl, rfl, rfl, rfl, rfl⟩ hs

theorem Tally.tally_of_beatOnly {s t : State} (h : BeatOnly s t) (hs : Tally s) : Tally t := by
  obtain ⟨pc, tn, th, ac, st, tr, e⟩ := h
  subst e
  exact Tally.tally_of_same (s := s) ⟨rfl, rfl, rfl, rfl, rfl, rfl, rfl⟩ hs

theorem voteCount_zero (i : Nat) (s : State) : voteCount i 0 s = .ok s := by
  unfold voteCount
  rw [voteCountAux]
  simp

theorem Tally.tally_of_voteCount {s s1 : State} (hs : Tally s) (i b : Nat) (hi : i < s.NODE_COUNT)
    (h : voteCount i b s = .ok s1) : Tally s1 := by
  by_cases hb : b = 0
  · subst hb
    rw [voteCount_zero] at h
    rw [← Except.ok.inj h]; exact hs
  by_cases hv : s.VOTE_NODE_ARR i = 0
  · obtain ⟨k, hk, hf, hn, e⟩ := voteCount_fresh hs i b hi hb hv
    rw [e] at h
    exact Tally.tally_of_evalMajority (Tally.tally_of_tallied hs i b k hi hb hv hk hf hn) h
  · have hiC : i < CAP := by have := hs.nc_le; omega
    rw [voteCount_recorded s i b hiC hv] at h
    rw [← Except.ok.inj h]; exact hs

theorem Tally.tally_of_calculate {s s1 : State} {a v : Nat} (hs : Tally s)
    (h : calculate a s = .ok (v, s1)) : Tally s1 := by
  obtain ⟨v1, s2, h1, h2⟩ := calculate_spec a s
  rw [h1] at h
  have e : s2 = s1 := congrArg Prod.snd (Except.ok.inj h)
  subst e
  rcases h2 with ⟨_, _, h3⟩ | ⟨_, sv, h3⟩
  · subst h3; exact Tally.tally_of_flushed s hs.nc_le
  · subst h3; exact Tally.tally_of_same (s := s) ⟨rfl, rfl, rfl, rfl, rfl, rfl, rfl⟩ hs

/-- What `log` does to the registry and to the round data. -/
theorem log_inv {ID TIME now : Nat} {s s1 : State} {idx : Nat}
    (h : log ID TIME now s = .ok (idx, s1)) (ht : Tally s) (hr : Registry s) :
    Tally s1 ∧ Registry s1 ∧ (idx = INVALID ∨ idx < s1.NODE_COUNT) ∧
      s.NODE_COUNT ≤ s1.NODE_COUNT ∧ (∀ i, i < s.NODE_COUNT → s1.ID_NODE_ARR i = s.ID_NODE_ARR i) := by
  rcases log_cases ID TIME now s idx s1 h with
      ⟨m, hf, _, _, h1, h2⟩ | ⟨m, _, _, _, h1, h2⟩ | ⟨hab, hn, h1, h2⟩
  · subst h2 h1
    exact ⟨Tally.tally_of_same (s := s) ⟨rfl, rfl, rfl, rfl, rfl, rfl, rfl⟩ ht,
      Registry.registry_of_same (s := s) rfl rfl hr, Or.inr hf.2.1, Nat.le_refl _, fun _ _ => rfl⟩
  · subst h2 h1
    exact ⟨ht, hr, Or.inl rfl, Nat.le_refl _, fun _ _ => rfl⟩
  · subst h2 h1
    have hvz : s.VOTE_NODE_ARR s.NODE_COUNT = 0 := ht.vote_out _ (Nat.le_refl _) hn
    have hvf : ∀ c, c ≠ 0 → votesFor (logNew s ID TIME now) c = votesFor s c := by
      intro c hc
      show Nat.count (fun i => s.VOTE_NODE_ARR i = c) (s.NODE_COUNT + 1) = _
      rw [Nat.count_succ]
      have : ¬ (s.VOTE_NODE_ARR s.NODE_COUNT = c) := by rw [hvz]; exact fun e => hc e.symm
      simp [this, votesFor]
    refine ⟨?_, ?_, Or.inr (Nat.lt_succ_self _), Nat.le_succ _, ?_⟩
    · constructor
      · exact hn
      · intro i hi hiC
        have : s.NODE_COUNT + 1 ≤ i := hi
        exact ht.vote_out i (by omega) hiC
      · show s.VOTE_COUNT = Nat.count (fun i => s.VOTE_NODE_ARR i ≠ 0) (s.NODE_COUNT + 1)
        rw [Nat.count_succ, ht.vc_eq]
        simp [hvz, voters]
      · exact ht.cc_le
      · exact ht.cand_out
      · exact ht.cand_nz
      · exact ht.cand_inj
      · intro k hk
        show s.CANDIDATE_VOTES_ARR k = votesFor (logNew s ID TIME now) (s.CANDIDATE_ARR k)
        rw [hvf _ (ht.cand_nz k hk)]
        exact ht.tally k hk
      · intro i hi hv
        have hi' : i < s.NODE_COUNT + 1 := hi
        have hv' : s.VOTE_NODE_ARR i ≠ 0 := hv
        have : i ≠ s.NODE_COUNT := fun e => hv' (by rw [e]; exact hvz)
        exact ht.voted i (by omega) hv'
      · exact ht.sum
      · exact ht.maj0
    · constructor
      · show 1 ≤ s.NODE_COUNT + 1
        omega
      · exact hn
      · intro i j hi hj e
        have hi' : i < s.NODE_COUNT + 1 := hi
        have hj' : j < s.NODE_COUNT + 1 := hj
        have e' : setAt s.ID_NODE_ARR s.NODE_COUNT ID i = setAt s.ID_NODE_ARR s.NODE_COUNT ID j :=
          e
        by_cases h1 : i = s.NODE_COUNT
        · by_cases h2 : j = s.NODE_COUNT
          · omega
          · simp only [setAt, h1, h2, if_true, if_false] at e'
            exact absurd e'.symm (hab j (by omega))
        · by_cases h2 : j = s.NODE_COUNT
          · simp only [setAt, h1, h2, if_true, if_false] at e'
            exact absurd e' (hab i (by omega))
          · simp only [setAt, h1, h2, if_false] at e'
            exact hr.ids i j (by omega) (by omega) e'
    · intro i hi
      show setAt s.ID_NODE_ARR s.NODE_COUNT ID i = s.ID_NODE_ARR i
      have : i ≠ s.NODE_COUNT := by omega
      simp [setAt, this]

theorem Inv.inv_setup (P : Platform) (st nb rb : Nat → Nat) : Inv (setup P st nb rb) := by
  constructor
  · constructor
    · show (1 : Nat) ≤ CAP
      unfold CAP; omega
    · intro i _ _; rfl
    · rfl
    · exact Nat.le_refl _
    · intro k _ _; exact ⟨rfl, rfl⟩
    · intro k hk; exact absurd hk (Nat.not_lt_zero _)
    · intro k l hk; exact absurd hk (Nat.not_lt_zero _)
    · intro k hk; exact absurd hk (Nat.not_lt_zero _)
    · intro i _ hv; exact absurd rfl hv
    · exact sum_zero_of _ _ (fun _ _ => rfl)
    · intro _; rfl
  · constructor
    · exact Nat.le_refl _
    · show (1 : Nat) ≤ CAP
      unfold CAP; omega
    · intro i j hi hj _
      have hi' : i < 1 := hi
      have hj' : j < 1 := hj
      omega

theorem Inv.inv_of_flushed {s : State} (h : Inv s) : Inv (flushed s) :=
  ⟨Tally.tally_of_flushed s h.tally.nc_le, Registry.registry_of_roundOnly (RoundOnly.round_of_flushed s) h.reg⟩

theorem Inv.inv_of_voteCount {s s1 : State} (h : Inv s) (i b : Nat) (hi : i < s.NODE_COUNT)
    (hv : voteCount i b s = .ok s1) : Inv s1 :=
  ⟨Tally.tally_of_voteCount h.tally i b hi hv, Registry.registry_of_roundOnly (RoundOnly.round_of_voteCount hv) h.reg⟩

theorem Inv.inv_of_calculate {s s1 : State} {a v : Nat} (h : Inv s)
    (hc : calculate a s = .ok (v, s1)) : Inv s1 :=
  ⟨Tally.tally_of_calculate h.tally hc, Registry.registry_of_roundOnly (RoundOnly.round_of_calculate hc) h.reg⟩

theorem Inv.inv_of_strikeOnly {s t : State} (h : Inv s) (hst : StrikeOnly s t) : Inv t :=
  ⟨Tally.tally_of_strikeOnly hst h.tally, Registry.registry_of_strikeOnly hst h.reg⟩

theorem Inv.inv_of_beatOnly {s t : State} (h : Inv s) (hst : BeatOnly s t) : Inv t :=
  ⟨Tally.tally_of_beatOnly hst h.tally, Registry.registry_of_beatOnly hst h.reg⟩

theorem Inv.inv_of_log {ID TIME now : Nat} {s s1 : State} {idx : Nat} (h : Inv s)
    (hl : log ID TIME now s = .ok (idx, s1)) : Inv s1 :=
  ⟨(log_inv hl h.tally h.reg).1, (log_inv hl h.tally h.reg).2.1⟩

theorem Inv.inv_of_amnesty {s : State} (h : Inv s) (idx : Nat) : Inv (amnesty s idx) :=
  ⟨Tally.tally_of_same (s := s) ⟨rfl, rfl, rfl, rfl, rfl, rfl, rfl⟩ h.tally,
    Registry.registry_of_same (s := s) rfl rfl h.reg⟩

theorem Inv.inv_of_accepted {s : State} (h : Inv s) (face : Nat) (p : R_PKT) :
    Inv (accepted face p s) := by
  unfold accepted FWD_R_PKT
  split_ifs
  · exact ⟨Tally.tally_of_same (s := s) ⟨rfl, rfl, rfl, rfl, rfl, rfl, rfl⟩ h.tally,
      Registry.registry_of_same (s := s) rfl rfl h.reg⟩
  · exact ⟨Tally.tally_of_same (s := s) ⟨rfl, rfl, rfl, rfl, rfl, rfl, rfl⟩ h.tally,
      Registry.registry_of_same (s := s) rfl rfl h.reg⟩

theorem accepted_node_count (face : Nat) (p : R_PKT) (s : State) :
    (accepted face p s).NODE_COUNT = s.NODE_COUNT := by
  unfold accepted FWD_R_PKT
  split_ifs <;> rfl

theorem Inv.inv_of_adopted {s : State} (h : Inv s) (p : R_PKT) : Inv (adopted p s) :=
  ⟨Tally.tally_of_same (s := s) ⟨rfl, rfl, rfl, rfl, rfl, rfl, rfl⟩ h.tally,
    Registry.registry_of_same (s := s) rfl rfl h.reg⟩

theorem Inv.inv_of_announced {s : State} (h : Inv s) (P : Platform) (now face junk N : Nat) :
    Inv (announced P now face junk N s) := by
  have h1 := h.inv_of_flushed
  exact ⟨Tally.tally_of_same (s := flushed s) ⟨rfl, rfl, rfl, rfl, rfl, rfl, rfl⟩ h1.tally,
    Registry.registry_of_same (s := flushed s) rfl rfl h1.reg⟩

theorem Inv.inv_of_r_accept {P : Platform} {now face : Nat} {p : R_PKT} {idx : Nat}
    {s1 s2 : State} (h : Inv s1) (hidx : idx < s1.NODE_COUNT)
    (ha : r_accept P now face p idx s1 = .ok s2) : Inv s2 := by
  unfold r_accept at ha
  split at ha
  · simp at ha
  dsimp only at ha
  have h3 : Inv (accepted face p s1) := h.inv_of_accepted face p
  have hn3 : (accepted face p s1).NODE_COUNT = s1.NODE_COUNT := accepted_node_count face p s1
  split at ha
  · exact h3.inv_of_voteCount idx p.rslt (by omega) ha
  split at ha
  · split at ha
    · simp at ha
    rename_i s4 hs4
    have hf4 := strikeCheck_frame hs4
    have h4 : Inv s4 := h3.inv_of_strikeOnly hf4
    have hn4 : s4.NODE_COUNT = s1.NODE_COUNT := by
      obtain ⟨st, rb, tr, e⟩ := hf4
      rw [e]; exact hn3
    split at ha
    · simp at ha
    rename_i s6 hs6
    have h6 : Inv s6 := h4.inv_of_flushed.inv_of_voteCount idx p.rslt (by
      show idx < s4.NODE_COUNT
      omega) hs6
    split at ha
    · simp at ha
    rename_i v s8 hs8
    have h8 : Inv s8 := (h6.inv_of_adopted p).inv_of_calculate hs8
    exact h8.inv_of_voteCount 0 v h8.reg.nc_pos ha
  · rw [← Except.ok.inj ha]; exact h3

theorem Inv.inv_of_r_handler {P : Platform} {now face : Nat} {scan : Option R_PKT}
    {s s1 : State} (h : Inv s) (hr : r_handler P now face scan s = .ok s1) : Inv s1 := by
  cases scan with
  | none =>
    unfold r_handler at hr
    rw [← Except.ok.inj hr]; exact h
  | some p =>
    rw [r_handler_eq] at hr
    split at hr
    · simp at hr
    rename_i idx s0 hl
    have h0 : Inv s0 := h.inv_of_log hl
    have hidx := (log_inv hl h.tally h.reg).2.2.1
    split at hr
    · rw [← Except.ok.inj hr]; exact h0
    rename_i hne
    split at hr
    swap
    · simp at hr
    split at hr
    · rw [← Except.ok.inj hr]; exact h0.inv_of_amnesty idx
    split at hr
    · rw [← Except.ok.inj hr]; exact h0
    have hlt : idx < s0.NODE_COUNT := by
      rcases hidx with e | e
      · exact absurd e.symm hne
      · exact e
    exact h0.inv_of_r_accept hlt hr

theorem Inv.inv_of_c_handler {P : Platform} {now face junk : Nat} {scan : Option Nat}
    {s s1 : State} (h : Inv s) (hc : c_handler P now face junk scan s = .ok s1) : Inv s1 := by
  cases scan with
  | none =>
    unfold c_handler at hc
    rw [← Except.ok.inj hc]; exact h
  | some N =>
    rw [c_handler_eq] at hc
    split at hc
    · rw [← Except.ok.inj hc]; exact h
    split at hc
    · simp at hc
    rename_i s2 hs2
    have h2 : Inv s2 := h.inv_of_strikeOnly (strikeCheck_frame hs2)
    split at hc
    · simp at hc
    rename_i v s5 hs5
    have h5 : Inv s5 := (h2.inv_of_announced P now face junk N).inv_of_calculate hs5
    exact h5.inv_of_voteCount 0 v h5.reg.nc_pos hc

theorem Inv.inv_of_heartBeat {P : Platform} {now due : Nat} {s s1 : State} (h : Inv s)
    (hb : heartBeat P now due s = .ok s1) : Inv s1 :=
  h.inv_of_beatOnly (heartBeat_frame hb)

theorem Inv.inv_of_flush {s s1 : State} (h : Inv s) (hf : flush s = .ok s1) : Inv s1 := by
  rw [flush_eq] at hf
  rw [← Except.ok.inj hf]; exact h.inv_of_flushed

theorem evalMajority_idem {s s1 : State} (h : evalMajority s = .ok s1)
    (hc : s.HOST_CALC ≠ 0) : evalMajority s1 = .ok s1 := by
  rcases evalMajority_cases s s1 h with ⟨hvc, h1⟩ | ⟨_, h0, _⟩ | ⟨hvc, _, j, st, hg, h1⟩
  · subst h1
    unfold evalMajority
    have : ¬ (s.VOTE_COUNT ≥ VOTE_COUNT_MIN) := by omega
    rw [if_neg this, setStatus_OFF]
  · exact absurd h0 hc
  · have hc0 : ¬ (0 = s.HOST_CALC) := fun e => hc e.symm
    rcases h1 with ⟨hj, h1⟩ | ⟨hj, hjc, h1, hst⟩
    · subst h1
      unfold evalMajority
      dsimp only
      rw [if_pos hvc, if_neg hc0, hg]
      dsimp only
      rw [if_pos hj.symm, setStatus_OFF]
    · subst h1
      unfold evalMajority
      dsimp only
      rw [if_pos hvc, if_neg hc0, hg]
      dsimp only
      rw [if_neg (fun e => hj e.symm), if_pos hjc, setStatus_vote, ← hst]

theorem RoundReach.round_inv {s : State} (h : RoundReach s) :
    Tally s ∧ s.HOST_CALC ≠ 0 ∧ (VOTE_COUNT_MIN ≤ s.VOTE_COUNT → evalMajority s = .ok s) := by
  induction h with
  | start s s0 hn hc hf =>
    rw [flush_eq] at hf
    rw [← Except.ok.inj hf]
    refine ⟨Tally.tally_of_flushed s hn, hc, ?_⟩
    intro h2
    have : VOTE_COUNT_MIN ≤ 0 := h2
    unfold VOTE_COUNT_MIN at this
    omega
  | vote s s1 i b _ hi hv ih =>
    obtain ⟨ht, hc, hfix⟩ := ih
    have hc1 : s1.HOST_CALC ≠ 0 := by
      rw [(RoundOnly.round_of_voteCount hv).host_calc]; exact hc
    refine ⟨Tally.tally_of_voteCount ht i b hi hv, hc1, ?_⟩
    by_cases hb : b = 0
    · subst hb
      rw [voteCount_zero] at hv
      rw [← Except.ok.inj hv]; exact hfix
    by_cases hv0 : s.VOTE_NODE_ARR i = 0
    · obtain ⟨k, _, _, _, e⟩ := voteCount_fresh ht i b hi hb hv0
      rw [e] at hv
      intro _
      exact evalMajority_idem hv hc
    · have hiC : i < CAP := by have := ht.nc_le; omega
      rw [voteCount_recorded s i b hiC hv0] at hv
      rw [← Except.ok.inj hv]; exact hfix

theorem Tally.votesFor_pos {s : State} (hs : Tally s) (v : Nat) (hv : v ≠ 0)
    (hp : 0 < votesFor s v) : ∃ k, k < s.CANDIDATE_COUNT ∧ s.CANDIDATE_ARR k = v := by
  obtain ⟨i, hi, hiv⟩ := count_exists _ _ hp
  have hiv' : s.VOTE_NODE_ARR i = v := hiv
  obtain ⟨k, hk, hkv⟩ := hs.voted i hi (by rw [hiv']; exact hv)
  exact ⟨k, hk, by rw [hkv, hiv']⟩

theorem Tally.some_vote {s : State} (hs : Tally s) (h : 0 < s.VOTE_COUNT) :
    ∃ u, u ≠ 0 ∧ 0 < votesFor s u := by
  rw [hs.vc_eq] at h
  obtain ⟨i, hi, hiv⟩ := count_exists _ _ h
  exact ⟨s.VOTE_NODE_ARR i, hiv, count_pos_of _ i _ hi rfl⟩

/-- With the tallies consistent and `evalMajority` a fixed point, the size of the scan is
within the array. -/
theorem scan_in_bounds {s : State} (hs : Tally s) (hq : VOTE_COUNT_MIN ≤ s.VOTE_COUNT)
    (hc : s.HOST_CALC ≠ 0) (hfix : evalMajority s = .ok s) :
    s.CANDIDATE_COUNT + 1 ≤ CAP ∧ (s.CANDIDATE_COUNT + 1) % U32 = s.CANDIDATE_COUNT + 1 := by
  have h1 : s.CANDIDATE_COUNT ≤ CAP := by
    have := hs.cc_le
    have h2 : s.VOTE_COUNT ≤ s.NODE_COUNT := by rw [hs.vc_eq]; exact Nat.count_le _
    have := hs.nc_le
    omega
  have hmod : (s.CANDIDATE_COUNT + 1) % U32 = s.CANDIDATE_COUNT + 1 :=
    Nat.mod_eq_of_lt (by unfold CAP at h1; unfold U32; omega)
  refine ⟨?_, hmod⟩
  by_contra hcon
  have hbig : CAP < (s.CANDIDATE_COUNT + 1) % U32 := by rw [hmod]; omega
  have hoob := getMaxIndex_oob s.CANDIDATE_VOTES_ARR _ hbig
  unfold evalMajority at hfix
  have hc0 : ¬ (0 = s.HOST_CALC) := fun e => hc e.symm
  rw [if_pos hq, if_neg hc0, hoob] at hfix
  simp at hfix

theorem demo779_reach : RoundReach demo779 := by
  have h0 : RoundReach (flushed demoThree) :=
    RoundReach.start demoThree _ (by decide) (by decide) (flush_eq _)
  have h1 := RoundReach.vote _ (stateOf (voteCount 0 7 (flushed demoThree)) demoThree) 0 7 h0
    (by decide) rfl
  have h2 := RoundReach.vote _
    (stateOf (voteCount 1 7 (stateOf (voteCount 0 7 (flushed demoThree)) demoThree)) demoThree)
    1 7 h1 (by decide) rfl
  exact RoundReach.vote _ demo779 2 9 h2 (by decide) rfl

theorem demo79_reach : RoundReach demo79 := by
  have h0 : RoundReach (flushed demoThree) :=
    RoundReach.start demoThree _ (by decide) (by decide) (flush_eq _)
  have h1 := RoundReach.vote _ (stateOf (voteCount 0 7 (flushed demoThree)) demoThree) 0 7 h0
    (by decide) rfl
  exact RoundReach.vote _ demo79 1 9 h1 (by decide) rfl

/-- C1.  Majority correctness, unique plurality: in every state of a round with non-zero calculation
input reached by `voteCount` calls, if at least two votes are recorded and the ballot `v`
is held by strictly more nodes than every other ballot, `MAJORITY_RSLT` is `v`. -/
theorem unique_plurality_wins (s : State) (h : RoundReach s) (hq : 2 ≤ voters s) (v : Nat)
    (hv : v ≠ 0) (hplur : ∀ w, w ≠ 0 → w ≠ v → votesFor s w < votesFor s v) :
    s.MAJORITY_RSLT = v := by
  obtain ⟨ht, hc, hfix⟩ := h.round_inv
  have hq' : VOTE_COUNT_MIN ≤ s.VOTE_COUNT := by rw [ht.vc_eq]; exact hq
  have hfix := hfix hq'
  obtain ⟨hcap, hmod⟩ := scan_in_bounds ht hq' hc hfix
  -- the winner is a candidate
  obtain ⟨u, hu, hup⟩ := ht.some_vote (by unfold VOTE_COUNT_MIN at hq'; omega)
  have hvp : 0 < votesFor s v := by
    by_cases huv : u = v
    · rw [← huv]; exact hup
    · have := hplur u hu huv; omega
  obtain ⟨m, hm, hmv⟩ := ht.votesFor_pos v hv hvp
  have ham : s.CANDIDATE_VOTES_ARR m = votesFor s v := by rw [ht.tally m hm, hmv]
  have hg : getMaxIndex s.CANDIDATE_VOTES_ARR (s.CANDIDATE_COUNT + 1) = .ok m := by
    apply getMaxIndex_unique _ _ m hcap (by omega) (by rw [ham]; exact hvp)
    intro k hk hkm
    rw [ham]
    by_cases hkc : k < s.CANDIDATE_COUNT
    · rw [ht.tally k hkc]
      apply hplur _ (ht.cand_nz k hkc)
      intro e
      exact hkm (ht.cand_inj k m hkc hm (e.trans hmv.symm))
    · rw [(ht.cand_out k (by omega) (by omega)).2]; exact hvp
  have hmC : m < CAP := by omega
  have hmT : ¬ (TIE = m) := by unfold TIE; unfold CAP at hmC; omega
  have hc0 : ¬ (0 = s.HOST_CALC) := fun e => hc e.symm
  unfold evalMajority at hfix
  rw [if_pos hq', if_neg hc0, hmod, hg] at hfix
  dsimp only at hfix
  rw [if_neg hmT, if_pos hmC, setStatus_vote] at hfix
  have := congrArg State.MAJORITY_RSLT (Except.ok.inj hfix)
  rw [← this]
  exact hmv

/-- Ties among fewer than 32 candidates: in every state of a round with non-zero calculation
input reached by returning `voteCount` calls (such a state holds fewer than 32 candidates, see
`scan_in_bounds`), if at least two votes are recorded and two distinct ballots share the
maximum number of voters, `MAJORITY_RSLT` is `TIE` and the LED is off. -/
theorem shared_maximum_ties (s : State) (h : RoundReach s) (hq : 2 ≤ voters s) (v w : Nat)
    (hv : v ≠ 0) (hw : w ≠ 0) (hvw : v ≠ w) (heq : votesFor s v = votesFor s w)
    (hmax : ∀ u, u ≠ 0 → votesFor s u ≤ votesFor s v) :
    s.MAJORITY_RSLT = TIE ∧ s.STATUS = OFF := by
  obtain ⟨ht, hc, hfix⟩ := h.round_inv
  have hq' : VOTE_COUNT_MIN ≤ s.VOTE_COUNT := by rw [ht.vc_eq]; exact hq
  have hfix := hfix hq'
  obtain ⟨hcap, hmod⟩ := scan_in_bounds ht hq' hc hfix
  obtain ⟨u, hu, hup⟩ := ht.some_vote (by unfold VOTE_COUNT_MIN at hq'; omega)
  have hvp : 0 < votesFor s v := by have := hmax u hu; omega
  have hwp : 0 < votesFor s w := by omega
  obtain ⟨m, hm, hmv⟩ := ht.votesFor_pos v hv hvp
  obtain ⟨n, hn, hnw⟩ := ht.votesFor_pos w hw hwp
  have ham : s.CANDIDATE_VOTES_ARR m = votesFor s v := by rw [ht.tally m hm, hmv]
  have han : s.CANDIDATE_VOTES_ARR n = votesFor s v := by rw [ht.tally n hn, hnw, heq]
  have hmn : m ≠ n := by
    intro e
    rw [e, hnw] at hmv
    exact hvw hmv.symm
  have hle : ∀ k, k < s.CANDIDATE_COUNT + 1 → s.CANDIDATE_VOTES_ARR k ≤ votesFor s v := by
    intro k hk
    by_cases hkc : k < s.CANDIDATE_COUNT
    · rw [ht.tally k hkc]; exact hmax _ (ht.cand_nz k hkc)
    · rw [(ht.cand_out k (by omega) (by omega)).2]; omega
  have hg : getMaxIndex s.CANDIDATE_VOTES_ARR (s.CANDIDATE_COUNT + 1) = .ok TIE := by
    rcases Nat.lt_or_gt_of_ne hmn with hlt | hlt
    · exact getMaxIndex_tie _ _ m n hcap hlt (by omega) (ham.trans han.symm)
        (by rw [ham]; exact hvp) (fun k hk => by rw [ham]; exact hle k hk)
    · exact getMaxIndex_tie _ _ n m hcap hlt (by omega) (han.trans ham.symm)
        (by rw [han]; exact hvp) (fun k hk => by rw [han]; exact hle k hk)
  have hc0 : ¬ (0 = s.HOST_CALC) := fun e => hc e.symm
  unfold evalMajority at hfix
  rw [if_pos hq', if_neg hc0, hmod, hg] at hfix
  dsimp only at hfix
  rw [if_pos rfl, setStatus_OFF] at hfix
  have h1 := congrArg State.MAJORITY_RSLT (Except.ok.inj hfix)
  have h2 := congrArg State.STATUS (Except.ok.inj hfix)
  exact ⟨h1.symm, h2.symm⟩

theorem demo779_votes : demo779.NODE_COUNT = 3 ∧ demo779.VOTE_NODE_ARR 0 = 7 ∧
    demo779.VOTE_NODE_ARR 1 = 7 ∧ demo779.VOTE_NODE_ARR 2 = 9 := by decide

theorem demo79_votes : demo79.NODE_COUNT = 3 ∧ demo79.VOTE_NODE_ARR 0 = 7 ∧
    demo79.VOTE_NODE_ARR 1 = 9 ∧ demo79.VOTE_NODE_ARR 2 = 0 := by decide

/-- Witness for C1: three nodes voting 7, 7, 9 give the majority 7. -/
theorem unique_plurality_wins_witness :
    RoundReach demo779 ∧ 2 ≤ voters demo779 ∧ demo779.MAJORITY_RSLT = 7 := by
  obtain ⟨hn, h0, h1, h2⟩ := demo779_votes
  have hvf : ∀ w, votesFor demo779 w =
      (if 7 = w then 1 else 0) + (if 7 = w then 1 else 0) + (if 9 = w then 1 else 0) := by
    intro w
    simp [votesFor, hn, Nat.count_succ, h0, h1, h2]
  have hq : 2 ≤ voters demo779 := by
    simp [voters, hn, Nat.count_succ, h0, h1, h2]
  refine ⟨demo779_reach, hq, unique_plurality_wins demo779 demo779_reach hq 7 (by decide) ?_⟩
  intro w _ hw7
  have h7 : ¬ (7 = w) := fun e => hw7 e.symm
  rw [hvf w, hvf 7]
  simp only [h7, if_false, if_true]
  split_ifs <;> omega

/-- Two nodes voting 7 and 9 give a tie with the LED off. -/
theorem shared_maximum_ties_witness :
    RoundReach demo79 ∧ 2 ≤ voters demo79 ∧ demo79.MAJORITY_RSLT = TIE ∧
      demo79.STATUS = OFF := by
  obtain ⟨hn, h0, h1, h2⟩ := demo79_votes
  have hvf : ∀ w, votesFor demo79 w =
      (if 7 = w then 1 else 0) + (if 9 = w then 1 else 0) + (if 0 = w then 1 else 0) := by
    intro w
    simp [votesFor, hn, Nat.count_succ, h0, h1, h2]
  have hq : 2 ≤ voters demo79 := by
    simp [voters, hn, Nat.count_succ, h0, h1, h2]
  refine ⟨demo79_reach, hq, shared_maximum_ties demo79 demo79_reach hq 7 9 (by decide)
    (by decide) (by decide) ?_ ?_⟩
  · rw [hvf 7, hvf 9]; decide
  · intro u hu
    have h0u : ¬ (0 = u) := fun e => hu e.symm
    rw [hvf u, hvf 7]
    simp only [h0u, if_false]
    split_ifs <;> omega

theorem Reach.reach_mono {P : Platform} {step1 step2 : State → State → Prop}
    (hm : ∀ a b, step1 a b → step2 a b) {s : State} (h : Reach P step1 s) :
    Reach P step2 s := by
  induction h with
  | boot st nb rb => exact Reach.boot st nb rb
  | next a b _ hab ih => exact Reach.next a b ih (hm a b hab)

theorem Reach.reach_inv {P : Platform} {step : State → State → Prop}
    (hstep : ∀ a b, Inv a → step a b → Inv b) {s : State} (h : Reach P step s) : Inv s := by
  induction h with
  | boot st nb rb => exact Inv.inv_setup P st nb rb
  | next a b _ hab ih => exact hstep a b ih hab

theorem Inv.inv_of_RStep {P : Platform} {a b : State} (h : Inv a) (hs : RStep P a b) : Inv b := by
  obtain ⟨now, face, scan, e⟩ := hs
  exact h.inv_of_r_handler e

theorem Inv.inv_of_CStep {P : Platform} {a b : State} (h : Inv a) (hs : CStep P a b) : Inv b := by
  obtain ⟨now, face, junk, scan, e⟩ := hs
  exact h.inv_of_c_handler e

theorem Inv.inv_of_HStep {P : Platform} {a b : State} (h : Inv a) (hs : HStep P a b) : Inv b := by
  obtain ⟨now, due, e⟩ := hs
  exact h.inv_of_heartBeat e

theorem Inv.inv_of_VoteStep {a b : State} (h : Inv a) (hs : VoteStep a b) : Inv b := by
  obtain ⟨i, v, hi, e⟩ := hs
  exact h.inv_of_voteCount i v hi e

theorem Inv.inv_of_LogStep {a b : State} (h : Inv a) (hs : LogStep a b) : Inv b := by
  obtain ⟨ID, TIME, now, idx, e⟩ := hs
  exact h.inv_of_log e

theorem demoOneVote_reach : Reach demoBoard (RStep demoBoard) demoOneVote :=
  Reach.next demoBoot demoOneVote (Reach.boot _ _ _) ⟨50, 1, some demoVote, rfl⟩

/-- C3. Minimum quorum: in every state reached from the initial state by `r_handler`,
`c_handler` and `heartBeat` steps, fewer than `VOTE_COUNT_MIN` recorded votes mean that no
majority is declared (`MAJORITY_RSLT = 0`), and `evalMajority` run there only switches the LED
off. -/
theorem quorum_needed (P : Platform) (s : State)
    (h : Reach P (fun a b => RStep P a b ∨ CStep P a b ∨ HStep P a b) s)
    (hq : s.VOTE_COUNT < VOTE_COUNT_MIN) :
    s.MAJORITY_RSLT = 0 ∧ evalMajority s = .ok { s with STATUS := OFF } := by
  have hinv : Inv s := by
    apply Reach.reach_inv _ h
    intro a b ha hab
    rcases hab with h1 | h1 | h1
    · exact ha.inv_of_RStep h1
    · exact ha.inv_of_CStep h1
    · exact ha.inv_of_HStep h1
  refine ⟨hinv.tally.maj0 hq, ?_⟩
  unfold evalMajority
  have : ¬ (s.VOTE_COUNT ≥ VOTE_COUNT_MIN) := by omega
  rw [if_neg this, setStatus_OFF]

/-- Witness for C3: after one peer vote the board has one recorded vote and no majority. -/
theorem quorum_needed_witness :
    demoOneVote.VOTE_COUNT < VOTE_COUNT_MIN ∧ demoOneVote.MAJORITY_RSLT = 0 ∧
      evalMajority demoOneVote = .ok { demoOneVote with STATUS := OFF } :=
  ⟨by decide,
    quorum_needed demoBoard demoOneVote (demoOneVote_reach.reach_mono (fun _ _ h => Or.inl h))
      (by decide)⟩

/-- C4. Tally consistency: in every state reached from the initial state by `flush`, `voteCount`
(for a known node), `r_handler` and `c_handler` steps, `VOTE_COUNT` is the number of known nodes
with a non-zero recorded vote, which is the sum of all 32 tallies; the candidates in use are
pairwise distinct and non-zero; each of their tallies is the number of known nodes whose
recorded vote is that candidate; the unused slots hold tally 0; and a ballot of 0 changes
nothing. -/
theorem tally_consistent (P : Platform) (s : State)
    (h : Reach P (fun a b => FlushStep a b ∨ VoteStep a b ∨ RStep P a b ∨ CStep P a b) s) :
    s.VOTE_COUNT = voters s ∧
    voters s = (∑ k in Finset.range CAP, s.CANDIDATE_VOTES_ARR k) ∧
    (∀ k l, k < s.CANDIDATE_COUNT → l < s.CANDIDATE_COUNT → k ≠ l →
      s.CANDIDATE_ARR k ≠ s.CANDIDATE_ARR l) ∧
    (∀ k, k < s.CANDIDATE_COUNT → s.CANDIDATE_ARR k ≠ 0) ∧
    (∀ k, k < s.CANDIDATE_COUNT →
      s.CANDIDATE_VOTES_ARR k = votesFor s (s.CANDIDATE_ARR k)) ∧
    (∀ k, s.CANDIDATE_COUNT ≤ k → k < CAP → s.CANDIDATE_VOTES_ARR k = 0) ∧
    (∀ i, voteCount i 0 s = .ok s) := by
  have hinv : Inv s := by
    apply Reach.reach_inv _ h
    intro a b ha hab
    rcases hab with h1 | h1 | h1 | h1
    · exact ha.inv_of_flush h1
    · exact ha.inv_of_VoteStep h1
    · exact ha.inv_of_RStep h1
    · exact ha.inv_of_CStep h1
  have ht := hinv.tally
  refine ⟨ht.vc_eq, ?_, ?_, ht.cand_nz, ht.tally, fun k h1 h2 => (ht.cand_out k h1 h2).2,
    fun i => voteCount_zero i s⟩
  · rw [ht.sum, ht.vc_eq]
  · intro k l hk hl hne e
    exact hne (ht.cand_inj k l hk hl e)

/-- Witness for C4: after one peer vote the count, the registry and the tallies all say 1. -/
theorem tally_consistent_witness :
    Reach demoBoard (fun a b => FlushStep a b ∨ VoteStep a b ∨ RStep demoBoard a b ∨
      CStep demoBoard a b) demoOneVote ∧
    voters demoOneVote = 1 ∧
    (∑ k in Finset.range CAP, demoOneVote.CANDIDATE_VOTES_ARR k) = 1 := by
  have hr : Reach demoBoard (fun a b => FlushStep a b ∨ VoteStep a b ∨ RStep demoBoard a b ∨
      CStep demoBoard a b) demoOneVote :=
    demoOneVote_reach.reach_mono (fun _ _ h => Or.inr (Or.inr (Or.inl h)))
  have h := tally_consistent demoBoard demoOneVote hr
  have h1 : demoOneVote.VOTE_COUNT = 1 := by decide
  exact ⟨hr, by rw [← h.1, h1], by rw [← h.2.1, ← h.1, h1]⟩

/-- C5. Vote immutability: for every state, every registry index `i` whose recorded vote is not
0 and every ballot `b`, `voteCount(i, b)` returns with every global unchanged. -/
theorem vote_immutable (s : State) (i b : Nat) (hi : i < CAP) (hv : s.VOTE_NODE_ARR i ≠ 0) :
    voteCount i b s = .ok s :=
  voteCount_recorded s i b hi hv

/-- Witness for C5: node 1 of the round 7, 7, 9 cannot change its vote to 9. -/
theorem vote_immutable_witness :
    1 < CAP ∧ demo779.VOTE_NODE_ARR 1 ≠ 0 ∧ voteCount 1 9 demo779 = .ok demo779 :=
  ⟨by decide, by decide, vote_immutable demo779 1 9 (by decide) (by decide)⟩

theorem KeepsKeys.keys_trans {s t u : State} (h1 : KeepsKeys s t) (h2 : KeepsKeys t u) :
    KeepsKeys s u :=
  ⟨h2.1.trans h1.1, h2.2.1.trans h1.2.1, h2.2.2.trans h1.2.2⟩

theorem KeepsKeys.keys_of_roundOnly {s t : State} (h : RoundOnly s t) : KeepsKeys s t :=
  ⟨h.node_count, h.id, h.ts_node⟩

theorem KeepsKeys.keys_of_strikeOnly {s t : State} (h : StrikeOnly s t) : KeepsKeys s t := by
  obtain ⟨st, rb, tr, e⟩ := h
  subst e
  exact ⟨rfl, rfl, rfl⟩

theorem accepted_keeps (face : Nat) (p : R_PKT) (s : State) :
    KeepsKeys s (accepted face p s) ∧
      (accepted face p s).HOST_CALC_VER = s.HOST_CALC_VER := by
  unfold accepted FWD_R_PKT
  split_ifs
  · exact ⟨⟨rfl, rfl, rfl⟩, rfl⟩
  · exact ⟨⟨rfl, rfl, rfl⟩, rfl⟩

/-- What the accepting part of `r_handler` leaves alone, and what it does to the version. -/
theorem r_accept_frame {P : Platform} {now face : Nat} {p : R_PKT} {idx : Nat}
    {s1 s2 : State} (ha : r_accept P now face p idx s1 = .ok s2) :
    KeepsKeys s1 s2 ∧ s1.HOST_CALC_VER ≤ s2.HOST_CALC_VER := by
  unfold r_accept at ha
  split at ha
  · simp at ha
  dsimp only at ha
  obtain ⟨hk3, hv3⟩ := accepted_keeps face p s1
  split at ha
  · have hr := RoundOnly.round_of_voteCount ha
    exact ⟨hk3.keys_trans (KeepsKeys.keys_of_roundOnly hr), by rw [hr.host_calc_ver, hv3]⟩
  split at ha
  · rename_i hgt
    split at ha
    · simp at ha
    rename_i s4 hs4
    have hk4 := KeepsKeys.keys_of_strikeOnly (strikeCheck_frame hs4)
    split at ha
    · simp at ha
    rename_i s6 hs6
    have hr6 := RoundOnly.round_of_voteCount hs6
    split at ha
    · simp at ha
    rename_i v s8 hs8
    have hr8 := RoundOnly.round_of_calculate hs8
    have hr9 := RoundOnly.round_of_voteCount ha
    refine ⟨?_, ?_⟩
    · have k6 : KeepsKeys s4 s6 :=
        (KeepsKeys.keys_of_roundOnly (RoundOnly.round_of_flushed s4)).keys_trans
          (KeepsKeys.keys_of_roundOnly hr6)
      have k8 : KeepsKeys s6 s8 :=
        KeepsKeys.keys_trans (t := adopted p s6) ⟨rfl, rfl, rfl⟩ (KeepsKeys.keys_of_roundOnly hr8)
      exact hk3.keys_trans
        (hk4.keys_trans (k6.keys_trans (k8.keys_trans (KeepsKeys.keys_of_roundOnly hr9))))
    · rw [hr9.host_calc_ver, hr8.host_calc_ver]
      show s1.HOST_CALC_VER ≤ p.calc_ver
      omega
  · rw [← Except.ok.inj ha]
    exact ⟨hk3, by rw [hv3]⟩

/-- After `log` has returned, the key of the packet is the one stored for its sender. -/
theorem log_marks {ID TIME now : Nat} {s s0 : State} {idx : Nat}
    (h : log ID TIME now s = .ok (idx, s0)) :
    ∃ m, m < CAP ∧ FirstAt s0 ID 0 s0.NODE_COUNT m ∧ s0.TS_NODE_ARR m = TIME := by
  rcases log_cases ID TIME now s idx s0 h with
      ⟨m, hf, hm, _, _, h2⟩ | ⟨m, hf, hm, ht, _, h2⟩ | ⟨hab, hn, _, h2⟩
  · subst h2
    exact ⟨m, hm, hf, by simp [logHit, setAt]⟩
  · subst h2
    exact ⟨m, hm, hf, ht.symm⟩
  · subst h2
    refine ⟨s.NODE_COUNT, hn, ⟨Nat.zero_le _, Nat.lt_succ_self _, by simp [logNew, setAt], ?_⟩,
      by simp [logNew, setAt]⟩
    intro k _ hk
    have : k ≠ s.NODE_COUNT := by omega
    simp only [logNew, setAt, this, if_false]
    exact hab k hk

theorem FirstAt.first_of_keeps {s t : State} (h : KeepsKeys s t) {ID m : Nat}
    (hf : FirstAt s ID 0 s.NODE_COUNT m) : FirstAt t ID 0 t.NODE_COUNT m := by
  unfold FirstAt at *
  rw [h.1, h.2.1]
  exact hf

/-- What `log` does to the registry keys and to the version, in any state. -/
theorem log_frame {ID TIME now : Nat} {s s0 : State} {idx : Nat}
    (h : log ID TIME now s = .ok (idx, s0)) :
    s.NODE_COUNT ≤ s0.NODE_COUNT ∧ (∀ i, i < s.NODE_COUNT → s0.ID_NODE_ARR i = s.ID_NODE_ARR i) ∧
      s0.HOST_CALC_VER = s.HOST_CALC_VER := by
  rcases log_cases ID TIME now s idx s0 h with
      ⟨m, _, _, _, _, h2⟩ | ⟨m, _, _, _, _, h2⟩ | ⟨_, _, _, h2⟩
  · subst h2; exact ⟨Nat.le_refl _, fun _ _ => rfl, rfl⟩
  · subst h2; exact ⟨Nat.le_refl _, fun _ _ => rfl, rfl⟩
  · subst h2
    refine ⟨Nat.le_succ _, ?_, rfl⟩
    intro i hi
    have : i ≠ s.NODE_COUNT := by omega
    simp [logNew, setAt, this]

/-- The result of `r_handler` is reached from the result of its `log` call by steps that
keep the registry keys and never lower the version. -/
theorem r_handler_after_log {P : Platform} {now face : Nat} {p : R_PKT} {s s1 : State}
    (h : r_handler P now face (some p) s = .ok s1) :
    ∃ idx s0, log p.key.ID p.key.TIME now s = .ok (idx, s0) ∧ KeepsKeys s0 s1 ∧
      s0.HOST_CALC_VER ≤ s1.HOST_CALC_VER := by
  rw [r_handler_eq] at h
  split at h
  · simp at h
  rename_i idx s0 hl
  refine ⟨idx, s0, hl, ?_⟩
  split at h
  · rw [← Except.ok.inj h]; exact ⟨⟨rfl, rfl, rfl⟩, Nat.le_refl _⟩
  split at h
  swap
  · simp at h
  split at h
  · rw [← Except.ok.inj h]; exact ⟨⟨rfl, rfl, rfl⟩, Nat.le_refl _⟩
  split at h
  · rw [← Except.ok.inj h]; exact ⟨⟨rfl, rfl, rfl⟩, Nat.le_refl _⟩
  exact r_accept_frame h

theorem r_handler_frame {P : Platform} {now face : Nat} {scan : Option R_PKT} {s s1 : State}
    (h : r_handler P now face scan s = .ok s1) :
    s.NODE_COUNT ≤ s1.NODE_COUNT ∧ (∀ i, i < s.NODE_COUNT → s1.ID_NODE_ARR i = s.ID_NODE_ARR i) ∧
      s.HOST_CALC_VER ≤ s1.HOST_CALC_VER := by
  cases scan with
  | none =>
    unfold r_handler at h
    rw [← Except.ok.inj h]
    exact ⟨Nat.le_refl _, fun _ _ => rfl, Nat.le_refl _⟩
  | some p =>
    obtain ⟨idx, s0, hl, hk, hv⟩ := r_handler_after_log h
    obtain ⟨h1, h2, h3⟩ := log_frame hl
    refine ⟨by rw [hk.1]; exact h1, fun i hi => by rw [hk.2.1]; exact h2 i hi, by omega⟩

/-- C6.  Dedup / idempotence: a result packet that `r_handler` has just handled is reported by `log`
as a duplicate and handling it again changes no global and so forwards nothing; and in any
state whose registry is well formed, a result packet whose key is the identifier and stored
time-stamp of a known node changes nothing either. -/
theorem dedup_idempotent (P : Platform) (p : R_PKT) :
    (∀ (s s1 : State) (now face now2 face2 : Nat),
      r_handler P now face (some p) s = .ok s1 →
        log p.key.ID p.key.TIME now2 s1 = .ok (INVALID, s1) ∧
        r_handler P now2 face2 (some p) s1 = .ok s1) ∧
    (∀ (s : State) (now face i : Nat), s.NODE_COUNT ≤ CAP →
      (∀ a b, a < s.NODE_COUNT → b < s.NODE_COUNT → s.ID_NODE_ARR a = s.ID_NODE_ARR b → a = b) →
      i < s.NODE_COUNT → s.ID_NODE_ARR i = p.key.ID → s.TS_NODE_ARR i = p.key.TIME →
        r_handler P now face (some p) s = .ok s) := by
  constructor
  · intro s s1 now face now2 face2 h
    obtain ⟨idx, s0, hl, hk, _⟩ := r_handler_after_log h
    obtain ⟨m, hm, hf, ht⟩ := log_marks hl
    have hd : log p.key.ID p.key.TIME now2 s1 = .ok (INVALID, s1) :=
      log_dup _ _ _ s1 m hm (hf.first_of_keeps hk) (by rw [hk.2.2]; exact ht)
    refine ⟨hd, ?_⟩
    rw [r_handler_eq, hd]
    simp
  · intro s now face i hn hids hi hid hts
    have hf : FirstAt s p.key.ID 0 s.NODE_COUNT i :=
      ⟨Nat.zero_le _, hi, hid, fun k _ hk e => by
        have := hids k i (by omega) hi (e.trans hid.symm)
        omega⟩
    have hd := log_dup p.key.ID p.key.TIME now s i (by omega) hf hts
    rw [r_handler_eq, hd]
    simp

theorem demoOneVote_registry : demoOneVote.NODE_COUNT = 2 ∧ demoOneVote.ID_NODE_ARR 0 = 100 ∧
    demoOneVote.ID_NODE_ARR 1 = 7 ∧ demoOneVote.TS_NODE_ARR 1 = 5000 := by decide

/-- Witness for C6: `demoVote` handled a second time, at another time on another face. -/
theorem dedup_idempotent_witness :
    r_handler demoBoard 50 1 (some demoVote) demoBoot = .ok demoOneVote ∧
    log demoVote.key.ID demoVote.key.TIME 60 demoOneVote = .ok (INVALID, demoOneVote) ∧
    r_handler demoBoard 60 2 (some demoVote) demoOneVote = .ok demoOneVote ∧
    r_handler demoBoard 70 3 (some demoVote) demoOneVote = .ok demoOneVote := by
  obtain ⟨hn, h0, h1, ht⟩ := demoOneVote_registry
  have hw := (dedup_idempotent demoBoard demoVote).1 demoBoot demoOneVote 50 1 60 2 rfl
  refine ⟨rfl, hw.1, hw.2, ?_⟩
  apply (dedup_idempotent demoBoard demoVote).2 demoOneVote 70 3 1
  · rw [hn]; decide
  · intro a b ha hb e
    rw [hn] at ha hb
    have ha' : a = 0 ∨ a = 1 := by omega
    have hb' : b = 0 ∨ b = 1 := by omega
    rcases ha' with rfl | rfl <;> rcases hb' with rfl | rfl
    · rfl
    · rw [h0, h1] at e; omega
    · rw [h0, h1] at e; omega
    · rfl
  · rw [hn]; decide
  · exact h1
  · exact ht

/-- C10. Registry uniqueness: in every state reached from the initial state by `log` and
`r_handler` steps the identifiers of the known nodes are pairwise distinct, and a further such
step never lowers `NODE_COUNT` and never changes the identifier stored at a known index. -/
theorem registry_unique (P : Platform) (s : State)
    (h : Reach P (fun a b => LogStep a b ∨ RStep P a b) s) :
    (∀ i j, i < s.NODE_COUNT → j < s.NODE_COUNT → i ≠ j →
      s.ID_NODE_ARR i ≠ s.ID_NODE_ARR j) ∧
    (∀ s1, (LogStep s s1 ∨ RStep P s s1) →
      s.NODE_COUNT ≤ s1.NODE_COUNT ∧
      ∀ i, i < s.NODE_COUNT → s1.ID_NODE_ARR i = s.ID_NODE_ARR i) := by
  have hinv : Inv s := by
    apply Reach.reach_inv _ h
    intro a b ha hab
    rcases hab with h1 | h1
    · exact ha.inv_of_LogStep h1
    · exact ha.inv_of_RStep h1
  constructor
  · intro i j hi hj hne e
    exact hne (hinv.reg.ids i j hi hj e)
  · intro s1 hstep
    rcases hstep with ⟨ID, TIME, now, idx, hl⟩ | ⟨now, face, scan, hr⟩
    · exact ⟨(log_frame hl).1, (log_frame hl).2.1⟩
    · exact ⟨(r_handler_frame hr).1, (r_handler_frame hr).2.1⟩

/-- Witness for C10: after `demoVote` the board knows the two identifiers 100 and 7. -/
theorem registry_unique_witness :
    Reach demoBoard (fun a b => LogStep a b ∨ RStep demoBoard a b) demoOneVote ∧
    demoOneVote.ID_NODE_ARR 0 ≠ demoOneVote.ID_NODE_ARR 1 := by
  have hr : Reach demoBoard (fun a b => LogStep a b ∨ RStep demoBoard a b) demoOneVote :=
    demoOneVote_reach.reach_mono (fun _ _ h => Or.inr h)
  exact ⟨hr, (registry_unique demoBoard demoOneVote hr).1 0 1 (by decide) (by decide)
    (by decide)⟩

theorem log_reset (ID TIME now : Nat) (s : State) (hn : s.NODE_COUNT = CAP)
    (hab : ∀ k, k < s.NODE_COUNT → s.ID_NODE_ARR k ≠ ID) :
    log ID TIME now s = .error .reset := by
  have h := logLoop_absent ID TIME now s s.NODE_COUNT 0 (by omega)
    (fun k _ hk => hab k (by omega))
  have hfull : s.NODE_COUNT ≥ CAP := by omega
  simp [log, h, hfull]

theorem firstAt_of_exists (s : State) (ID : Nat)
    (h : ∃ k, k < s.NODE_COUNT ∧ s.ID_NODE_ARR k = ID) :
    ∃ m, FirstAt s ID 0 s.NODE_COUNT m := by
  classical
  refine ⟨Nat.find h, Nat.zero_le _, (Nat.find_spec h).1, (Nat.find_spec h).2, ?_⟩
  intro k _ hk e
  exact Nat.find_min h hk ⟨by have := (Nat.find_spec h).1; omega, e⟩

/-- In a registry that is not over-full `log` resets the device exactly when the sender is
unknown and all 32 entries are taken; otherwise it returns. -/
theorem log_total (ID TIME now : Nat) (s : State) (hn : s.NODE_COUNT ≤ CAP) :
    (log ID TIME now s = .error .reset ∧ s.NODE_COUNT = CAP ∧
      ∀ k, k < s.NODE_COUNT → s.ID_NODE_ARR k ≠ ID) ∨
    (∃ idx s0, log ID TIME now s = .ok (idx, s0)) := by
  by_cases h : ∃ k, k < s.NODE_COUNT ∧ s.ID_NODE_ARR k = ID
  · obtain ⟨m, hf⟩ := firstAt_of_exists s ID h
    have hm : m < CAP := by have := hf.2.1; omega
    by_cases ht : TIME ≠ s.TS_NODE_ARR m
    · exact Or.inr ⟨_, _, log_hit ID TIME now s m hm hf ht⟩
    · exact Or.inr ⟨_, _, log_dup ID TIME now s m hm hf (not_not.mp ht).symm⟩
  · have hab : ∀ k, k < s.NODE_COUNT → s.ID_NODE_ARR k ≠ ID :=
      fun k hk e => h ⟨k, hk, e⟩
    by_cases hfull : s.NODE_COUNT = CAP
    · exact Or.inl ⟨log_reset ID TIME now s hfull hab, hfull, hab⟩
    · exact Or.inr ⟨_, _, log_new ID TIME now s (by omega) hab⟩

/-- What `log` leaves alone in any state: everything outside the registry, the activity
marks, and the records of all known nodes other than the sender. -/
theorem log_others {ID TIME now : Nat} {s s0 : State} {idx : Nat}
    (h : log ID TIME now s = .ok (idx, s0)) :
    s0 = { s with
           NODE_COUNT := s0.NODE_COUNT, ID_NODE_ARR := s0.ID_NODE_ARR,
           TS_NODE_ARR := s0.TS_NODE_ARR, TS_HOST_ARR := s0.TS_HOST_ARR,
           PC_NODE_ARR := s0.PC_NODE_ARR } ∧
    s.NODE_COUNT ≤ s0.NODE_COUNT ∧ s0.NODE_COUNT ≤ s.NODE_COUNT + 1 ∧
    (idx = INVALID ∨ (idx < CAP ∧ s0.ID_NODE_ARR idx = ID)) ∧
    (∀ i, i < s.NODE_COUNT → s.ID_NODE_ARR i ≠ ID →
      s0.ID_NODE_ARR i = s.ID_NODE_ARR i ∧ s0.TS_NODE_ARR i = s.TS_NODE_ARR i ∧
      s0.TS_HOST_ARR i = s.TS_HOST_ARR i ∧ s0.PC_NODE_ARR i = s.PC_NODE_ARR i) := by
  rcases log_cases ID TIME now s idx s0 h with
      ⟨m, hf, hm, _, h1, h2⟩ | ⟨m, _, _, _, h1, h2⟩ | ⟨_, hn, h1, h2⟩
  · subst h2 h1
    refine ⟨rfl, Nat.le_refl _, Nat.le_succ _, Or.inr ⟨hm, hf.2.2.1⟩, ?_⟩
    intro i _ hne
    have him : i ≠ idx := fun e => hne (by rw [e]; exact hf.2.2.1)
    refine ⟨rfl, by simp [logHit, setAt, him], by simp [logHit, setAt, him], ?_⟩
    show (if s.PC_NODE_ARR idx < 0xffff then setAt s.PC_NODE_ARR idx (s.PC_NODE_ARR idx + 1)
      else s.PC_NODE_ARR) i = s.PC_NODE_ARR i
    split_ifs
    · simp [setAt, him]
    · rfl
  · subst h2 h1
    exact ⟨rfl, Nat.le_refl _, Nat.le_succ _, Or.inl rfl, fun _ _ _ => ⟨rfl, rfl, rfl, rfl⟩⟩
  · subst h2 h1
    refine ⟨rfl, Nat.le_succ _, Nat.le_refl _, Or.inr ⟨hn, by simp [logNew, setAt]⟩, ?_⟩
    intro i hi _
    have him : i ≠ s.NODE_COUNT := by omega
    simp [logNew, setAt, him]

/-- Counterexample for C7 as stated: a packet of round version 0 that reaches a board in
round version 1 is logged before its version is looked at, and its sender is admitted to
the registry. -/
theorem stale_packet_is_logged :
    r_handler demoBoard 50 1 (some demoVote) demoRound1 = .ok demoStale ∧
    demoVote.calc_ver < demoRound1.HOST_CALC_VER ∧
    demoRound1.NODE_COUNT = 1 ∧ demoStale.NODE_COUNT = 2 ∧
    demoRound1.PC_NODE_ARR 1 = 0 ∧ demoStale.PC_NODE_ARR 1 = 1 :=
  ⟨rfl, by decide, by decide, by decide, by decide, by decide⟩

/-- C7, amended.  Version ordering, stale packets: in a state with at most 32 known nodes, a result
packet whose `calc_ver` is below `HOST_CALC_VER` either resets the device (unknown sender,
full registry) or makes `r_handler` return with every global outside the registry arrays
unchanged (round data, topology, strikes, LED, trace: nothing is forwarded); in the
registry at most one node is admitted and the records of all known nodes other than the
sender are unchanged. -/
theorem stale_packet_frame (P : Platform) (now face : Nat) (p : R_PKT) (s : State)
    (hn : s.NODE_COUNT ≤ CAP) (hver : p.calc_ver < s.HOST_CALC_VER) :
    (r_handler P now face (some p) s = .error .reset ∧ s.NODE_COUNT = CAP ∧
      ∀ k, k < s.NODE_COUNT → s.ID_NODE_ARR k ≠ p.key.ID) ∨
    (∃ s1, r_handler P now face (some p) s = .ok s1 ∧
      s1 = { s with
             NODE_COUNT := s1.NODE_COUNT, ID_NODE_ARR := s1.ID_NODE_ARR,
             TS_NODE_ARR := s1.TS_NODE_ARR, TS_HOST_ARR := s1.TS_HOST_ARR,
             PC_NODE_ARR := s1.PC_NODE_ARR } ∧
      s.NODE_COUNT ≤ s1.NODE_COUNT ∧ s1.NODE_COUNT ≤ s.NODE_COUNT + 1 ∧
      ∀ i, i < s.NODE_COUNT → s.ID_NODE_ARR i ≠ p.key.ID →
        s1.ID_NODE_ARR i = s.ID_NODE_ARR i ∧ s1.TS_NODE_ARR i = s.TS_NODE_ARR i ∧
        s1.TS_HOST_ARR i = s.TS_HOST_ARR i ∧ s1.PC_NODE_ARR i = s.PC_NODE_ARR i) := by
  rcases log_total p.key.ID p.key.TIME now s hn with ⟨h1, h2, h3⟩ | ⟨idx, s0, hl⟩
  · left
    refine ⟨?_, h2, h3⟩
    rw [r_handler_eq, h1]
  · right
    obtain ⟨he, hle1, hle2, hidx, hoth⟩ := log_others hl
    have hv0 : s0.HOST_CALC_VER = s.HOST_CALC_VER := (log_frame hl).2.2
    rw [r_handler_eq, hl]
    dsimp only
    by_cases hinv : INVALID = idx
    · rw [if_pos hinv]
      exact ⟨s0, rfl, he, hle1, hle2, hoth⟩
    rw [if_neg hinv]
    rcases hidx with e | ⟨hc, hid⟩
    · exact absurd e.symm hinv
    rw [if_pos hc]
    by_cases hspam : s0.PC_NODE_ARR idx > p.key.TIME / 1000
    · rw [if_pos hspam]
      refine ⟨amnesty s0 idx, rfl, ?_, hle1, hle2, ?_⟩
      · rw [he]
        rfl
      · intro i hi hne
        obtain ⟨a1, a2, a3, a4⟩ := hoth i hi hne
        have him : i ≠ idx := by
          intro e
          apply hne
          rw [← a1, e]
          exact hid
        exact ⟨a1, a2, a3, by simp [amnesty, setAt, him, a4]⟩
    · rw [if_neg hspam]
      have hst : p.calc_ver < s0.HOST_CALC_VER := by rw [hv0]; exact hver
      rw [if_pos hst]
      exact ⟨s0, rfl, he, hle1, hle2, hoth⟩

/-- Witness for C7 as amended: the stale `demoVote` changes only the registry of
`demoRound1`. -/
theorem stale_packet_frame_witness :
    demoRound1.NODE_COUNT ≤ CAP ∧ demoVote.calc_ver < demoRound1.HOST_CALC_VER ∧
    demoStale.TRACE = demoRound1.TRACE ∧ demoStale.VOTE_COUNT = demoRound1.VOTE_COUNT := by
  have hn : demoRound1.NODE_COUNT ≤ CAP := by decide
  have hv : demoVote.calc_ver < demoRound1.HOST_CALC_VER := by decide
  have hrun : r_handler demoBoard 50 1 (some demoVote) demoRound1 = .ok demoStale := rfl
  rcases stale_packet_frame demoBoard 50 1 demoVote demoRound1 hn hv with
      ⟨h1, _, _⟩ | ⟨s1, h1, h2, _⟩
  · rw [hrun] at h1
    simp at h1
  · rw [hrun] at h1
    have e : demoStale = s1 := Except.ok.inj h1
    rw [e]
    refine ⟨hn, hv, ?_, ?_⟩
    · rw [h2]
    · rw [h2]

theorem evalMajority_total (s : State) (hcc : s.CANDIDATE_COUNT + 1 ≤ CAP) :
    ∃ s1, evalMajority s = .ok s1 := by
  have hmod : (s.CANDIDATE_COUNT + 1) % U32 = s.CANDIDATE_COUNT + 1 :=
    Nat.mod_eq_of_lt (by unfold CAP at hcc; unfold U32; omega)
  unfold evalMajority
  by_cases hq : s.VOTE_COUNT ≥ VOTE_COUNT_MIN
  · rw [if_pos hq]
    by_cases hc : 0 = s.HOST_CALC
    · rw [if_pos hc, flush_eq]; exact ⟨_, rfl⟩
    · rw [if_neg hc, hmod]
      obtain ⟨j, hj, hcase⟩ := getMaxIndex_range s.CANDIDATE_VOTES_ARR (s.CANDIDATE_COUNT + 1)
        (by omega) hcc
      rw [hj]
      dsimp only
      by_cases ht : TIE = j
      · rw [if_pos ht, setStatus_OFF]; exact ⟨_, rfl⟩
      · rw [if_neg ht]
        have hjc : j < CAP := by
          rcases hcase with e | e
          · exact absurd e.symm ht
          · omega
        rw [if_pos hjc, setStatus_vote]
        exact ⟨_, rfl⟩
  · rw [if_neg hq, setStatus_OFF]; exact ⟨_, rfl⟩

theorem voteCount_total {s : State} (hs : Tally s) (i b : Nat) (hi : i < s.NODE_COUNT)
    (hcc : s.CANDIDATE_COUNT + 2 ≤ CAP) : ∃ s1, voteCount i b s = .ok s1 := by
  by_cases hb : b = 0
  · subst hb; exact ⟨s, voteCount_zero i s⟩
  by_cases hv : s.VOTE_NODE_ARR i = 0
  · obtain ⟨k, hk, _, _, e⟩ := voteCount_fresh hs i b hi hb hv
    rw [e]
    apply evalMajority_total
    show (if k < s.CANDIDATE_COUNT then s.CANDIDATE_COUNT else s.CANDIDATE_COUNT + 1) + 1 ≤ CAP
    split_ifs <;> omega
  · have hiC : i < CAP := by have := hs.nc_le; omega
    exact ⟨s, voteCount_recorded s i b hiC hv⟩

/-- Where the calculation input is not 0, a returning `voteCount` either leaves the recorded
votes alone or records the ballot for a node that had none. -/
theorem voteCount_votes {s s1 : State} (hs : Tally s) (i b : Nat) (hi : i < s.NODE_COUNT)
    (hc : s.HOST_CALC ≠ 0) (h : voteCount i b s = .ok s1) :
    s1.VOTE_NODE_ARR = s.VOTE_NODE_ARR ∨
      (s.VOTE_NODE_ARR i = 0 ∧ s1.VOTE_NODE_ARR = setAt s.VOTE_NODE_ARR i b) := by
  by_cases hb : b = 0
  · subst hb
    rw [voteCount_zero] at h
    rw [← Except.ok.inj h]; exact Or.inl rfl
  by_cases hv : s.VOTE_NODE_ARR i = 0
  · obtain ⟨k, _, _, _, e⟩ := voteCount_fresh hs i b hi hb hv
    rw [e] at h
    right
    refine ⟨hv, ?_⟩
    rcases evalMajority_cases _ s1 h with ⟨_, h1⟩ | ⟨_, h0, _⟩ | ⟨_, _, j, st, _, h1⟩
    · rw [h1]; rfl
    · exact absurd h0 hc
    · rcases h1 with ⟨_, h1⟩ | ⟨_, _, h1, _⟩
      · rw [h1]; rfl
      · rw [h1]; rfl
  · have hiC : i < CAP := by have := hs.nc_le; omega
    rw [voteCount_recorded s i b hiC hv] at h
    rw [← Except.ok.inj h]; exact Or.inl rfl

/-- The first vote of a round: the ballot is recorded in candidate slot 0 and the LED goes
off, or nothing happens when the ballot is 0. -/
theorem voteCount_first (s : State) (hn : s.NODE_COUNT ≤ CAP) (i b : Nat)
    (hi : i < s.NODE_COUNT) :
    voteCount i b (flushed s) =
      .ok (if b = 0 then flushed s else { tallied (flushed s) i b 0 with STATUS := OFF }) := by
  have ht := Tally.tally_of_flushed s hn
  by_cases hb : b = 0
  · subst hb
    rw [voteCount_zero]; rfl
  rw [if_neg hb]
  have hv : (flushed s).VOTE_NODE_ARR i = 0 := by
    have : i < 32 := by unfold CAP at hn; omega
    simp [flushed, fillTo, this]
  obtain ⟨k, hk, _, _, e⟩ := voteCount_fresh ht i b hi hb hv
  have hk0 : k = 0 := by
    have : k ≤ 0 := hk
    omega
  subst hk0
  rw [e]
  unfold evalMajority
  have hq : ¬ ((tallied (flushed s) i b 0).VOTE_COUNT ≥ VOTE_COUNT_MIN) := by
    show ¬ (0 + 1 ≥ VOTE_COUNT_MIN)
    unfold VOTE_COUNT_MIN; omega
  rw [if_neg hq, setStatus_OFF]

theorem log_bounds {ID TIME now : Nat} {s s0 : State} {idx : Nat}
    (h : log ID TIME now s = .ok (idx, s0)) (hn : s.NODE_COUNT ≤ CAP) :
    s0.NODE_COUNT ≤ CAP ∧ (idx = INVALID ∨ idx < s0.NODE_COUNT) := by
  rcases log_cases ID TIME now s idx s0 h with
      ⟨m, hf, _, _, h1, h2⟩ | ⟨m, _, _, _, h1, h2⟩ | ⟨_, hc, h1, h2⟩
  · subst h2 h1; exact ⟨hn, Or.inr hf.2.1⟩
  · subst h2 h1; exact ⟨hn, Or.inl rfl⟩
  · subst h2 h1; exact ⟨hc, Or.inr (Nat.lt_succ_self _)⟩

/-- A call of `voteCount` that starts with no vote counted and at least one known node
does not re-enter itself, so its result does not depend on the fuel. -/
theorem voteCountAux_inner (m i b : Nat) (s : State) (hvc : s.VOTE_COUNT = 0)
    (hnc : 1 ≤ s.NODE_COUNT) : voteCountAux (m + 1) i b s = voteCountAux 1 i b s := by
  rw [voteCountAux]
  conv_rhs => rw [voteCountAux]
  by_cases hb : 0 = b
  · rw [if_pos hb, if_pos hb]
  rw [if_neg hb, if_neg hb]
  by_cases hi : i < CAP
  swap
  · rw [if_neg hi, if_neg hi]
  rw [if_pos hi, if_pos hi]
  by_cases hbv : b = s.VOTE_NODE_ARR i
  · rw [if_pos hbv, if_pos hbv]
  rw [if_neg hbv, if_neg hbv]
  by_cases hv : 0 ≠ s.VOTE_NODE_ARR i
  · rw [if_pos hv, if_pos hv]
  rw [if_neg hv, if_neg hv]
  have hv0 : 0 = s.VOTE_NODE_ARR i := not_not.mp hv
  rw [if_pos hv0]
  dsimp only
  have hno : ¬ ((s.VOTE_COUNT + 1) % U32 > s.NODE_COUNT) := by
    rw [hvc]
    have : (0 + 1) % U32 = 1 := by decide
    rw [this]
    omega
  rw [if_neg hno, if_neg hno]

/-- Adequacy of the recursion bound in `voteCount`: with at least one known node, more fuel
than 2 gives the same result. -/
theorem voteCount_fuel (n i b : Nat) (s : State) (hnc : 1 ≤ s.NODE_COUNT) :
    voteCountAux (n + 2) i b s = voteCount i b s := by
  unfold voteCount
  rw [voteCountAux]
  conv_rhs => rw [voteCountAux]
  by_cases hb : 0 = b
  · rw [if_pos hb, if_pos hb]
  rw [if_neg hb, if_neg hb]
  by_cases hi : i < CAP
  swap
  · rw [if_neg hi, if_neg hi]
  rw [if_pos hi, if_pos hi]
  by_cases hbv : b = s.VOTE_NODE_ARR i
  · rw [if_pos hbv, if_pos hbv]
  rw [if_neg hbv, if_neg hbv]
  by_cases hv : 0 ≠ s.VOTE_NODE_ARR i
  · rw [if_pos hv, if_pos hv]
  rw [if_neg hv, if_neg hv]
  have hv0 : 0 = s.VOTE_NODE_ARR i := not_not.mp hv
  rw [if_pos hv0]
  dsimp only
  by_cases hgt : (s.VOTE_COUNT + 1) % U32 > s.NODE_COUNT
  swap
  · rw [if_neg hgt, if_neg hgt]
  rw [if_pos hgt, if_pos hgt, flush_eq]
  dsimp only
  obtain ⟨v, s3, hc, hcase⟩ := calculate_spec
    (flushed { s with VOTE_COUNT := (s.VOTE_COUNT + 1) % U32 }).HOST_CALC
    (flushed { s with VOTE_COUNT := (s.VOTE_COUNT + 1) % U32 })
  rw [hc]
  dsimp only
  have h3 : s3.VOTE_COUNT = 0 ∧ s3.NODE_COUNT = s.NODE_COUNT := by
    rcases hcase with ⟨_, _, e⟩ | ⟨_, sv, e⟩
    · rw [e]; exact ⟨rfl, rfl⟩
    · rw [e]; exact ⟨rfl, rfl⟩
  exact voteCountAux_inner n 0 v s3 h3.1 (by rw [h3.2]; exact hnc)

/-- The votes left by the first vote of a round. -/
theorem first_vote_facts (s : State) (i b : Nat) :
    let s6 : State := if b = 0 then flushed s else { tallied (flushed s) i b 0 with STATUS := OFF }
    s6.NODE_COUNT = s.NODE_COUNT ∧ s6.CANDIDATE_COUNT ≤ 1 ∧
      (∀ j, j < CAP → j ≠ i → s6.VOTE_NODE_ARR j = 0) ∧ (b ≠ 0 → s6.VOTE_NODE_ARR i = b) ∧
      s6.HOST_CALC_VER = s.HOST_CALC_VER := by
  intro s6
  by_cases hb : b = 0
  · have e : s6 = flushed s := if_pos hb
    rw [e]
    refine ⟨rfl, Nat.zero_le _, ?_, fun h => absurd hb h, rfl⟩
    intro j hj _
    have : j < 32 := hj
    simp [flushed, fillTo, this]
  · have e : s6 = { tallied (flushed s) i b 0 with STATUS := OFF } := if_neg hb
    rw [e]
    refine ⟨rfl, ?_, ?_, fun _ => by simp [tallied, setAt], rfl⟩
    · show (if 0 < 0 then 0 else 0 + 1) ≤ 1
      simp
    · intro j hj hji
      have : j < 32 := hj
      simp [tallied, setAt, hji, flushed, fillTo, this]

/-- C8.  Version ordering, new round: in a state with at most 32 known nodes, a result packet that
passes the dedup and spam guards and carries a `calc_ver` above `HOST_CALC_VER` makes
`r_handler` return with `HOST_CALC` and `HOST_CALC_VER` taken from the packet, with no vote
recorded for any registry index other than the sender and the host, and, when the packet's
calculation is at least 1 and its result is not 0, with the sender's vote recorded; and no
returning run of `r_handler` lowers `HOST_CALC_VER`. -/
theorem new_round_adopted (P : Platform) (now face : Nat) (p : R_PKT) (s s0 : State)
    (idx : Nat) (hn : s.NODE_COUNT ≤ CAP) (hface : p.neighbor ≠ 0 → face < P.FACE_COUNT)
    (hl : log p.key.ID p.key.TIME now s = .ok (idx, s0)) (hfresh : idx ≠ INVALID)
    (hspam : ¬ (s0.PC_NODE_ARR idx > p.key.TIME / 1000))
    (hver : p.calc_ver > s.HOST_CALC_VER) :
    (∃ s1, r_handler P now face (some p) s = .ok s1 ∧
      s1.HOST_CALC = p.CALC ∧ s1.HOST_CALC_VER = p.calc_ver ∧
      (∀ i, i < CAP → i ≠ idx → i ≠ 0 → s1.VOTE_NODE_ARR i = 0) ∧
      (1 ≤ p.CALC → p.rslt ≠ 0 → s1.VOTE_NODE_ARR idx = p.rslt)) ∧
    (∀ (now2 face2 : Nat) (scan : Option R_PKT) (t t1 : State),
      r_handler P now2 face2 scan t = .ok t1 → t.HOST_CALC_VER ≤ t1.HOST_CALC_VER) := by
  refine ⟨?_, fun now2 face2 scan t t1 h => (r_handler_frame h).2.2⟩
  obtain ⟨hn0, hidx⟩ := log_bounds hl hn
  have hlt : idx < s0.NODE_COUNT := by
    rcases hidx with e | e
    · exact absurd e hfresh
    · exact e
  have hiC : idx < CAP := by omega
  have hv0 : s0.HOST_CALC_VER = s.HOST_CALC_VER := (log_frame hl).2.2
  have hnst : ¬ (p.calc_ver < s0.HOST_CALC_VER) := by omega
  have hneq : ¬ (p.calc_ver = s0.HOST_CALC_VER) := by omega
  have hgt : p.calc_ver > s0.HOST_CALC_VER := by omega
  have hfc : ¬ (p.neighbor ≠ 0 ∧ ¬ face < P.FACE_COUNT) := fun ⟨h1, h2⟩ => h2 (hface h1)
  obtain ⟨hk3, _⟩ := accepted_keeps face p s0
  obtain ⟨s4, hs4, hf4⟩ := strikeCheck_total P now (accepted face p s0) (by rw [hk3.1]; exact hn0)
  have hn4 : s4.NODE_COUNT = s0.NODE_COUNT := by
    rw [(KeepsKeys.keys_of_strikeOnly hf4).1, hk3.1]
  have hv6 := voteCount_first s4 (by omega) idx p.rslt (by omega)
  obtain ⟨f1, f2, f3, f4, _⟩ := first_vote_facts s4 idx p.rslt
  generalize (if p.rslt = 0 then flushed s4
    else { tallied (flushed s4) idx p.rslt 0 with STATUS := OFF }) = s6 at hv6 f1 f2 f3 f4
  have ht6 : Tally s6 :=
    Tally.tally_of_voteCount (Tally.tally_of_flushed s4 (by omega)) idx p.rslt (by
      show idx < s4.NODE_COUNT
      omega) hv6
  rw [r_handler_eq, hl]
  dsimp only
  rw [if_neg (fun e => hfresh e.symm), if_pos hiC, if_neg hspam, if_neg hnst]
  unfold r_accept
  rw [if_neg hfc]
  dsimp only
  rw [if_neg hneq, if_pos hgt, hs4]
  dsimp only
  rw [hv6]
  dsimp only
  obtain ⟨v, s8, hc8, hcase⟩ := calculate_spec p.CALC (adopted p s6)
  rw [hc8]
  dsimp only
  rcases hcase with ⟨ha, hv, h8⟩ | ⟨ha, sv, h8⟩
  · subst hv h8
    rw [voteCount_zero]
    refine ⟨_, rfl, rfl, rfl, ?_, fun h1 => by omega⟩
    intro i hi _ _
    have : i < 32 := hi
    simp [flushed, fillTo, this]
  · have ht8 : Tally s8 := by
      rw [h8]
      exact Tally.tally_of_same (s := s6) ⟨rfl, rfl, rfl, rfl, rfl, rfl, rfl⟩ ht6
    have hn8 : s8.NODE_COUNT = s6.NODE_COUNT := by rw [h8]; rfl
    have hcc8 : s8.CANDIDATE_COUNT = s6.CANDIDATE_COUNT := by rw [h8]; rfl
    have hvote8 : s8.VOTE_NODE_ARR = s6.VOTE_NODE_ARR := by rw [h8]; rfl
    have hcalc8 : s8.HOST_CALC = p.CALC := by rw [h8]; rfl
    have hver8 : s8.HOST_CALC_VER = p.calc_ver := by rw [h8]; rfl
    obtain ⟨s1, h1⟩ := voteCount_total ht8 0 v (by rw [hn8, f1, hn4]; omega)
      (by rw [hcc8]; unfold CAP; omega)
    have hr := RoundOnly.round_of_voteCount h1
    rw [h1]
    refine ⟨s1, rfl, by rw [hr.host_calc, hcalc8], by rw [hr.host_calc_ver, hver8], ?_, ?_⟩
    · intro i hi hne h0
      rcases voteCount_votes ht8 0 v (by rw [hn8, f1, hn4]; omega)
          (by rw [hcalc8]; omega) h1 with e | ⟨_, e⟩
      · rw [e, hvote8]; exact f3 i hi hne
      · rw [e]
        simp only [setAt, h0, if_false]
        rw [hvote8]; exact f3 i hi hne
    · intro _ hr0
      have hsend : s8.VOTE_NODE_ARR idx = p.rslt := by rw [hvote8]; exact f4 hr0
      rcases voteCount_votes ht8 0 v (by rw [hn8, f1, hn4]; omega)
          (by rw [hcalc8]; omega) h1 with e | ⟨hz, e⟩
      · rw [e]; exact hsend
      · have hne : idx ≠ 0 := by
          intro e0
          rw [e0] at hsend
          rw [hsend] at hz
          exact hr0 hz
        rw [e]
        simp only [setAt, hne, if_false]
        exact hsend

theorem demoLogged_log :
    log demoNewRound.key.ID demoNewRound.key.TIME 50 demoBoot = .ok (1, demoLogged) := rfl

/-- Witness for C8: `demoNewRound` reaches the freshly started `demoBoard`. -/
theorem new_round_adopted_witness :
    log demoNewRound.key.ID demoNewRound.key.TIME 50 demoBoot = .ok (1, demoLogged) ∧
    demoNewRound.calc_ver > demoBoot.HOST_CALC_VER ∧
    ∃ s1, r_handler demoBoard 50 1 (some demoNewRound) demoBoot = .ok s1 ∧
      s1.HOST_CALC = 3 ∧ s1.HOST_CALC_VER = 2 ∧ s1.VOTE_NODE_ARR 1 = 5 ∧
      s1.VOTE_NODE_ARR 2 = 0 := by
  obtain ⟨s1, h1, h2, h3, h4, h5⟩ :=
    (new_round_adopted demoBoard 50 1 demoNewRound demoBoot demoLogged 1 (by decide)
      (fun _ => by decide) demoLogged_log (by decide) (by decide) (by decide)).1
  exact ⟨demoLogged_log, by decide, s1, h1, h2, h3, h5 (by decide) (by decide),
    h4 2 (by decide) (by decide) (by decide)⟩

/-- Counterexample for C9 as stated: a packet carrying round version `0xffffffff` is
accepted, and the next command wraps `HOST_CALC_VER` to 0, which is not greater. -/
theorem version_wraps :
    r_handler demoBoard 50 1 (some demoLastRound) demoBoot = .ok demoMaxVer ∧
    c_handler demoBoard 60 0 0 (some 0) demoMaxVer = .ok demoWrapped ∧
    (0 : Nat) ≤ PRIME_THRESHOLD ∧
    demoMaxVer.HOST_CALC_VER = 4294967295 ∧ demoWrapped.HOST_CALC_VER = 0 ∧
    ¬ (demoWrapped.HOST_CALC_VER > demoMaxVer.HOST_CALC_VER) :=
  ⟨rfl, rfl, by decide, by decide, by decide, by decide⟩

/-- C9, amended.  Local version counter: in a state with between 1 and 32 known nodes, an accepted
command `c<N>` (`N <= PRIME_THRESHOLD`) makes `c_handler` return with `HOST_CALC = N` and
with `HOST_CALC_VER` one above its old value modulo `2^32`: strictly greater whenever the
old value is below `0xffffffff`. -/
theorem command_bumps_version (P : Platform) (now face junk N : Nat) (s : State)
    (hN : N ≤ PRIME_THRESHOLD) (h1 : 1 ≤ s.NODE_COUNT) (hn : s.NODE_COUNT ≤ CAP) :
    ∃ s1, c_handler P now face junk (some N) s = .ok s1 ∧ s1.HOST_CALC = N ∧
      s1.HOST_CALC_VER = (s.HOST_CALC_VER + 1) % U32 ∧
      (s.HOST_CALC_VER + 1 < U32 → s.HOST_CALC_VER < s1.HOST_CALC_VER) := by
  rw [c_handler_eq, if_neg (by omega)]
  obtain ⟨s2, hs2, hf2⟩ := strikeCheck_total P now s hn
  rw [hs2]
  dsimp only
  obtain ⟨st, rb, tr, e2⟩ := hf2
  have hn2 : s2.NODE_COUNT = s.NODE_COUNT := by rw [e2]
  have hv2 : s2.HOST_CALC_VER = s.HOST_CALC_VER := by rw [e2]
  have ht4 : Tally (announced P now face junk N s2) :=
    Tally.tally_of_same (s := flushed s2) ⟨rfl, rfl, rfl, rfl, rfl, rfl, rfl⟩
      (Tally.tally_of_flushed s2 (by omega))
  obtain ⟨v, s5, hc5, _⟩ := calculate_spec N (announced P now face junk N s2)
  have hr5 := RoundOnly.round_of_calculate hc5
  have ht5 : Tally s5 := Tally.tally_of_calculate ht4 hc5
  have hcc5 : s5.CANDIDATE_COUNT = 0 := by
    have hle := ht5.cc_le
    have hvc : s5.VOTE_COUNT = 0 := by
      obtain ⟨v1, s6, h6, hcase⟩ := calculate_spec N (announced P now face junk N s2)
      rw [h6] at hc5
      have e : s6 = s5 := congrArg Prod.snd (Except.ok.inj hc5)
      subst e
      rcases hcase with ⟨_, _, h7⟩ | ⟨_, sv, h7⟩
      · rw [h7]; rfl
      · rw [h7]; rfl
    omega
  rw [hc5]
  dsimp only
  obtain ⟨s1, hs1⟩ := voteCount_total ht5 0 v (by rw [hr5.node_count]; show 0 < s2.NODE_COUNT; omega)
    (by rw [hcc5]; unfold CAP; omega)
  have hr1 := RoundOnly.round_of_voteCount hs1
  rw [hs1]
  have hver : s1.HOST_CALC_VER = (s.HOST_CALC_VER + 1) % U32 := by
    rw [hr1.host_calc_ver, hr5.host_calc_ver, ← hv2]; rfl
  refine ⟨s1, rfl, by rw [hr1.host_calc, hr5.host_calc]; rfl, hver, ?_⟩
  intro hlt
  rw [hver, Nat.mod_eq_of_lt hlt]
  omega

/-- Witness for C9 as amended: the command `c0` on the freshly started board. -/
theorem command_bumps_version_witness :
    (0 : Nat) ≤ PRIME_THRESHOLD ∧ 1 ≤ demoBoot.NODE_COUNT ∧ demoBoot.NODE_COUNT ≤ CAP ∧
    ∃ s1, c_handler demoBoard 10 0 0 (some 0) demoBoot = .ok s1 ∧ s1.HOST_CALC = 0 ∧
      s1.HOST_CALC_VER = (demoBoot.HOST_CALC_VER + 1) % U32 ∧
      (demoBoot.HOST_CALC_VER + 1 < U32 → demoBoot.HOST_CALC_VER < s1.HOST_CALC_VER) :=
  ⟨by decide, by decide, by decide,
    command_bumps_version demoBoard 10 0 0 0 demoBoot (by decide) (by decide) (by decide)⟩

theorem count_send_map (p : R_PKT) (l : List Nat) (i : Nat) :
    (l.map (fun k => Event.send k p)).count (Event.send i p) = l.count i := by
  induction l with
  | nil => rfl
  | cons a t ih =>
    by_cases h : a = i
    · subst h; simp [ih]
    · have h2 : Event.send a p ≠ Event.send i p := by
        intro hc; injection hc with h3 _; exact h h3
      simp [List.count_cons, ih, h, h2]

theorem count_filter_range4 (q : Nat → Bool) (i : Nat) :
    ((List.range 4).filter q).count i = if i < 4 ∧ q i = true then 1 else 0 := by
  have hr : List.range 4 = [0, 1, 2, 3] := rfl
  rw [hr]
  by_cases h4 : i < 4
  · have : i = 0 ∨ i = 1 ∨ i = 2 ∨ i = 3 := by omega
    rcases this with h | h | h | h <;> subst h <;>
      cases h0 : q 0 <;> cases h1 : q 1 <;> cases h2 : q 2 <;> cases h3 : q 3 <;>
      simp [List.filter, h0, h1, h2, h3]
  · have hi0 : i ≠ 0 := by omega
    have hi1 : i ≠ 1 := by omega
    have hi2 : i ≠ 2 := by omega
    have hi3 : i ≠ 3 := by omega
    rw [if_neg (fun h => h4 h.1)]
    apply List.count_eq_zero_of_not_mem
    intro hm
    have := List.mem_of_mem_filter hm
    simp at this
    omega

/-- C15.  Flood targets: `FWD_R_PKT(p, f)` and `BRD_R_PKT(p)` change nothing but the output,
to which they append copies of `p` only; forward emits exactly one copy on each face `0 .. 3`
that is neither the terminal face nor the arrival face `f` and none on any other face,
broadcast exactly one copy on each face `0 .. 3` other than the terminal face, so the output
of forward is that of broadcast without the copy for face `f`; with no terminal designated
broadcast emits one copy on each of the faces 0, 1, 2, 3. -/
theorem flood_targets (p : R_PKT) (f : Nat) (s : State) :
    (∃ fwd brd : List Event,
      FWD_R_PKT p f s = { s with TRACE := s.TRACE ++ fwd } ∧
      BRD_R_PKT p s = { s with TRACE := s.TRACE ++ brd } ∧
      (∀ e, e ∈ fwd ∨ e ∈ brd → ∃ i, e = Event.send i p) ∧
      (∀ i, fwd.count (Event.send i p) =
        if i < 4 ∧ i ≠ s.TERMINAL_FACE ∧ i ≠ f then 1 else 0) ∧
      (∀ i, brd.count (Event.send i p) = if i < 4 ∧ i ≠ s.TERMINAL_FACE then 1 else 0) ∧
      fwd = brd.filter (fun e => decide (e ≠ Event.send f p))) ∧
    (s.TERMINAL_FACE = INVALID →
      BRD_R_PKT p s =
        { s with
          TRACE := s.TRACE ++
            [Event.send 0 p, Event.send 1 p, Event.send 2 p, Event.send 3 p] }) := by
  refine ⟨⟨_, _, rfl, rfl, ?_, ?_, ?_, ?_⟩, ?_⟩
  · intro e he
    rcases he with he | he <;>
    · obtain ⟨i, _, hi⟩ := List.mem_map.mp he
      exact ⟨i, hi.symm⟩
  · intro i
    rw [count_send_map, count_filter_range4]
    apply if_congr _ rfl rfl
    simp only [decide_eq_true_eq]
    constructor <;> rintro ⟨a, b, c⟩ <;> exact ⟨a, Ne.symm b, Ne.symm c⟩
  · intro i
    rw [count_send_map, count_filter_range4]
    apply if_congr _ rfl rfl
    simp only [decide_eq_true_eq]
    constructor <;> rintro ⟨a, b⟩ <;> exact ⟨a, Ne.symm b⟩
  · rw [List.filter_map, List.filter_filter]
    congr 1
    apply List.filter_congr
    intro i _
    have hinj : (Event.send i p ≠ Event.send f p) ↔ f ≠ i := by
      constructor
      · intro h hc; exact h (by rw [hc])
      · intro h hc; injection hc with h3 _; exact h h3.symm
    simp only [Function.comp, hinj, Bool.decide_and, Bool.and_comm]
  · intro ht
    simp only [BRD_R_PKT, ht]
    rfl

/-- Witness for C15: the broadcast of `demoVote` by the freshly started board, which has no
terminal face. -/
theorem flood_targets_witness :
    demoBoot.TERMINAL_FACE = INVALID ∧
    BRD_R_PKT demoVote demoBoot =
      { demoBoot with
        TRACE := demoBoot.TRACE ++
          [Event.send 0 demoVote, Event.send 1 demoVote, Event.send 2 demoVote,
            Event.send 3 demoVote] } :=
  ⟨rfl, (flood_targets demoVote 1 demoBoot).2 rfl⟩

theorem calculate_zero (s : State) : calculate 0 s = .ok (0, flushed s) := by
  obtain ⟨v, s1, h, hc⟩ := calculate_spec 0 s
  rcases hc with ⟨_, hv, hs⟩ | ⟨h1, _⟩
  · rw [h, hv, hs]
  · omega

/-- C16.  Invalid calculation clears the round: in every state with at most 32 known nodes,
`c_handler` on a calculation request for input 0 returns, and afterwards no vote, candidate
or tally is left (`VOTE_COUNT`, `CANDIDATE_COUNT` and `MAJORITY_RSLT` are 0 and so is every
cell of `VOTE_NODE_ARR`, `CANDIDATE_ARR` and `CANDIDATE_VOTES_ARR`), `HOST_CALC` is 0 and the
LED is off. -/
theorem zero_request_clears (P : Platform) (now face junk : Nat) (s : State)
    (hn : s.NODE_COUNT ≤ CAP) :
    ∃ s1, c_handler P now face junk (some 0) s = .ok s1 ∧
      s1.VOTE_COUNT = 0 ∧ s1.CANDIDATE_COUNT = 0 ∧ s1.MAJORITY_RSLT = 0 ∧
      (∀ i, i < CAP → s1.VOTE_NODE_ARR i = 0 ∧ s1.CANDIDATE_ARR i = 0 ∧
        s1.CANDIDATE_VOTES_ARR i = 0) ∧
      s1.HOST_CALC = 0 ∧ s1.STATUS = OFF := by
  rw [c_handler_eq, if_neg (by unfold PRIME_THRESHOLD; omega)]
  obtain ⟨s2, hs2, _⟩ := strikeCheck_total P now s hn
  rw [hs2]
  dsimp only
  rw [calculate_zero]
  dsimp only
  rw [voteCount_zero]
  refine ⟨_, rfl, rfl, rfl, rfl, ?_, rfl, rfl⟩
  intro i hi
  have h32 : i < 32 := hi
  refine ⟨?_, ?_, ?_⟩ <;> simp [flushed, announced, FWD_R_PKT, fillTo, h32]

/-- Witness for C16: the command `c0` in the round that holds the votes 7, 7 and 9. -/
theorem zero_request_clears_witness :
    demo779.NODE_COUNT ≤ CAP ∧ demo779.VOTE_COUNT = 3 ∧
    ∃ s1, c_handler demoBoard 10 0 0 (some 0) demo779 = .ok s1 ∧
      s1.VOTE_COUNT = 0 ∧ s1.CANDIDATE_COUNT = 0 ∧ s1.MAJORITY_RSLT = 0 ∧
      (∀ i, i < CAP → s1.VOTE_NODE_ARR i = 0 ∧ s1.CANDIDATE_ARR i = 0 ∧
        s1.CANDIDATE_VOTES_ARR i = 0) ∧
      s1.HOST_CALC = 0 ∧ s1.STATUS = OFF :=
  ⟨by decide, by decide, zero_request_clears demoBoard 10 0 0 demo779 (by decide)⟩

theorem exists_first_max (a : Nat → Nat) :
    ∀ size, 0 < size →
      ∃ m, m < size ∧ (∀ k, k < size → a k ≤ a m) ∧ (∀ k, k < m → a k < a m) := by
  intro size
  induction size with
  | zero => intro h; omega
  | succ n ih =>
    intro _
    by_cases hn : 0 < n
    · obtain ⟨m, hm, hmax, hfirst⟩ := ih hn
      by_cases hlt : a m < a n
      · refine ⟨n, by omega, ?_, ?_⟩
        · intro k hk
          by_cases hkn : k = n
          · rw [hkn]
          · have := hmax k (by omega); omega
        · intro k hk
          have := hmax k hk; omega
      · refine ⟨m, by omega, ?_, hfirst⟩
        intro k hk
        by_cases hkn : k = n
        · rw [hkn]; omega
        · exact hmax k (by omega)
    · have : n = 0 := by omega
      subst this
      refine ⟨0, by omega, ?_, ?_⟩
      · intro k hk
        have : k = 0 := by omega
        rw [this]
      · intro k hk; omega

theorem getMaxIndex_zeros (a : Nat → Nat) (size : Nat) (h0 : 0 < size) (hs : size ≤ CAP)
    (hz : ∀ k, k < size → a k = 0) : getMaxIndex a size = .ok TIE := by
  unfold getMaxIndex
  rw [if_neg (by omega)]
  rw [getMaxLoop_hit a 0 size 0 false 0 INVALID (by omega) (by omega) (by omega) (hz 0 h0)
    (fun k _ hk => by rw [hz k (by omega)])]
  rfl

/-- Counterexample for C19 as stated: on the tallies 1, 1, 2 the scan of `getMaxIndex` has
flagged a tie after two cells, and the result is the index 2 of the third cell, not `TIE`. -/
theorem tie_flag_is_disarmed :
    getMaxLoop demoTallies 2 0 false 0 INVALID = .ok (true, 1, 0) ∧
    getMaxIndex demoTallies 3 = .ok 2 ∧ getMaxIndex demoTallies 3 ≠ .ok TIE :=
  ⟨rfl, rfl, fun h => absurd (Except.ok.inj h) (by decide)⟩

/-- C19, amended.  Tie policy of `getMaxIndex` on `size` cells (`1 <= size <= 32`): the result
is `TIE` exactly when no cell holds a positive tally that is strictly greater than every other
cell, that is when the greatest tally is shared or every tally is 0; a cell that is strictly
greater than every other one wins with its index, also when smaller cells before it were
equal and had raised the tie flag. -/
theorem strict_maximum_wins (a : Nat → Nat) (size : Nat) (h0 : 0 < size) (hs : size ≤ CAP) :
    (getMaxIndex a size = .ok TIE ↔
      ∀ m, m < size → 0 < a m → ∃ k, k < size ∧ k ≠ m ∧ a m ≤ a k) ∧
    (∀ m, m < size → 0 < a m → (∀ k, k < size → k ≠ m → a k < a m) →
      getMaxIndex a size = .ok m) := by
  have huniq : ∀ m, m < size → 0 < a m → (∀ k, k < size → k ≠ m → a k < a m) →
      getMaxIndex a size = .ok m :=
    fun m hm hpos hlt => getMaxIndex_unique a size m hs hm hpos hlt
  refine ⟨⟨?_, ?_⟩, huniq⟩
  · intro htie m hm hpos
    by_contra hno
    have hlt : ∀ k, k < size → k ≠ m → a k < a m := by
      intro k hk hkm
      by_contra hge
      exact hno ⟨k, hk, hkm, by omega⟩
    rw [huniq m hm hpos hlt] at htie
    have hmt : m = TIE := Except.ok.inj htie
    unfold TIE at hmt
    unfold CAP at hs
    omega
  · intro hshared
    obtain ⟨m, hm, hmax, hfirst⟩ := exists_first_max a size h0
    by_cases hpos : 0 < a m
    · obtain ⟨k, hk, hkm, hle⟩ := hshared m hm hpos
      have hkle := hmax k hk
      have hmk : m < k := by
        by_contra hnot
        have := hfirst k (by omega)
        omega
      exact getMaxIndex_tie a size m k hs hmk hk (by omega) hpos hmax
    · apply getMaxIndex_zeros a size h0 hs
      intro k hk
      have := hmax k hk
      omega

/-- Witness for C19 as amended: the tallies 1, 1, 2 give the index of the 2. -/
theorem strict_maximum_wins_witness :
    0 < 3 ∧ 3 ≤ CAP ∧ getMaxIndex demoTallies 3 = .ok 2 :=
  ⟨by decide, by decide,
    (strict_maximum_wins demoTallies 3 (by decide) (by decide)).2 2 (by decide) (by decide)
      (by
        intro k hk hk2
        have : k = 0 ∨ k = 1 := by omega
        rcases this with h | h <;> subst h <;> decide)⟩

/-- Status indicator below capacity.  In every state with at least `VOTE_COUNT_MIN` recorded
votes, a non-zero `HOST_CALC` and fewer than 32 candidates: when one scanned tally `m` is
positive and strictly greater than every other, `evalMajority` declares `CANDIDATE_ARR[m]` and shows
`MAJORITY` if `VOTE_NODE_ARR[0]` equals it and `MINORITY` if not (so also when the host holds
no vote and the winner is not 0); when the greatest tally is shared it declares `TIE` and
switches the LED off.  With fewer than `VOTE_COUNT_MIN` votes it only switches the LED off.
The votes 7, 7, 9 show `MAJORITY` on a board whose own vote is 7 and `MINORITY` on a board
whose own vote is 9. -/
theorem status_indicator (s : State) :
    (∀ m, VOTE_COUNT_MIN ≤ s.VOTE_COUNT → s.HOST_CALC ≠ 0 → s.CANDIDATE_COUNT < CAP →
      m ≤ s.CANDIDATE_COUNT → 0 < s.CANDIDATE_VOTES_ARR m →
      (∀ k, k ≤ s.CANDIDATE_COUNT → k ≠ m →
        s.CANDIDATE_VOTES_ARR k < s.CANDIDATE_VOTES_ARR m) →
      (s.VOTE_NODE_ARR 0 = s.CANDIDATE_ARR m →
        evalMajority s = .ok { s with MAJORITY_RSLT := s.CANDIDATE_ARR m, STATUS := MAJORITY }) ∧
      (s.VOTE_NODE_ARR 0 ≠ s.CANDIDATE_ARR m →
        evalMajority s = .ok { s with MAJORITY_RSLT := s.CANDIDATE_ARR m, STATUS := MINORITY })) ∧
    (∀ m1 m2, VOTE_COUNT_MIN ≤ s.VOTE_COUNT → s.HOST_CALC ≠ 0 → s.CANDIDATE_COUNT < CAP →
      m1 < m2 → m2 ≤ s.CANDIDATE_COUNT →
      s.CANDIDATE_VOTES_ARR m1 = s.CANDIDATE_VOTES_ARR m2 → 0 < s.CANDIDATE_VOTES_ARR m1 →
      (∀ k, k ≤ s.CANDIDATE_COUNT → s.CANDIDATE_VOTES_ARR k ≤ s.CANDIDATE_VOTES_ARR m1) →
      evalMajority s = .ok { s with MAJORITY_RSLT := TIE, STATUS := OFF }) ∧
    (s.VOTE_COUNT < VOTE_COUNT_MIN → evalMajority s = .ok { s with STATUS := OFF }) ∧
    (demo779.VOTE_NODE_ARR 0 = 7 ∧ demo779.VOTE_NODE_ARR 1 = 7 ∧ demo779.VOTE_NODE_ARR 2 = 9 ∧
      demo779.MAJORITY_RSLT = 7 ∧ demo779.STATUS = MAJORITY ∧
      evalMajority demo779 = .ok demo779) ∧
    (demo977.VOTE_NODE_ARR 0 = 9 ∧ demo977.VOTE_NODE_ARR 1 = 7 ∧ demo977.VOTE_NODE_ARR 2 = 7 ∧
      demo977.MAJORITY_RSLT = 7 ∧ demo977.STATUS = MINORITY ∧
      evalMajority demo977 = .ok demo977) := by
  have hsize : ∀ {c : Nat}, c < CAP → (c + 1) % U32 = c + 1 := by
    intro c hc
    apply Nat.mod_eq_of_lt
    unfold CAP at hc; unfold U32; omega
  refine ⟨?_, ?_, ?_, ⟨rfl, rfl, rfl, rfl, rfl, rfl⟩, ⟨rfl, rfl, rfl, rfl, rfl, rfl⟩⟩
  · intro m hq hc hcc hm hpos hlt
    have hg := getMaxIndex_unique s.CANDIDATE_VOTES_ARR (s.CANDIDATE_COUNT + 1) m (by omega)
      (by omega) hpos (fun k hk hne => hlt k (by omega) hne)
    have hmt : ¬ TIE = m := by unfold TIE; unfold CAP at hcc; omega
    have hmc : m < CAP := by omega
    have hcalc : ¬ 0 = s.HOST_CALC := fun h => hc h.symm
    have hq2 : s.VOTE_COUNT ≥ VOTE_COUNT_MIN := hq
    constructor
    · intro hv
      unfold evalMajority
      rw [if_pos hq2, if_neg hcalc, hsize hcc, hg]
      dsimp only
      rw [if_neg hmt, if_pos hmc, if_pos hv, setStatus_MAJORITY]
    · intro hv
      unfold evalMajority
      rw [if_pos hq2, if_neg hcalc, hsize hcc, hg]
      dsimp only
      rw [if_neg hmt, if_pos hmc, if_neg hv, setStatus_MINORITY]
  · intro m1 m2 hq hc hcc h12 hm2 heq hpos hle
    have hg := getMaxIndex_tie s.CANDIDATE_VOTES_ARR (s.CANDIDATE_COUNT + 1) m1 m2 (by omega)
      h12 (by omega) heq hpos (fun k hk => hle k (by omega))
    have hcalc : ¬ 0 = s.HOST_CALC := fun h => hc h.symm
    have hq2 : s.VOTE_COUNT ≥ VOTE_COUNT_MIN := hq
    unfold evalMajority
    rw [if_pos hq2, if_neg hcalc, hsize hcc, hg]
    dsimp only
    rw [if_pos rfl, setStatus_OFF]
  · intro hq
    have hq2 : ¬ s.VOTE_COUNT ≥ VOTE_COUNT_MIN := by omega
    unfold evalMajority
    rw [if_neg hq2, setStatus_OFF]

/-- The round with the votes 7, 7 and 9 on the board that voted 7 shows `MAJORITY`. -/
theorem status_indicator_witness :
    VOTE_COUNT_MIN ≤ demo779.VOTE_COUNT ∧ demo779.HOST_CALC ≠ 0 ∧
    demo779.CANDIDATE_COUNT = 2 ∧ demo779.CANDIDATE_VOTES_ARR 0 = 2 ∧
    demo779.CANDIDATE_VOTES_ARR 1 = 1 ∧ demo779.CANDIDATE_VOTES_ARR 2 = 0 ∧
    demo779.VOTE_NODE_ARR 0 = demo779.CANDIDATE_ARR 0 ∧
    evalMajority demo779 =
      .ok { demo779 with MAJORITY_RSLT := demo779.CANDIDATE_ARR 0, STATUS := MAJORITY } :=
  ⟨by decide, by decide, by decide, by decide, by decide, by decide, by decide,
    ((status_indicator demo779).1 0 (by decide) (by decide) (by decide) (by decide) (by decide)
      (by
        intro k hk hk0
        have hc : demo779.CANDIDATE_COUNT = 2 := by decide
        have : k = 1 ∨ k = 2 := by omega
        rcases this with h | h <;> subst h <;> decide)).1 (by decide)⟩

theorem strikeNode_struckTo (P : Platform) (s : State) (i : Nat) :
    strikeNode P i (struckTo P s i) = struckTo P s (i + 1) := by
  have hf : (strikeNode P i (struckTo P s i)).STRIKES_NODE_ARR =
      (struckTo P s (i + 1)).STRIKES_NODE_ARR := by
    funext j
    show (if (struckTo P s i).VOTE_NODE_ARR i ≠ (struckTo P s i).MAJORITY_RSLT then
        setAt (struckTo P s i).STRIKES_NODE_ARR i
          (((struckTo P s i).STRIKES_NODE_ARR i + 1) % 2 ^ P.STRIKES_BITS)
      else setAt (struckTo P s i).STRIKES_NODE_ARR i 0) j = _
    have hii : (struckTo P s i).STRIKES_NODE_ARR i = s.STRIKES_NODE_ARR i := by
      show (if i < i then _ else _) = _
      rw [if_neg (by omega)]
    have hv : (struckTo P s i).VOTE_NODE_ARR = s.VOTE_NODE_ARR := rfl
    have hm : (struckTo P s i).MAJORITY_RSLT = s.MAJORITY_RSLT := rfl
    rw [hii, hv, hm]
    show _ = (if j < i + 1 then strikeOf P s j else s.STRIKES_NODE_ARR j)
    by_cases hji : j = i
    · subst hji
      have hlt : j < j + 1 := by omega
      rw [if_pos hlt]
      unfold strikeOf
      by_cases hd : s.VOTE_NODE_ARR j ≠ s.MAJORITY_RSLT
      · rw [if_pos hd, if_pos hd]; simp [setAt]
      · rw [if_neg hd, if_neg hd]; simp [setAt]
    · have hs : ∀ v, setAt (struckTo P s i).STRIKES_NODE_ARR i v j =
          (struckTo P s i).STRIKES_NODE_ARR j := by
        intro v; simp [setAt, hji]
      have hr : (if s.VOTE_NODE_ARR i ≠ s.MAJORITY_RSLT then
            setAt (struckTo P s i).STRIKES_NODE_ARR i
              ((s.STRIKES_NODE_ARR i + 1) % 2 ^ P.STRIKES_BITS)
          else setAt (struckTo P s i).STRIKES_NODE_ARR i 0) j =
          (struckTo P s i).STRIKES_NODE_ARR j := by
        by_cases hd : s.VOTE_NODE_ARR i ≠ s.MAJORITY_RSLT
        · rw [if_pos hd, hs]
        · rw [if_neg hd, hs]
      rw [hr]
      show (if j < i then strikeOf P s j else s.STRIKES_NODE_ARR j) = _
      by_cases hlt : j < i
      · rw [if_pos hlt, if_pos (by omega)]
      · rw [if_neg hlt, if_neg (by omega)]
  show ({ (struckTo P s i) with
    STRIKES_NODE_ARR := (strikeNode P i (struckTo P s i)).STRIKES_NODE_ARR } : State) = _
  rw [hf]
  rfl

theorem struckTo_zero (P : Platform) (s : State) : struckTo P s 0 = s := by
  show ({ s with STRIKES_NODE_ARR := fun j => if j < 0 then strikeOf P s j
    else s.STRIKES_NODE_ARR j } : State) = s
  have : (fun j => if j < 0 then strikeOf P s j else s.STRIKES_NODE_ARR j) =
      s.STRIKES_NODE_ARR := by
    funext j; rw [if_neg (by omega)]
  rw [this]

theorem strikeLoop_quiet (P : Platform) (now : Nat) (s : State) :
    ∀ (rem i : Nat), i + rem ≤ CAP → (∀ j, i ≤ j → j < i + rem → ¬ punished P s j) →
      strikeLoop P now rem i (struckTo P s i) = .ok (struckTo P s (i + rem)) := by
  intro rem
  induction rem with
  | zero => intro i _ _; rfl
  | succ n ih =>
    intro i hb hq
    have hi : i < CAP := by omega
    rw [strikeLoop, if_pos hi]
    dsimp only
    rw [strikeNode_struckTo]
    have hnp := hq i (by omega) (by omega)
    have hc : ¬ ((struckTo P s (i + 1)).STRIKES_NODE_ARR i > 2 ∧
        INVALID ≠ getNeighborFace P ((struckTo P s (i + 1)).ID_NODE_ARR i)
          (struckTo P s (i + 1))) := by
      intro hp
      apply hnp
      have h1 : (struckTo P s (i + 1)).STRIKES_NODE_ARR i = strikeOf P s i := by
        show (if i < i + 1 then _ else _) = _
        rw [if_pos (by omega)]
      rw [h1] at hp
      exact hp
    rw [if_neg hc]
    have := ih (i + 1) (by omega) (fun j h1 h2 => hq j (by omega) (by omega))
    rw [this]
    congr 2
    omega

theorem strikeLoop_punish (P : Platform) (now : Nat) (s : State) (m : Nat) (hp : punished P s m) :
    ∀ (rem i : Nat), i + rem ≤ CAP → i ≤ m → m < i + rem →
      (∀ j, i ≤ j → j < m → ¬ punished P s j) →
      strikeLoop P now rem i (struckTo P s i) = .ok (punishedAt P now s m) := by
  intro rem
  induction rem with
  | zero => intro i _ h1 h2; omega
  | succ n ih =>
    intro i hb h1 h2 hq
    have hi : i < CAP := by omega
    rw [strikeLoop, if_pos hi]
    dsimp only
    rw [strikeNode_struckTo]
    have hst : (struckTo P s (i + 1)).STRIKES_NODE_ARR i = strikeOf P s i := by
      show (if i < i + 1 then _ else _) = _
      rw [if_pos (by omega)]
    by_cases him : i = m
    · subst him
      have hc : (struckTo P s (i + 1)).STRIKES_NODE_ARR i > 2 ∧
          INVALID ≠ getNeighborFace P ((struckTo P s (i + 1)).ID_NODE_ARR i)
            (struckTo P s (i + 1)) := by
        rw [hst]; exact hp
      rw [if_pos hc]
      rfl
    · have hnp := hq i (by omega) (by omega)
      have hc : ¬ ((struckTo P s (i + 1)).STRIKES_NODE_ARR i > 2 ∧
          INVALID ≠ getNeighborFace P ((struckTo P s (i + 1)).ID_NODE_ARR i)
            (struckTo P s (i + 1))) := by
        intro hp2
        apply hnp
        rw [hst] at hp2
        exact hp2
      rw [if_neg hc]
      exact ih (i + 1) (by omega) (by omega) (by omega) (fun j h3 h4 => hq j (by omega) h4)

theorem strikeCheck_quiet (P : Platform) (now : Nat) (s : State) (hn : s.NODE_COUNT ≤ CAP)
    (hq : ∀ j, j < s.NODE_COUNT → ¬ punished P s j) :
    strikeCheck P now s = .ok (struckTo P s s.NODE_COUNT) := by
  have := strikeLoop_quiet P now s s.NODE_COUNT 0 (by omega) (fun j _ h => hq j (by omega))
  rw [struckTo_zero, Nat.zero_add] at this
  exact this

theorem strikeCheck_punish (P : Platform) (now : Nat) (s : State) (hn : s.NODE_COUNT ≤ CAP)
    (m : Nat) (hm : m < s.NODE_COUNT) (hp : punished P s m)
    (hq : ∀ j, j < m → ¬ punished P s j) :
    strikeCheck P now s = .ok (punishedAt P now s m) := by
  have := strikeLoop_punish P now s m hp s.NODE_COUNT 0 (by omega) (by omega) (by omega)
    (fun j _ h => hq j h)
  rw [struckTo_zero] at this
  exact this

theorem getNeighborFaceLoop_hit (nb : Nat → Nat) (id : Nat) :
    ∀ (rem i r : Nat), getNeighborFaceLoop nb id rem i = r → r ≠ INVALID → nb r = id := by
  intro rem
  induction rem with
  | zero =>
    intro i r h hr
    rw [getNeighborFaceLoop] at h
    exact absurd h.symm hr
  | succ n ih =>
    intro i r h hr
    rw [getNeighborFaceLoop] at h
    by_cases hm : id = nb i
    · rw [if_pos hm] at h
      rw [← h]; exact hm.symm
    · rw [if_neg hm] at h
      exact ih _ _ h hr

theorem getNeighborFace_hit (P : Platform) (id : Nat) (s : State) (f : Nat)
    (h : getNeighborFace P id s = f) (hf : f ≠ INVALID) : s.NEIGHBORS_ARR f = id :=
  getNeighborFaceLoop_hit s.NEIGHBORS_ARR id P.FACE_COUNT 0 f h hf

theorem first_punished (P : Platform) (s : State) (n : Nat) :
    (∀ j, j < n → ¬ punished P s j) ∨
    (∃ m, m < n ∧ punished P s m ∧ ∀ j, j < m → ¬ punished P s j) := by
  induction n with
  | zero => exact Or.inl (fun j h => by omega)
  | succ k ih =>
    rcases ih with hq | ⟨m, hm, hp, hmin⟩
    · by_cases hk : punished P s k
      · exact Or.inr ⟨k, by omega, hk, hq⟩
      · left
        intro j hj
        by_cases hjk : j = k
        · rw [hjk]; exact hk
        · exact hq j (by omega)
    · exact Or.inr ⟨m, by omega, hp, hmin⟩

theorem sweep_offender (P : Platform) (now i f : Nat) (s : State) (h : Offender P i f s)
    (hb : s.STRIKES_NODE_ARR i + 1 < 2 ^ P.STRIKES_BITS) :
    ∃ b, strikeCheck P now s = .ok b ∧
      b.STRIKES_NODE_ARR i = s.STRIKES_NODE_ARR i + 1 ∧
      (2 < s.STRIKES_NODE_ARR i + 1 →
        b.TRACE = s.TRACE ++
          [Event.powerOut f 0, Event.alarmReboot ((now + P.reboot_PERIOD) % U32)] ∧
        b.REBOOT_ARR f = 1) ∧
      (s.STRIKES_NODE_ARR i + 1 ≤ 2 →
        ∃ ev, b.TRACE = s.TRACE ++ ev ∧ ∀ lvl, Event.powerOut f lvl ∉ ev) := by
  have hso : strikeOf P s i = s.STRIKES_NODE_ARR i + 1 := by
    unfold strikeOf
    rw [if_pos h.differs, Nat.mod_eq_of_lt hb]
  have hstruck : ∀ n, i < n → (struckTo P s n).STRIKES_NODE_ARR i = s.STRIKES_NODE_ARR i + 1 := by
    intro n hn
    show (if i < n then strikeOf P s i else _) = _
    rw [if_pos hn, hso]
  by_cases hgt : 2 < s.STRIKES_NODE_ARR i + 1
  · have hp : punished P s i := by
      refine ⟨by rw [hso]; exact hgt, ?_⟩
      rw [h.mapped]; exact fun hc => h.link hc.symm
    refine ⟨_, strikeCheck_punish P now s h.nc_le i h.known hp h.earlier, ?_, ?_, ?_⟩
    · exact hstruck (i + 1) (by omega)
    · intro _
      constructor
      · show s.TRACE ++ _ = _
        rw [h.mapped]
      · show setAt s.REBOOT_ARR (getNeighborFace P (s.ID_NODE_ARR i) s) 1 f = 1
        rw [h.mapped]; simp [setAt]
    · intro hle; omega
  · have hnp : ¬ punished P s i := by
      intro hp
      have := hp.1
      rw [hso] at this
      exact hgt this
    rcases first_punished P s s.NODE_COUNT with hq | ⟨m, hm, hp, hmin⟩
    · refine ⟨_, strikeCheck_quiet P now s h.nc_le hq, hstruck _ h.known, ?_, ?_⟩
      · intro hc; exact absurd hc hgt
      · intro _
        exact ⟨[], (List.append_nil _).symm, fun lvl hmem => by simp at hmem⟩
    · have hmi : m ≠ i := fun hc => hnp (hc ▸ hp)
      have him : i < m := by
        by_contra hnot
        exact h.earlier m (by omega) hp
      have hface : getNeighborFace P (s.ID_NODE_ARR m) s ≠ f := by
        intro hc
        have h1 := getNeighborFace_hit P _ s f hc h.link
        have h2 := getNeighborFace_hit P _ s f h.mapped h.link
        exact h.ids m hm hmi (h1.symm.trans h2)
      refine ⟨_, strikeCheck_punish P now s h.nc_le m hm hp hmin, hstruck (m + 1) (by omega),
        ?_, ?_⟩
      · intro hc; exact absurd hc hgt
      · intro _
        refine ⟨_, rfl, ?_⟩
        intro lvl hmem
        simp only [List.mem_cons, List.mem_singleton, List.not_mem_nil, or_false] at hmem
        rcases hmem with hmem | hmem
        · injection hmem with h3 _
          exact hface h3.symm
        · cases hmem

theorem stateOf_ok (s d : State) : stateOf (.ok s) d = s := rfl

/-- Counterexample for C13 as stated: node 1 of `demoOneVote` is the neighbour on face 1, has
no strike and disagrees with the majority result; the host before it is never punished.  The
third consecutive sweep already powers face 1 down and schedules its restoration. -/
theorem third_sweep_powers_down :
    demoOneVote.STRIKES_NODE_ARR 1 = 0 ∧
    getNeighborFace demoBoard (demoOneVote.ID_NODE_ARR 1) demoOneVote = 1 ∧
    demoOneVote.VOTE_NODE_ARR 1 ≠ demoOneVote.MAJORITY_RSLT ∧
    strikeCheck demoBoard 100 demoOneVote = .ok demoStrike1 ∧
    strikeCheck demoBoard 200 demoStrike1 = .ok demoStrike2 ∧
    strikeCheck demoBoard 300 demoStrike2 = .ok demoStrike3 ∧
    demoStrike1.TRACE = demoOneVote.TRACE ∧ demoStrike2.TRACE = demoOneVote.TRACE ∧
    demoStrike2.STRIKES_NODE_ARR 1 = 2 ∧ demoStrike3.STRIKES_NODE_ARR 1 = 3 ∧
    demoStrike3.TRACE =
      demoOneVote.TRACE ++ [Event.powerOut 1 0, Event.alarmReboot 3300] :=
  ⟨rfl, rfl, by decide, rfl, rfl, rfl, rfl, rfl, rfl, rfl, rfl⟩

/-- C13, amended.  Strike threshold: on a board whose strike cells have at least 2 bits, let
node `i` be an offender on link `f` at each of three sweeps (a known node of a registry of at
most 32 nodes that disagrees with `MAJORITY_RSLT`, is the neighbour on face `f` and shares
its identifier with no other node, no node before it being punished), with strike count 0
before the first sweep and the count left by each sweep still there at the next.  Then all
three sweeps return, they leave the strike counts 1, 2 and 3, the first two switch no power
on face `f`, and the third, whose count 3 exceeds 2, appends exactly one power-down of face
`f` and one scheduled restoration to the output and sets `REBOOT_ARR[f]`. -/
theorem third_strike_punishes (P : Platform) (hbits : 2 ≤ P.STRIKES_BITS) (i f : Nat)
    (now1 now2 now3 : Nat) (a1 a2 a3 : State)
    (h1 : Offender P i f a1) (h2 : Offender P i f a2) (h3 : Offender P i f a3)
    (hz : a1.STRIKES_NODE_ARR i = 0)
    (h12 : a2.STRIKES_NODE_ARR i = (stateOf (strikeCheck P now1 a1) a1).STRIKES_NODE_ARR i)
    (h23 : a3.STRIKES_NODE_ARR i = (stateOf (strikeCheck P now2 a2) a2).STRIKES_NODE_ARR i) :
    ∃ b1 b2 b3 ev1 ev2,
      strikeCheck P now1 a1 = .ok b1 ∧ strikeCheck P now2 a2 = .ok b2 ∧
      strikeCheck P now3 a3 = .ok b3 ∧
      b1.STRIKES_NODE_ARR i = 1 ∧ b2.STRIKES_NODE_ARR i = 2 ∧ b3.STRIKES_NODE_ARR i = 3 ∧
      b1.TRACE = a1.TRACE ++ ev1 ∧ (∀ lvl, Event.powerOut f lvl ∉ ev1) ∧
      b2.TRACE = a2.TRACE ++ ev2 ∧ (∀ lvl, Event.powerOut f lvl ∉ ev2) ∧
      b3.TRACE = a3.TRACE ++
        [Event.powerOut f 0, Event.alarmReboot ((now3 + P.reboot_PERIOD) % U32)] ∧
      b3.REBOOT_ARR f = 1 := by
  have h4 : 4 ≤ 2 ^ P.STRIKES_BITS := by
    have := Nat.pow_le_pow_right (n := 2) (by omega) hbits
    omega
  obtain ⟨b1, hs1, hc1, _, hq1⟩ := sweep_offender P now1 i f a1 h1 (by omega)
  rw [hs1, stateOf_ok, hc1, hz] at h12
  obtain ⟨b2, hs2, hc2, _, hq2⟩ := sweep_offender P now2 i f a2 h2 (by omega)
  rw [hs2, stateOf_ok, hc2, h12] at h23
  obtain ⟨b3, hs3, hc3, hp3, _⟩ := sweep_offender P now3 i f a3 h3 (by omega)
  obtain ⟨ev1, ht1, hn1⟩ := hq1 (by omega)
  obtain ⟨ev2, ht2, hn2⟩ := hq2 (by omega)
  obtain ⟨ht3, hr3⟩ := hp3 (by omega)
  exact ⟨b1, b2, b3, ev1, ev2, hs1, hs2, hs3, by omega, by omega, by omega, ht1, hn1, ht2, hn2,
    ht3, hr3⟩

theorem demo_offender (s : State) (hn : s.NODE_COUNT = 2) (hv : s.VOTE_NODE_ARR 1 = 5)
    (hm : s.MAJORITY_RSLT = 0) (hv0 : s.VOTE_NODE_ARR 0 = 0)
    (hnb : getNeighborFace demoBoard (s.ID_NODE_ARR 1) s = 1)
    (hid : s.ID_NODE_ARR 0 ≠ s.ID_NODE_ARR 1) : Offender demoBoard 1 1 s where
  nc_le := by rw [hn]; decide
  known := by rw [hn]; decide
  differs := by rw [hv, hm]; decide
  mapped := hnb
  link := by decide
  earlier := by
    intro j hj hp
    have hj0 : j = 0 := by omega
    subst hj0
    have := hp.1
    unfold strikeOf at this
    rw [hv0, hm] at this
    simp at this
  ids := by
    intro j hj hj1
    have hj0 : j = 0 := by omega
    subst hj0
    exact hid

/-- Witness for C13 as amended: three sweeps of `demoBoard` over the node that voted 5. -/
theorem third_strike_punishes_witness :
    2 ≤ demoBoard.STRIKES_BITS ∧ Offender demoBoard 1 1 demoOneVote ∧
    demoOneVote.STRIKES_NODE_ARR 1 = 0 ∧
    ∃ b1 b2 b3 ev1 ev2,
      strikeCheck demoBoard 100 demoOneVote = .ok b1 ∧
      strikeCheck demoBoard 200 demoStrike1 = .ok b2 ∧
      strikeCheck demoBoard 300 demoStrike2 = .ok b3 ∧
      b1.STRIKES_NODE_ARR 1 = 1 ∧ b2.STRIKES_NODE_ARR 1 = 2 ∧ b3.STRIKES_NODE_ARR 1 = 3 ∧
      b1.TRACE = demoOneVote.TRACE ++ ev1 ∧ (∀ lvl, Event.powerOut 1 lvl ∉ ev1) ∧
      b2.TRACE = demoStrike1.TRACE ++ ev2 ∧ (∀ lvl, Event.powerOut 1 lvl ∉ ev2) ∧
      b3.TRACE = demoStrike2.TRACE ++
        [Event.powerOut 1 0, Event.alarmReboot ((300 + demoBoard.reboot_PERIOD) % U32)] ∧
      b3.REBOOT_ARR 1 = 1 :=
  ⟨by decide, demo_offender demoOneVote rfl rfl rfl rfl rfl (by decide), rfl,
    third_strike_punishes demoBoard (by decide) 1 1 100 200 300 demoOneVote demoStrike1
      demoStrike2 (demo_offender demoOneVote rfl rfl rfl rfl rfl (by decide))
      (demo_offender demoStrike1 rfl rfl rfl rfl rfl (by decide))
      (demo_offender demoStrike2 rfl rfl rfl rfl rfl (by decide)) rfl rfl rfl⟩

theorem spam_guard_drops (P : Platform) (now face : Nat) (p : R_PKT) (s s0 : State) (idx : Nat)
    (hn : s.NODE_COUNT ≤ CAP) (hl : log p.key.ID p.key.TIME now s = .ok (idx, s0))
    (hfresh : idx ≠ INVALID) :
    (s0.PC_NODE_ARR idx > p.key.TIME / 1000 →
      ∃ s1, r_handler P now face (some p) s = .ok s1 ∧ s1.TRACE = s.TRACE ∧
        s1.HOST_CALC = s.HOST_CALC ∧ s1.HOST_CALC_VER = s.HOST_CALC_VER ∧
        s1.VOTE_NODE_ARR = s.VOTE_NODE_ARR ∧ s1.VOTE_COUNT = s.VOTE_COUNT ∧
        s1.CANDIDATE_ARR = s.CANDIDATE_ARR ∧ s1.CANDIDATE_VOTES_ARR = s.CANDIDATE_VOTES_ARR ∧
        s1.CANDIDATE_COUNT = s.CANDIDATE_COUNT ∧ s1.MAJORITY_RSLT = s.MAJORITY_RSLT ∧
        s1.NEIGHBORS_ARR = s.NEIGHBORS_ARR ∧
        s1.PC_NODE_ARR idx = (s0.PC_NODE_ARR idx + U16 - 2) % U16 ∧
        (2 ≤ s0.PC_NODE_ARR idx → s0.PC_NODE_ARR idx < U16 →
          s1.PC_NODE_ARR idx + 2 = s0.PC_NODE_ARR idx) ∧
        (s0.PC_NODE_ARR idx = 1 → s1.PC_NODE_ARR idx = 65535)) ∧
    (¬ s0.PC_NODE_ARR idx > p.key.TIME / 1000 →
      r_handler P now face (some p) s =
        if p.calc_ver < s0.HOST_CALC_VER then .ok s0 else r_accept P now face p idx s0) := by
  have hb := (log_bounds hl hn)
  have hidx : idx < CAP := by
    rcases hb.2 with h | h
    · exact absurd h hfresh
    · omega
  have ho := (log_others hl).1
  have hinv : ¬ INVALID = idx := fun h => hfresh h.symm
  constructor
  · intro hspam
    refine ⟨amnesty s0 idx, ?_, ?_⟩
    · rw [r_handler_eq, hl]
      dsimp only
      rw [if_neg hinv, if_pos hidx, if_pos hspam]
    · have hpc : (amnesty s0 idx).PC_NODE_ARR idx = (s0.PC_NODE_ARR idx + U16 - 2) % U16 := by
        simp [amnesty, setAt]
      refine ⟨?_, ?_, ?_, ?_, ?_, ?_, ?_, ?_, ?_, ?_, hpc, ?_, ?_⟩
      · show s0.TRACE = s.TRACE; rw [ho]
      · show s0.HOST_CALC = s.HOST_CALC; rw [ho]
      · show s0.HOST_CALC_VER = s.HOST_CALC_VER; rw [ho]
      · show s0.VOTE_NODE_ARR = s.VOTE_NODE_ARR; rw [ho]
      · show s0.VOTE_COUNT = s.VOTE_COUNT; rw [ho]
      · show s0.CANDIDATE_ARR = s.CANDIDATE_ARR; rw [ho]
      · show s0.CANDIDATE_VOTES_ARR = s.CANDIDATE_VOTES_ARR; rw [ho]
      · show s0.CANDIDATE_COUNT = s.CANDIDATE_COUNT; rw [ho]
      · show s0.MAJORITY_RSLT = s.MAJORITY_RSLT; rw [ho]
      · show s0.NEIGHBORS_ARR = s.NEIGHBORS_ARR; rw [ho]
      · intro h2 hlt
        rw [hpc]
        unfold U16 at *
        omega
      · intro h1
        rw [hpc, h1]
        rfl
  · intro hspam
    rw [r_handler_eq, hl]
    dsimp only
    rw [if_neg hinv, if_pos hidx, if_neg hspam]

/-- C12 at its failing input: the first packet of node 7, stamped 500 ms, reaches the freshly
started board.  `log` admits the sender with ping count 1, which exceeds `500 / 1000 = 0`;
the guard drops the packet (no output, no vote), and its `-= 2` on the 16-bit count leaves
65535, not a count 2 below the one compared. -/
theorem amnesty_wraps_ping_count :
    log demoEarly.key.ID demoEarly.key.TIME 50 demoBoot = .ok (1, logNew demoBoot 7 500 50) ∧
    (logNew demoBoot 7 500 50).PC_NODE_ARR 1 = 1 ∧
    (logNew demoBoot 7 500 50).PC_NODE_ARR 1 > demoEarly.key.TIME / 1000 ∧
    r_handler demoBoard 50 1 (some demoEarly) demoBoot = .ok demoAmnesty ∧
    demoAmnesty.TRACE = demoBoot.TRACE ∧ demoAmnesty.VOTE_COUNT = 0 ∧
    demoAmnesty.VOTE_NODE_ARR 1 = 0 ∧
    demoAmnesty.PC_NODE_ARR 1 = 65535 ∧
    demoAmnesty.PC_NODE_ARR 1 + 2 ≠ (logNew demoBoot 7 500 50).PC_NODE_ARR 1 :=
  ⟨rfl, rfl, by decide, rfl, rfl, rfl, rfl, rfl, by decide⟩

theorem markActive_eq (i : Nat) (s : State) :
    markActive i s =
      { s with
        ACTIVE_NODE_ARR :=
          setAt s.ACTIVE_NODE_ARR i (if age32 s i < IDLE then 'A' else 'I') } := rfl

theorem liveLoop_succ (rem i : Nat) (s : State) (hi : i < CAP) :
    liveLoop (rem + 1) i s = liveLoop rem (i + 1) (liveBody i s) := by
  rw [liveLoop, if_pos hi]
  dsimp only
  rw [markActive_eq]
  unfold liveBody
  by_cases ha : age32 s i < IDLE
  · rw [if_pos ha, if_pos ha]
    have hc : ¬ 'I' = ({ s with ACTIVE_NODE_ARR := setAt s.ACTIVE_NODE_ARR i 'A' } :
        State).ACTIVE_NODE_ARR i := by
      simp [setAt]
    rw [if_neg hc]
  · rw [if_neg ha, if_neg ha]
    have hc : 'I' = ({ s with ACTIVE_NODE_ARR := setAt s.ACTIVE_NODE_ARR i 'I' } :
        State).ACTIVE_NODE_ARR i := by
      simp [setAt]
    rw [if_pos hc]

theorem liveBody_spec (i : Nat) (s : State) :
    LiveOnly s (liveBody i s) ∧
    (liveBody i s).ACTIVE_NODE_ARR i = (if age32 s i < IDLE then 'A' else 'I') ∧
    (liveBody i s).PC_NODE_ARR i = (if age32 s i < IDLE then s.PC_NODE_ARR i else 0) ∧
    (liveBody i s).STRIKES_NODE_ARR i = (if age32 s i < IDLE then s.STRIKES_NODE_ARR i else 0) ∧
    (∀ j, j ≠ i → (liveBody i s).ACTIVE_NODE_ARR j = s.ACTIVE_NODE_ARR j ∧
      (liveBody i s).PC_NODE_ARR j = s.PC_NODE_ARR j ∧
      (liveBody i s).STRIKES_NODE_ARR j = s.STRIKES_NODE_ARR j) ∧
    (∀ j, age32 (liveBody i s) j = age32 s j) := by
  unfold liveBody
  by_cases ha : age32 s i < IDLE
  · rw [if_pos ha]
    refine ⟨rfl, ?_, ?_, ?_, ?_, fun j => rfl⟩
    · simp [setAt, ha]
    · simp [ha]
    · simp [ha]
    · intro j hj
      exact ⟨by simp [setAt, hj], rfl, rfl⟩
  · rw [if_neg ha]
    refine ⟨rfl, ?_, ?_, ?_, ?_, fun j => rfl⟩
    · simp [setAt, ha]
    · simp [setAt, ha]
    · simp [setAt, ha]
    · intro j hj
      exact ⟨by simp [setAt, hj], by simp [setAt, hj], by simp [setAt, hj]⟩

theorem LiveOnly.live_trans {s t u : State} (h1 : LiveOnly s t) (h2 : LiveOnly t u) :
    LiveOnly s u := by
  unfold LiveOnly at *
  rw [h2, h1]

theorem liveLoop_spec :
    ∀ (rem i : Nat) (s : State), 1 ≤ i → i + rem ≤ CAP →
      ∃ s1, liveLoop rem i s = .ok s1 ∧ LiveOnly s s1 ∧
        (∀ j, i ≤ j → j < i + rem →
          s1.ACTIVE_NODE_ARR j = (if age32 s j < IDLE then 'A' else 'I') ∧
          s1.PC_NODE_ARR j = (if age32 s j < IDLE then s.PC_NODE_ARR j else 0) ∧
          s1.STRIKES_NODE_ARR j = (if age32 s j < IDLE then s.STRIKES_NODE_ARR j else 0)) ∧
        (∀ j, ¬ (i ≤ j ∧ j < i + rem) →
          s1.ACTIVE_NODE_ARR j = s.ACTIVE_NODE_ARR j ∧ s1.PC_NODE_ARR j = s.PC_NODE_ARR j ∧
          s1.STRIKES_NODE_ARR j = s.STRIKES_NODE_ARR j) := by
  intro rem
  induction rem with
  | zero =>
    intro i s _ _
    refine ⟨s, rfl, rfl, ?_, ?_⟩
    · intro j h1 h2; omega
    · intro j _; exact ⟨rfl, rfl, rfl⟩
  | succ n ih =>
    intro i s h1 hb
    rw [liveLoop_succ n i s (by omega)]
    obtain ⟨hl, ha, hp, hs, hoth, hage⟩ := liveBody_spec i s
    obtain ⟨s1, hrun, hl1, hin, hout⟩ := ih (i + 1) (liveBody i s) (by omega) (by omega)
    refine ⟨s1, hrun, hl.live_trans hl1, ?_, ?_⟩
    · intro j hj1 hj2
      by_cases hji : j = i
      · subst hji
        obtain ⟨o1, o2, o3⟩ := hout j (by omega)
        rw [o1, o2, o3, ha, hp, hs]
        exact ⟨rfl, rfl, rfl⟩
      · obtain ⟨i1, i2, i3⟩ := hin j (by omega) (by omega)
        obtain ⟨b1, b2, b3⟩ := hoth j hji
        rw [i1, i2, i3, hage j, b2, b3]
        exact ⟨rfl, rfl, rfl⟩
    · intro j hj
      obtain ⟨o1, o2, o3⟩ := hout j (by omega)
      obtain ⟨b1, b2, b3⟩ := hoth j (by omega)
      rw [o1, o2, o3, b1, b2, b3]
      exact ⟨rfl, rfl, rfl⟩

theorem heartBeat_eq (P : Platform) (now due : Nat) (s : State) :
    heartBeat P now due s =
      if s.PC_NODE_ARR 0 > now / 1000 then .ok (amnesty s 0)
      else
        match liveLoop (s.NODE_COUNT - 1) 1 (beaten P now s) with
        | .error e => .error e
        | .ok s3 =>
          .ok { s3 with
                TRACE := s3.TRACE ++ [Event.alarmHeartBeat ((due + pingAll_PERIOD) % U32)] } :=
  rfl

theorem age32_int (a b : Nat) (hb : b < U32) :
    ((a + U32 - b) % U32 < IDLE ↔ ((a : Int) - (b : Int)) % (U32 : Int) < (IDLE : Int)) := by
  unfold U32 IDLE at *
  push_cast
  omega

theorem heartBeat_run (P : Platform) (now due : Nat) (s : State) (hn : s.NODE_COUNT ≤ CAP)
    (hgo : ¬ s.PC_NODE_ARR 0 > now / 1000) :
    ∃ s3, liveLoop (s.NODE_COUNT - 1) 1 (beaten P now s) = .ok s3 ∧
      heartBeat P now due s =
        .ok { s3 with
              TRACE := s3.TRACE ++ [Event.alarmHeartBeat ((due + pingAll_PERIOD) % U32)] } ∧
      LiveOnly (beaten P now s) s3 ∧
      (∀ j, 1 ≤ j → j < s.NODE_COUNT →
        s3.ACTIVE_NODE_ARR j =
          (if (now + U32 - s.TS_HOST_ARR j) % U32 < IDLE then 'A' else 'I') ∧
        s3.PC_NODE_ARR j =
          (if (now + U32 - s.TS_HOST_ARR j) % U32 < IDLE then s.PC_NODE_ARR j else 0) ∧
        s3.STRIKES_NODE_ARR j =
          (if (now + U32 - s.TS_HOST_ARR j) % U32 < IDLE then s.STRIKES_NODE_ARR j else 0)) ∧
      (∀ j, ¬ (1 ≤ j ∧ j < s.NODE_COUNT) →
        s3.ACTIVE_NODE_ARR j = s.ACTIVE_NODE_ARR j ∧
        s3.PC_NODE_ARR j = (beaten P now s).PC_NODE_ARR j ∧
        s3.STRIKES_NODE_ARR j = s.STRIKES_NODE_ARR j) := by
  obtain ⟨s3, hrun, hlive, hin, hout⟩ :=
    liveLoop_spec (s.NODE_COUNT - 1) 1 (beaten P now s) (by omega)
      (by unfold CAP at *; omega)
  refine ⟨s3, hrun, ?_, hlive, ?_, ?_⟩
  · rw [heartBeat_eq, if_neg hgo, hrun]
  · intro j h1 h2
    have hage : age32 (beaten P now s) j = (now + U32 - s.TS_HOST_ARR j) % U32 := by
      have hj0 : j ≠ 0 := by omega
      simp [age32, beaten, BRD_R_PKT, setAt, hj0]
    have hpc : (beaten P now s).PC_NODE_ARR j = s.PC_NODE_ARR j := by
      have hj0 : j ≠ 0 := by omega
      simp [beaten, BRD_R_PKT, setAt, hj0]
    obtain ⟨a1, a2, a3⟩ := hin j h1 (by omega)
    rw [hage, hpc] at a2
    rw [hage] at a1 a3
    exact ⟨a1, a2, a3⟩
  · intro j hj
    exact hout j (by omega)

theorem SameBook.book_trans {s t u : State} (h1 : SameBook s t) (h2 : SameBook t u) :
    SameBook s u :=
  ⟨h2.1.trans h1.1, h2.2.1.trans h1.2.1, h2.2.2.trans h1.2.2⟩

theorem SameBook.book_of_roundOnly {s t : State} (h : RoundOnly s t) : SameBook s t :=
  ⟨h.node_count, h.pc, h.active⟩

theorem SameBook.book_of_strikeOnly {s t : State} (h : StrikeOnly s t) : SameBook s t := by
  obtain ⟨st, rb, tr, e⟩ := h
  subst e
  exact ⟨rfl, rfl, rfl⟩

theorem accepted_book (face : Nat) (p : R_PKT) (s : State) : SameBook s (accepted face p s) := by
  unfold accepted FWD_R_PKT
  split_ifs
  · exact ⟨rfl, rfl, rfl⟩
  · exact ⟨rfl, rfl, rfl⟩

theorem r_accept_book {P : Platform} {now face : Nat} {p : R_PKT} {idx : Nat}
    {s1 s2 : State} (ha : r_accept P now face p idx s1 = .ok s2) : SameBook s1 s2 := by
  unfold r_accept at ha
  split at ha
  · simp at ha
  dsimp only at ha
  have hk3 := accepted_book face p s1
  split at ha
  · exact hk3.book_trans (SameBook.book_of_roundOnly (RoundOnly.round_of_voteCount ha))
  split at ha
  · split at ha
    · simp at ha
    rename_i s4 hs4
    have hk4 := SameBook.book_of_strikeOnly (strikeCheck_frame hs4)
    split at ha
    · simp at ha
    rename_i s6 hs6
    have hr6 := RoundOnly.round_of_voteCount hs6
    split at ha
    · simp at ha
    rename_i v s8 hs8
    have hr8 := RoundOnly.round_of_calculate hs8
    have hr9 := RoundOnly.round_of_voteCount ha
    have k6 : SameBook s4 s6 :=
      (SameBook.book_of_roundOnly (RoundOnly.round_of_flushed s4)).book_trans
        (SameBook.book_of_roundOnly hr6)
    have k8 : SameBook s6 s8 :=
      SameBook.book_trans (t := adopted p s6) ⟨rfl, rfl, rfl⟩ (SameBook.book_of_roundOnly hr8)
    exact hk3.book_trans
      (hk4.book_trans (k6.book_trans (k8.book_trans (SameBook.book_of_roundOnly hr9))))
  · rw [← Except.ok.inj ha]
    exact hk3

theorem c_handler_book {P : Platform} {now face junk : Nat} {scan : Option Nat}
    {s s1 : State} (hc : c_handler P now face junk scan s = .ok s1) : SameBook s s1 := by
  cases scan with
  | none =>
    unfold c_handler at hc
    rw [← Except.ok.inj hc]; exact ⟨rfl, rfl, rfl⟩
  | some N =>
    rw [c_handler_eq] at hc
    split at hc
    · rw [← Except.ok.inj hc]; exact ⟨rfl, rfl, rfl⟩
    split at hc
    · simp at hc
    rename_i s2 hs2
    have h2 := SameBook.book_of_strikeOnly (strikeCheck_frame hs2)
    split at hc
    · simp at hc
    rename_i v s5 hs5
    have h5 : SameBook s2 s5 :=
      SameBook.book_trans (t := announced P now face junk N s2) ⟨rfl, rfl, rfl⟩
        (SameBook.book_of_roundOnly (RoundOnly.round_of_calculate hs5))
    exact h2.book_trans (h5.book_trans (SameBook.book_of_roundOnly
      (RoundOnly.round_of_voteCount hc)))

theorem Fresh.fresh_of_book {s t : State} (h : Fresh s) (hb : SameBook s t) : Fresh t := by
  obtain ⟨b1, b2, b3⟩ := hb
  exact ⟨by rw [b1]; exact h.nc_pos, by rw [b1, b2]; exact h.pc_out, by rw [b3]; exact h.host_active⟩

theorem Fresh.fresh_setup (P : Platform) (st nb rb : Nat → Nat) : Fresh (setup P st nb rb) :=
  ⟨Nat.le_refl _, fun _ _ => rfl, rfl⟩

theorem Fresh.fresh_of_log {ID TIME now : Nat} {s s0 : State} {idx : Nat} (h : Fresh s)
    (hl : log ID TIME now s = .ok (idx, s0)) :
    Fresh s0 ∧ (idx = INVALID ∨ idx < s0.NODE_COUNT) := by
  rcases log_cases ID TIME now s idx s0 hl with ⟨m, hf, _, _, hr, hs⟩ | ⟨m, _, _, _, hr, hs⟩ |
    ⟨_, _, hr, hs⟩
  · subst hs
    refine ⟨⟨h.nc_pos, ?_, h.host_active⟩, Or.inr (by rw [hr]; exact hf.2.1)⟩
    intro i hi
    have hm : m < s.NODE_COUNT := hf.2.1
    have hi2 : s.NODE_COUNT ≤ i := hi
    have him : i ≠ m := by omega
    show (if s.PC_NODE_ARR m < 0xffff then setAt s.PC_NODE_ARR m (s.PC_NODE_ARR m + 1)
      else s.PC_NODE_ARR) i = 0
    split_ifs
    · simp only [setAt, if_neg him]; exact h.pc_out i hi2
    · exact h.pc_out i hi2
  · subst hs
    exact ⟨h, Or.inl hr⟩
  · subst hs
    refine ⟨⟨?_, ?_, h.host_active⟩, Or.inr ?_⟩
    · show 1 ≤ s.NODE_COUNT + 1; omega
    · intro i hi
      have hi2 : s.NODE_COUNT + 1 ≤ i := hi
      have hne : i ≠ s.NODE_COUNT := by omega
      show setAt s.PC_NODE_ARR s.NODE_COUNT _ i = 0
      simp only [setAt, if_neg hne]
      exact h.pc_out i (by omega)
    · rw [hr]; show s.NODE_COUNT < s.NODE_COUNT + 1; omega

theorem Fresh.fresh_of_amnesty {s : State} (h : Fresh s) (idx : Nat) (hi : idx < s.NODE_COUNT) :
    Fresh (amnesty s idx) := by
  refine ⟨h.nc_pos, ?_, h.host_active⟩
  intro i hge
  have hge2 : s.NODE_COUNT ≤ i := hge
  have hne : i ≠ idx := by omega
  show setAt s.PC_NODE_ARR idx _ i = 0
  simp only [setAt, if_neg hne]
  exact h.pc_out i hge2

theorem Fresh.fresh_of_r_handler {P : Platform} {now face : Nat} {scan : Option R_PKT}
    {s s1 : State} (h : Fresh s) (hr : r_handler P now face scan s = .ok s1) : Fresh s1 := by
  cases scan with
  | none =>
    unfold r_handler at hr
    rw [← Except.ok.inj hr]; exact h
  | some p =>
    rw [r_handler_eq] at hr
    split at hr
    · simp at hr
    rename_i idx s0 hl
    obtain ⟨h0, hidx⟩ := h.fresh_of_log hl
    split at hr
    · rw [← Except.ok.inj hr]; exact h0
    rename_i hne
    have hlt : idx < s0.NODE_COUNT := by
      rcases hidx with e | e
      · exact absurd e.symm hne
      · exact e
    split at hr
    swap
    · simp at hr
    split at hr
    · rw [← Except.ok.inj hr]; exact h0.fresh_of_amnesty idx hlt
    split at hr
    · rw [← Except.ok.inj hr]; exact h0
    exact h0.fresh_of_book (r_accept_book hr)

theorem Fresh.fresh_of_heartBeat {P : Platform} {now due : Nat} {s s1 : State} (h : Fresh s)
    (hn : s.NODE_COUNT ≤ CAP) (hb : heartBeat P now due s = .ok s1) : Fresh s1 := by
  by_cases hgo : s.PC_NODE_ARR 0 > now / 1000
  · rw [heartBeat_eq, if_pos hgo] at hb
    rw [← Except.ok.inj hb]
    exact h.fresh_of_amnesty 0 h.nc_pos
  · obtain ⟨s3, _, hrun, hlive, _, hout⟩ := heartBeat_run P now due s hn hgo
    rw [hrun] at hb
    rw [← Except.ok.inj hb]
    have hnc : s3.NODE_COUNT = s.NODE_COUNT := by rw [hlive]; rfl
    refine ⟨?_, ?_, ?_⟩
    · show 1 ≤ s3.NODE_COUNT; rw [hnc]; exact h.nc_pos
    · intro i hi
      have hi2 : s.NODE_COUNT ≤ i := by rw [← hnc]; exact hi
      have hi0 : i ≠ 0 := by have := h.nc_pos; omega
      show s3.PC_NODE_ARR i = 0
      rw [(hout i (by omega)).2.1]
      show setAt s.PC_NODE_ARR 0 _ i = 0
      simp only [setAt, if_neg hi0]
      exact h.pc_out i hi2
    · show s3.ACTIVE_NODE_ARR 0 = 'A'
      rw [(hout 0 (by omega)).1]
      exact h.host_active

theorem Reach.reach_fresh {P : Platform} {s : State} (h : Reach P (EngineStep P) s) :
    Inv s ∧ Fresh s := by
  induction h with
  | boot st nb rb => exact ⟨Inv.inv_setup P st nb rb, Fresh.fresh_setup P st nb rb⟩
  | next a b _ hab ih =>
    obtain ⟨hi, hf⟩ := ih
    rcases hab with hl | hr | hc | hh
    · obtain ⟨ID, TIME, now, idx, e⟩ := hl
      exact ⟨hi.inv_of_log e, (hf.fresh_of_log e).1⟩
    · obtain ⟨now, face, scan, e⟩ := hr
      exact ⟨hi.inv_of_r_handler e, hf.fresh_of_r_handler e⟩
    · obtain ⟨now, face, junk, scan, e⟩ := hc
      exact ⟨hi.inv_of_c_handler e, hf.fresh_of_book (c_handler_book e)⟩
    · obtain ⟨now, due, e⟩ := hh
      exact ⟨hi.inv_of_heartBeat e, hf.fresh_of_heartBeat hi.reg.nc_le e⟩

theorem logLoop_error (ID TIME now : Nat) (s : State) :
    ∀ (rem i : Nat) (e : Halt), logLoop ID TIME now s rem i = .error e →
      e = Halt.outOfBounds := by
  intro rem
  induction rem with
  | zero =>
    intro i e h
    rw [logLoop] at h
    cases h
  | succ n ih =>
    intro i e h
    rw [logLoop] at h
    by_cases hi : i < CAP
    · rw [if_pos hi] at h
      by_cases hid : ID = s.ID_NODE_ARR i
      · rw [if_pos hid] at h
        by_cases ht : TIME ≠ s.TS_NODE_ARR i
        · rw [if_pos ht] at h; cases h
        · rw [if_neg ht] at h; cases h
      · rw [if_neg hid] at h
        exact ih _ _ h
    · rw [if_neg hi] at h
      exact (Except.error.inj h).symm

/-- C11.  Capacity exhaustion.  In every state `log(ID, TIME)` resets the device exactly when
`ID` is not among the known identifiers and `NODE_COUNT` is 32; the run ends there, before
any cell is written.  In every state reached from `setup()` by runs of `log`, `r_handler`,
`c_handler` and `heartBeat`, `1 <= NODE_COUNT <= 32`, and for an unknown `ID` with
`NODE_COUNT` not 32 `log` returns the index `NODE_COUNT`, having stored there the record
(`ID`, `TIME`, host time-stamp `now`, ping count 1), raised `NODE_COUNT` by one and left the
records of the known nodes as they were. -/
theorem capacity_exhaustion (P : Platform) (ID TIME now : Nat) :
    (∀ s : State, log ID TIME now s = .error .reset ↔
      ((∀ k, k < s.NODE_COUNT → s.ID_NODE_ARR k ≠ ID) ∧ s.NODE_COUNT = CAP)) ∧
    (∀ s : State, Reach P (EngineStep P) s →
      1 ≤ s.NODE_COUNT ∧ s.NODE_COUNT ≤ CAP ∧
      ((∀ k, k < s.NODE_COUNT → s.ID_NODE_ARR k ≠ ID) → s.NODE_COUNT ≠ CAP →
        ∃ s1, log ID TIME now s = .ok (s.NODE_COUNT, s1) ∧
          s1.NODE_COUNT = s.NODE_COUNT + 1 ∧
          s1.ID_NODE_ARR s.NODE_COUNT = ID ∧ s1.TS_NODE_ARR s.NODE_COUNT = TIME ∧
          s1.TS_HOST_ARR s.NODE_COUNT = now ∧ s1.PC_NODE_ARR s.NODE_COUNT = 1 ∧
          (∀ i, i < s.NODE_COUNT →
            s1.ID_NODE_ARR i = s.ID_NODE_ARR i ∧ s1.TS_NODE_ARR i = s.TS_NODE_ARR i ∧
            s1.TS_HOST_ARR i = s.TS_HOST_ARR i ∧ s1.PC_NODE_ARR i = s.PC_NODE_ARR i))) := by
  constructor
  · intro s
    constructor
    · intro h
      by_cases hn : s.NODE_COUNT ≤ CAP
      · rcases log_total ID TIME now s hn with ⟨_, h2, h3⟩ | ⟨idx, s0, hl⟩
        · exact ⟨h3, h2⟩
        · rw [hl] at h; cases h
      · exfalso
        unfold log at h
        cases hloop : logLoop ID TIME now s s.NODE_COUNT 0 with
        | error e =>
          rw [hloop] at h
          have he : e = Halt.reset := Except.error.inj h
          have ho := logLoop_error ID TIME now s _ _ _ hloop
          rw [he] at ho
          cases ho
        | ok r =>
          rcases logLoop_spec ID TIME now s s.NODE_COUNT 0 r (by unfold CAP; omega) hloop with
            ⟨_, hle, _⟩ | ⟨m, _, _, hres⟩
          · omega
          · rw [hloop] at h
            rcases hres with ⟨_, e⟩ | ⟨_, e⟩ <;> · subst e; cases h
    · rintro ⟨h1, h2⟩
      exact log_reset ID TIME now s h2 h1
  · intro s hreach
    obtain ⟨hinv, hfresh⟩ := hreach.reach_fresh
    refine ⟨hinv.reg.nc_pos, hinv.reg.nc_le, ?_⟩
    intro hab hne
    have hlt : s.NODE_COUNT < CAP := by
      have := hinv.reg.nc_le
      omega
    refine ⟨logNew s ID TIME now, log_new ID TIME now s hlt hab, rfl, ?_, ?_, ?_, ?_, ?_⟩
    · simp [logNew, setAt]
    · simp [logNew, setAt]
    · simp [logNew, setAt]
    · have := hfresh.pc_out s.NODE_COUNT (Nat.le_refl _)
      simp [logNew, setAt, this, U16]
    · intro i hi
      have hne : i ≠ s.NODE_COUNT := by omega
      simp [logNew, setAt, hne]

/-- Witness for C11: the unknown identifier 9 reaches `demoOneVote`, which knows two nodes. -/
theorem capacity_exhaustion_witness :
    Reach demoBoard (EngineStep demoBoard) demoOneVote ∧ demoOneVote.NODE_COUNT = 2 ∧
    ∃ s1, log 9 700 80 demoOneVote = .ok (2, s1) ∧ s1.NODE_COUNT = 3 ∧
      s1.ID_NODE_ARR 2 = 9 ∧ s1.TS_NODE_ARR 2 = 700 ∧ s1.TS_HOST_ARR 2 = 80 ∧
      s1.PC_NODE_ARR 2 = 1 := by
  have hr : Reach demoBoard (EngineStep demoBoard) demoOneVote :=
    Reach.next demoBoot demoOneVote (Reach.boot _ _ _)
      (Or.inr (Or.inl ⟨50, 1, some demoVote, rfl⟩))
  refine ⟨hr, rfl, ?_⟩
  obtain ⟨s1, h1, h2, h3, h4, h5, h6, _⟩ :=
    ((capacity_exhaustion demoBoard 9 700 80).2 demoOneVote hr).2.2
      (by
        intro k hk
        have hk2 : k < 2 := hk
        have : k = 0 ∨ k = 1 := by omega
        rcases this with h | h <;> subst h <;> decide)
      (by decide)
  exact ⟨s1, h1, h2, h3, h4, h5, h6⟩

/-- C14.  Liveness sweep.  In every state with at most 32 known nodes whose host-side
time-stamps are `u32` values, a `heartBeat` at time `now` that its self spam check does not
suppress returns, and afterwards every known node `i >= 1` is marked `'I'` exactly when the
difference `now - TS_HOST_ARR[i]` modulo `2^32` is at least `IDLE` and `'A'` otherwise; a
node marked `'I'` has ping count 0 and strike count 0; a node marked `'A'` keeps its ping and
strike count; identifier, both time-stamps and vote of every such node are unchanged, and so
is the mark of the host.  In every state reached from `setup()` by runs of `log`,
`r_handler`, `c_handler` and `heartBeat` the host is marked `'A'`. -/
theorem liveness_sweep (P : Platform) :
    (∀ (now due : Nat) (s : State), s.NODE_COUNT ≤ CAP →
      (∀ i, i < s.NODE_COUNT → s.TS_HOST_ARR i < U32) →
      ¬ s.PC_NODE_ARR 0 > now / 1000 →
      ∃ s1, heartBeat P now due s = .ok s1 ∧ s1.NODE_COUNT = s.NODE_COUNT ∧
        s1.ACTIVE_NODE_ARR 0 = s.ACTIVE_NODE_ARR 0 ∧
        ∀ i, 1 ≤ i → i < s.NODE_COUNT →
          (s1.ACTIVE_NODE_ARR i = 'I' ↔
            (IDLE : Int) ≤ ((now : Int) - (s.TS_HOST_ARR i : Int)) % (U32 : Int)) ∧
          (s1.ACTIVE_NODE_ARR i = 'A' ↔
            ((now : Int) - (s.TS_HOST_ARR i : Int)) % (U32 : Int) < (IDLE : Int)) ∧
          (s1.ACTIVE_NODE_ARR i = 'I' →
            s1.PC_NODE_ARR i = 0 ∧ s1.STRIKES_NODE_ARR i = 0) ∧
          (s1.ACTIVE_NODE_ARR i = 'A' →
            s1.PC_NODE_ARR i = s.PC_NODE_ARR i ∧
            s1.STRIKES_NODE_ARR i = s.STRIKES_NODE_ARR i) ∧
          s1.ID_NODE_ARR i = s.ID_NODE_ARR i ∧ s1.TS_NODE_ARR i = s.TS_NODE_ARR i ∧
          s1.TS_HOST_ARR i = s.TS_HOST_ARR i ∧ s1.VOTE_NODE_ARR i = s.VOTE_NODE_ARR i) ∧
    (∀ s : State, Reach P (EngineStep P) s → s.ACTIVE_NODE_ARR 0 = 'A') := by
  refine ⟨?_, fun s h => h.reach_fresh.2.host_active⟩
  intro now due s hn hts hgo
  obtain ⟨s3, _, hrun, hlive, hin, hout⟩ := heartBeat_run P now due s hn hgo
  refine ⟨_, hrun, ?_, ?_, ?_⟩
  · show s3.NODE_COUNT = s.NODE_COUNT
    rw [hlive]; rfl
  · exact (hout 0 (by omega)).1
  · intro i h1 h2
    obtain ⟨a1, a2, a3⟩ := hin i h1 h2
    have hi0 : i ≠ 0 := by omega
    have hint := age32_int now (s.TS_HOST_ARR i) (hts i h2)
    have hid : s3.ID_NODE_ARR i = s.ID_NODE_ARR i := by rw [hlive]; rfl
    have htn : s3.TS_NODE_ARR i = s.TS_NODE_ARR i := by
      rw [hlive]; show setAt s.TS_NODE_ARR 0 now i = _; simp [setAt, hi0]
    have hth : s3.TS_HOST_ARR i = s.TS_HOST_ARR i := by
      rw [hlive]; show setAt s.TS_HOST_ARR 0 now i = _; simp [setAt, hi0]
    have hvo : s3.VOTE_NODE_ARR i = s.VOTE_NODE_ARR i := by rw [hlive]; rfl
    by_cases hage : (now + U32 - s.TS_HOST_ARR i) % U32 < IDLE
    · rw [if_pos hage] at a1 a2 a3
      have hlt := hint.mp hage
      refine ⟨?_, ?_, ?_, ?_, hid, htn, hth, hvo⟩
      · show s3.ACTIVE_NODE_ARR i = 'I' ↔ _
        rw [a1]
        constructor
        · intro h; exact absurd h (by decide)
        · intro h; omega
      · show s3.ACTIVE_NODE_ARR i = 'A' ↔ _
        rw [a1]
        exact ⟨fun _ => hlt, fun _ => rfl⟩
      · show s3.ACTIVE_NODE_ARR i = 'I' → _
        rw [a1]
        intro h; exact absurd h (by decide)
      · intro _; exact ⟨a2, a3⟩
    · rw [if_neg hage] at a1 a2 a3
      have hge : ¬ ((now : Int) - (s.TS_HOST_ARR i : Int)) % (U32 : Int) < (IDLE : Int) :=
        fun h => hage (hint.mpr h)
      refine ⟨?_, ?_, ?_, ?_, hid, htn, hth, hvo⟩
      · show s3.ACTIVE_NODE_ARR i = 'I' ↔ _
        rw [a1]
        exact ⟨fun _ => by omega, fun _ => rfl⟩
      · show s3.ACTIVE_NODE_ARR i = 'A' ↔ _
        rw [a1]
        constructor
        · intro h; exact absurd h (by decide)
        · intro h; exact absurd h hge
      · intro _; exact ⟨a2, a3⟩
      · show s3.ACTIVE_NODE_ARR i = 'A' → _
        rw [a1]
        intro h; exact absurd h (by decide)

/-- Witness for C14: the heartbeat of `demoBoard` at time 6000, when node 7 was last heard
at time 50. -/
theorem liveness_sweep_witness :
    demoOneVote.NODE_COUNT ≤ CAP ∧ demoOneVote.TS_HOST_ARR 1 = 50 ∧
    ¬ demoOneVote.PC_NODE_ARR 0 > 6000 / 1000 ∧
    heartBeat demoBoard 6000 6000 demoOneVote = .ok demoBeat ∧
    demoBeat.ACTIVE_NODE_ARR 1 = 'I' ∧ demoBeat.PC_NODE_ARR 1 = 0 ∧
    ∃ s1, heartBeat demoBoard 6000 6000 demoOneVote = .ok s1 ∧
      (s1.ACTIVE_NODE_ARR 1 = 'I' ↔
        (IDLE : Int) ≤ ((6000 : Nat) - (demoOneVote.TS_HOST_ARR 1 : Int)) % (U32 : Int)) := by
  refine ⟨by decide, rfl, by decide, rfl, rfl, rfl, ?_⟩
  obtain ⟨s1, h1, _, _, h2⟩ := (liveness_sweep demoBoard).1 6000 6000 demoOneVote (by decide)
    (by
      intro i hi
      have hi2 : i < 2 := hi
      have : i = 0 ∨ i = 1 := by omega
      rcases this with h | h <;> subst h <;> decide)
    (by decide)
  exact ⟨s1, h1, (h2 1 (by decide) (by decide)).1⟩

theorem reach_stateOf_r_handler {P : Platform} {s : State} (h : Reach P (EngineStep P) s)
    (now face : Nat) (scan : Option R_PKT) :
    Reach P (EngineStep P) (stateOf (r_handler P now face scan s) s) := by
  cases hr : r_handler P now face scan s with
  | error e => exact h
  | ok s1 => exact Reach.next s s1 h (Or.inr (Or.inl ⟨now, face, scan, hr⟩))

theorem reach_stateOf_c_handler {P : Platform} {s : State} (h : Reach P (EngineStep P) s)
    (now face junk : Nat) (scan : Option Nat) :
    Reach P (EngineStep P) (stateOf (c_handler P now face junk scan s) s) := by
  cases hr : c_handler P now face junk scan s with
  | error e => exact h
  | ok s1 => exact Reach.next s s1 h (Or.inr (Or.inr (Or.inl ⟨now, face, junk, scan, hr⟩)))

theorem demoFull_reach : Reach demoBoard (EngineStep demoBoard) demoFull := by
  have h1 : Reach demoBoard (EngineStep demoBoard) demoRound1 :=
    reach_stateOf_c_handler (Reach.boot _ _ _) 10 0 0 (some 0)
  have hfold : ∀ (l : List Nat) (s : State), Reach demoBoard (EngineStep demoBoard) s →
      Reach demoBoard (EngineStep demoBoard)
        (l.foldl (fun s k => stateOf (r_handler demoBoard 50 1 (some (demoPeer k)) s) s) s) := by
    intro l
    induction l with
    | nil => intro s hs; exact hs
    | cons k t ih =>
      intro s hs
      exact ih _ (reach_stateOf_r_handler hs 50 1 (some (demoPeer k)))
  exact hfold _ _ h1

/-- Counterexample for C20 as stated: `demoFull` is reached from `setup()`, holds 32 records
and is in round version 1; the well-formed packet `demoVote` of round version 0 comes from a
sender it does not know, and `r_handler` ends in the reset of the device. -/
theorem stale_packet_resets :
    Reach demoBoard (EngineStep demoBoard) demoFull ∧
    demoFull.NODE_COUNT = 32 ∧ demoFull.HOST_CALC_VER = 1 ∧
    demoVote.calc_ver < demoFull.HOST_CALC_VER ∧
    r_handler demoBoard 60 1 (some demoVote) demoFull = .error .reset :=
  ⟨demoFull_reach, rfl, rfl, by decide, rfl⟩

/-- C20, amended.  Stale packets cannot touch the round: in every state with at most 32 known
nodes, for every result packet whose `calc_ver` is below `HOST_CALC_VER`, `r_handler` resets
the device when the sender is unknown and the registry holds 32 records, and in every other
case returns with `HOST_CALC`, `HOST_CALC_VER`, `VOTE_NODE_ARR`, `VOTE_COUNT`,
`CANDIDATE_ARR`, `CANDIDATE_VOTES_ARR`, `CANDIDATE_COUNT`, `MAJORITY_RSLT`, all strike
counts, the neighbour of every face and the output unchanged; `NODE_COUNT` grows by at most
one (the admission of the sender), and the record of every known node with another
identifier than the sender's is unchanged. -/
theorem stale_packet_keeps_round (P : Platform) (now face : Nat) (p : R_PKT) (s : State)
    (hn : s.NODE_COUNT ≤ CAP) (hver : p.calc_ver < s.HOST_CALC_VER) :
    (((∀ k, k < s.NODE_COUNT → s.ID_NODE_ARR k ≠ p.key.ID) ∧ s.NODE_COUNT = CAP) →
      r_handler P now face (some p) s = .error .reset) ∧
    (¬ ((∀ k, k < s.NODE_COUNT → s.ID_NODE_ARR k ≠ p.key.ID) ∧ s.NODE_COUNT = CAP) →
      ∃ s1, r_handler P now face (some p) s = .ok s1 ∧
        s1.HOST_CALC = s.HOST_CALC ∧ s1.HOST_CALC_VER = s.HOST_CALC_VER ∧
        s1.VOTE_NODE_ARR = s.VOTE_NODE_ARR ∧ s1.VOTE_COUNT = s.VOTE_COUNT ∧
        s1.CANDIDATE_ARR = s.CANDIDATE_ARR ∧
        s1.CANDIDATE_VOTES_ARR = s.CANDIDATE_VOTES_ARR ∧
        s1.CANDIDATE_COUNT = s.CANDIDATE_COUNT ∧ s1.MAJORITY_RSLT = s.MAJORITY_RSLT ∧
        s1.STRIKES_NODE_ARR = s.STRIKES_NODE_ARR ∧ s1.NEIGHBORS_ARR = s.NEIGHBORS_ARR ∧
        s1.TRACE = s.TRACE ∧
        s.NODE_COUNT ≤ s1.NODE_COUNT ∧ s1.NODE_COUNT ≤ s.NODE_COUNT + 1 ∧
        ∀ i, i < s.NODE_COUNT → s.ID_NODE_ARR i ≠ p.key.ID →
          s1.ID_NODE_ARR i = s.ID_NODE_ARR i ∧ s1.TS_NODE_ARR i = s.TS_NODE_ARR i ∧
          s1.TS_HOST_ARR i = s.TS_HOST_ARR i ∧ s1.PC_NODE_ARR i = s.PC_NODE_ARR i ∧
          s1.ACTIVE_NODE_ARR i = s.ACTIVE_NODE_ARR i) := by
  constructor
  · rintro ⟨h1, h2⟩
    rw [r_handler_eq, log_reset p.key.ID p.key.TIME now s h2 h1]
  · intro hroom
    rcases log_total p.key.ID p.key.TIME now s hn with ⟨_, h2, h3⟩ | ⟨idx, s0, hl⟩
    · exact absurd ⟨h3, h2⟩ hroom
    obtain ⟨he, hle1, hle2, hidx, hoth⟩ := log_others hl
    have hv0 : s0.HOST_CALC_VER = s.HOST_CALC_VER := (log_frame hl).2.2
    have hround : ∀ t : State,
        t = { s0 with PC_NODE_ARR := t.PC_NODE_ARR } →
        t.HOST_CALC = s.HOST_CALC ∧ t.HOST_CALC_VER = s.HOST_CALC_VER ∧
        t.VOTE_NODE_ARR = s.VOTE_NODE_ARR ∧ t.VOTE_COUNT = s.VOTE_COUNT ∧
        t.CANDIDATE_ARR = s.CANDIDATE_ARR ∧
        t.CANDIDATE_VOTES_ARR = s.CANDIDATE_VOTES_ARR ∧
        t.CANDIDATE_COUNT = s.CANDIDATE_COUNT ∧ t.MAJORITY_RSLT = s.MAJORITY_RSLT ∧
        t.STRIKES_NODE_ARR = s.STRIKES_NODE_ARR ∧ t.NEIGHBORS_ARR = s.NEIGHBORS_ARR ∧
        t.TRACE = s.TRACE ∧ t.NODE_COUNT = s0.NODE_COUNT ∧
        t.ID_NODE_ARR = s0.ID_NODE_ARR ∧ t.TS_NODE_ARR = s0.TS_NODE_ARR ∧
        t.TS_HOST_ARR = s0.TS_HOST_ARR ∧ t.ACTIVE_NODE_ARR = s.ACTIVE_NODE_ARR := by
      intro t ht
      rw [ht, he]
      exact ⟨rfl, rfl, rfl, rfl, rfl, rfl, rfl, rfl, rfl, rfl, rfl, rfl, rfl, rfl, rfl, rfl⟩
    have hfin : ∀ t : State, t = { s0 with PC_NODE_ARR := t.PC_NODE_ARR } →
        (∀ i, i < s.NODE_COUNT → s.ID_NODE_ARR i ≠ p.key.ID →
          t.PC_NODE_ARR i = s0.PC_NODE_ARR i) →
        r_handler P now face (some p) s = .ok t →
        ∃ s1, r_handler P now face (some p) s = .ok s1 ∧
          s1.HOST_CALC = s.HOST_CALC ∧ s1.HOST_CALC_VER = s.HOST_CALC_VER ∧
          s1.VOTE_NODE_ARR = s.VOTE_NODE_ARR ∧ s1.VOTE_COUNT = s.VOTE_COUNT ∧
          s1.CANDIDATE_ARR = s.CANDIDATE_ARR ∧
          s1.CANDIDATE_VOTES_ARR = s.CANDIDATE_VOTES_ARR ∧
          s1.CANDIDATE_COUNT = s.CANDIDATE_COUNT ∧ s1.MAJORITY_RSLT = s.MAJORITY_RSLT ∧
          s1.STRIKES_NODE_ARR = s.STRIKES_NODE_ARR ∧ s1.NEIGHBORS_ARR = s.NEIGHBORS_ARR ∧
          s1.TRACE = s.TRACE ∧
          s.NODE_COUNT ≤ s1.NODE_COUNT ∧ s1.NODE_COUNT ≤ s.NODE_COUNT + 1 ∧
          ∀ i, i < s.NODE_COUNT → s.ID_NODE_ARR i ≠ p.key.ID →
            s1.ID_NODE_ARR i = s.ID_NODE_ARR i ∧ s1.TS_NODE_ARR i = s.TS_NODE_ARR i ∧
            s1.TS_HOST_ARR i = s.TS_HOST_ARR i ∧ s1.PC_NODE_ARR i = s.PC_NODE_ARR i ∧
            s1.ACTIVE_NODE_ARR i = s.ACTIVE_NODE_ARR i := by
      intro t ht hpc hrun
      obtain ⟨r1, r2, r3, r4, r5, r6, r7, r8, r9, r10, r11, r12, r13, r14, r15, r16⟩ :=
        hround t ht
      refine ⟨t, hrun, r1, r2, r3, r4, r5, r6, r7, r8, r9, r10, r11, by rw [r12]; exact hle1,
        by rw [r12]; exact hle2, ?_⟩
      intro i hi hne
      obtain ⟨a1, a2, a3, a4⟩ := hoth i hi hne
      exact ⟨by rw [r13]; exact a1, by rw [r14]; exact a2, by rw [r15]; exact a3,
        by rw [hpc i hi hne]; exact a4, by rw [r16]⟩
    have hrun : r_handler P now face (some p) s =
        if INVALID = idx then .ok s0
        else if idx < CAP then
          if s0.PC_NODE_ARR idx > p.key.TIME / 1000 then .ok (amnesty s0 idx)
          else if p.calc_ver < s0.HOST_CALC_VER then .ok s0
          else r_accept P now face p idx s0
        else .error .outOfBounds := by
      rw [r_handler_eq, hl]
    by_cases hinv : INVALID = idx
    · rw [if_pos hinv] at hrun
      exact hfin s0 rfl (fun _ _ _ => rfl) hrun
    rw [if_neg hinv] at hrun
    rcases hidx with e | ⟨hc, hid⟩
    · exact absurd e.symm hinv
    rw [if_pos hc] at hrun
    by_cases hspam : s0.PC_NODE_ARR idx > p.key.TIME / 1000
    · rw [if_pos hspam] at hrun
      refine hfin (amnesty s0 idx) rfl ?_ hrun
      intro i hi hne
      have him : i ≠ idx := by
        intro e
        apply hne
        rw [← (hoth i hi hne).1, e]
        exact hid
      simp [amnesty, setAt, him]
    · rw [if_neg hspam, if_pos (by rw [hv0]; exact hver)] at hrun
      exact hfin s0 rfl (fun _ _ _ => rfl) hrun

/-- Witness for C20 as amended: the stale `demoVote` reaches `demoRound1`, which knows only
the host. -/
theorem stale_packet_keeps_round_witness :
    demoRound1.NODE_COUNT ≤ CAP ∧ demoVote.calc_ver < demoRound1.HOST_CALC_VER ∧
    demoRound1.NODE_COUNT ≠ CAP ∧
    ∃ s1, r_handler demoBoard 50 1 (some demoVote) demoRound1 = .ok s1 ∧
      s1.HOST_CALC_VER = demoRound1.HOST_CALC_VER ∧
      s1.VOTE_COUNT = demoRound1.VOTE_COUNT ∧ s1.TRACE = demoRound1.TRACE := by
  refine ⟨by decide, by decide, by decide, ?_⟩
  obtain ⟨s1, h1, _, h2, _, h3, _, _, _, _, _, _, h4, _⟩ :=
    (stale_packet_keeps_round demoBoard 50 1 demoVote demoRound1 (by decide) (by decide)).2
      (fun h => absurd h.2 (by decide))
  exact ⟨s1, h1, h2, h3, h4⟩

theorem getD_set_one (sv : List Nat) (k x : Nat) (hk : k < sv.length) :
    ((sv.set k 1).getD x 0 = 0 ↔ x ≠ k ∧ sv.getD x 0 = 0) := by
  simp only [List.getD_eq_getElem?_getD, List.getElem?_set]
  by_cases hx : k = x
  · subst hx
    simp [hk]
  · have hx2 : x ≠ k := fun h => hx h.symm
    simp [hx, hx2]

theorem markLoop_spec (i j : Nat) (hi : i ≤ PRIME_ARR_THRESHOLD) (hj1 : 1 ≤ j)
    (hj2 : j ≤ PRIME_ARR_THRESHOLD) :
    ∀ (fuel k : Nat) (sv : List Nat), i ≤ k + fuel → j ∣ k →
      sv.length = PRIME_ARR_THRESHOLD →
      ∃ sv1, markLoop i j fuel k sv = .ok sv1 ∧ sv1.length = PRIME_ARR_THRESHOLD ∧
        ∀ x, (sv1.getD x 0 = 0 ↔ sv.getD x 0 = 0 ∧ ¬ (k ≤ x ∧ x < i ∧ j ∣ x)) := by
  intro fuel
  induction fuel with
  | zero =>
    intro k sv h _ hlen
    have hk : ¬ (k < i) := by omega
    refine ⟨sv, by simp [markLoop, hk], hlen, ?_⟩
    intro x
    constructor
    · intro hx; exact ⟨hx, fun hc => by omega⟩
    · intro hx; exact hx.1
  | succ n ih =>
    intro k sv h hdvd hlen
    rw [markLoop]
    by_cases hk : k < i
    · have hkT : k < PRIME_ARR_THRESHOLD := by omega
      have hmod : (k + j) % U32 = k + j :=
        Nat.mod_eq_of_lt (by unfold PRIME_ARR_THRESHOLD at hkT hj2; unfold U32; omega)
      simp only [hk, hkT, if_true, hmod]
      obtain ⟨sv1, hrun, hlen1, hspec⟩ := ih (k + j) (sv.set k 1) (by omega)
        (Dvd.dvd.add hdvd (dvd_refl j)) (by rw [List.length_set]; exact hlen)
      refine ⟨sv1, hrun, hlen1, ?_⟩
      intro x
      rw [hspec x, getD_set_one sv k x (by rw [hlen]; exact hkT)]
      constructor
      · rintro ⟨⟨hxk, hx0⟩, hno⟩
        refine ⟨hx0, ?_⟩
        rintro ⟨h1, h2, h3⟩
        apply hno
        refine ⟨?_, h2, h3⟩
        have hlt : k < x := by omega
        have hd : j ∣ x - k := (Nat.dvd_sub' h3 hdvd)
        have := Nat.le_of_dvd (by omega) hd
        omega
      · rintro ⟨hx0, hno⟩
        refine ⟨⟨?_, hx0⟩, ?_⟩
        · intro hxk
          apply hno
          rw [hxk]
          exact ⟨Nat.le_refl _, hk, hdvd⟩
        · rintro ⟨h1, h2, h3⟩
          exact hno ⟨by omega, h2, h3⟩
    · refine ⟨sv, by simp [hk], hlen, ?_⟩
      intro x
      constructor
      · intro hx; exact ⟨hx, fun hc => by omega⟩
      · intro hx; exact hx.1

theorem SieveInv.sieve_start : SieveInv 2 (List.replicate PRIME_ARR_THRESHOLD 0) := by
  refine ⟨List.length_replicate _ _, ?_⟩
  intro x hx
  constructor
  · intro _ d h1 h2; omega
  · intro _
    simp [List.getD_eq_getElem?_getD, List.getElem?_replicate, hx]

theorem SieveInv.sieve_mark {j : Nat} {sv sv1 : List Nat} (h : SieveInv j sv) (hj : 2 ≤ j)
    (hlen : sv1.length = PRIME_ARR_THRESHOLD)
    (hm : ∀ x, (sv1.getD x 0 = 0 ↔
      sv.getD x 0 = 0 ∧ ¬ (j + j ≤ x ∧ x < PRIME_ARR_THRESHOLD ∧ j ∣ x))) :
    SieveInv (j + 1) sv1 := by
  refine ⟨hlen, ?_⟩
  intro x hx
  rw [hm x, h.2 x hx]
  constructor
  · rintro ⟨hold, hnew⟩ d h1 h2 h3
    by_cases hdj : d = j
    · subst hdj
      by_contra hc
      apply hnew
      refine ⟨?_, hx, h3⟩
      obtain ⟨m, rfl⟩ := h3
      have hm2 : 2 ≤ m := by
        by_contra hm
        have : m = 0 ∨ m = 1 := by omega
        rcases this with e | e <;> subst e <;> simp at hc
      calc d + d = d * 2 := by ring
        _ ≤ d * m := Nat.mul_le_mul_left d hm2
    · exact hold d h1 (by omega) h3
  · intro hall
    refine ⟨fun d h1 h2 h3 => hall d h1 (by omega) h3, ?_⟩
    rintro ⟨h1, _, h3⟩
    have := hall j hj (by omega) h3
    omega

theorem SieveInv.sieve_skip {j : Nat} {sv : List Nat} (h : SieveInv j sv)
    (hjT : j < PRIME_ARR_THRESHOLD) (hz : ¬ sv.getD j 0 = 0) : SieveInv (j + 1) sv := by
  refine ⟨h.1, ?_⟩
  intro x hx
  rw [h.2 x hx]
  have hcomp : ∃ d, 2 ≤ d ∧ d < j ∧ d ∣ j := by
    by_contra hno
    apply hz
    rw [h.2 j hjT]
    intro d h1 h2 h3
    exact absurd ⟨d, h1, h2, h3⟩ hno
  obtain ⟨e, he1, he2, he3⟩ := hcomp
  constructor
  · intro hold d h1 h2 h3
    by_cases hdj : d = j
    · subst hdj
      have := hold e he1 he2 (Dvd.dvd.trans he3 h3)
      omega
    · exact hold d h1 (by omega) h3
  · intro hall d h1 h2 h3
    exact hall d h1 (by omega) h3

theorem sieveLoop_spec :
    ∀ (fuel j : Nat) (sv : List Nat), 2 ≤ j → j ≤ PRIME_ARR_THRESHOLD →
      PRIME_ARR_THRESHOLD < (j + fuel) * (j + fuel) → SieveInv j sv →
      ∃ sv1 J, sieveLoop PRIME_ARR_THRESHOLD fuel j sv = .ok sv1 ∧
        PRIME_ARR_THRESHOLD < J * J ∧ SieveInv J sv1 := by
  intro fuel
  induction fuel with
  | zero =>
    intro j sv _ hj2 h hinv
    have hgt : ¬ (j * j ≤ PRIME_ARR_THRESHOLD) := by simpa using h
    exact ⟨sv, j, by simp [sieveLoop, sq_mod j hj2, hgt], by simpa using h, hinv⟩
  | succ n ih =>
    intro j sv hj1 hj2 h hinv
    rw [sieveLoop]
    simp only [sq_mod j hj2]
    by_cases hle : j * j ≤ PRIME_ARR_THRESHOLD
    · have hjT : j < PRIME_ARR_THRESHOLD :=
        lt_of_sq_le j PRIME_ARR_THRESHOLD (Nat.le_refl _) hj1 hle
      have hnext : PRIME_ARR_THRESHOLD < (j + 1 + n) * (j + 1 + n) := by
        have : j + 1 + n = j + (n + 1) := by omega
        rw [this]; exact h
      simp only [hle, hjT, if_true]
      by_cases hz : sv.getD j 0 = 0
      · simp only [hz, if_true]
        have hmod : (j + j) % U32 = j + j :=
          Nat.mod_eq_of_lt (by unfold PRIME_ARR_THRESHOLD at hjT; unfold U32; omega)
        rw [hmod]
        obtain ⟨sv1, h1, hlen1, hspec⟩ := markLoop_spec PRIME_ARR_THRESHOLD j (Nat.le_refl _)
          (by omega) hj2 PRIME_ARR_THRESHOLD (j + j) sv (by omega) (Dvd.dvd.add (dvd_refl j)
            (dvd_refl j)) hinv.1
        simp only [h1]
        exact ih (j + 1) sv1 (by omega) (by omega) hnext (hinv.sieve_mark hj1 hlen1 hspec)
      · simp only [hz, if_false]
        exact ih (j + 1) sv (by omega) (by omega) hnext (hinv.sieve_skip hjT hz)
    · have hgt : PRIME_ARR_THRESHOLD < j * j := by omega
      exact ⟨sv, j, by simp [hle], hgt, hinv⟩

theorem SieveInv.sieve_primes {J : Nat} {sv : List Nat} (h : SieveInv J sv)
    (hJ : PRIME_ARR_THRESHOLD < J * J) :
    ∀ x, 2 ≤ x → x < PRIME_ARR_THRESHOLD → (sv.getD x 0 = 0 ↔ Nat.Prime x) := by
  intro x h2 hx
  rw [h.2 x hx, Nat.prime_def_le_sqrt]
  constructor
  · intro hall
    refine ⟨h2, ?_⟩
    intro m hm2 hms hdvd
    have hmm : m * m ≤ x := Nat.le_sqrt.mp hms
    have hmJ : m < J := by
      by_contra hc
      have h1 : J ≤ m := by omega
      have := Nat.mul_le_mul h1 h1
      omega
    have hxm := hall m hm2 hmJ hdvd
    have : m * 2 ≤ m * m := Nat.mul_le_mul_left m hm2
    omega
  · rintro ⟨_, hno⟩ d hd2 _ hdvd
    by_contra hc
    have hlt : d < x := by omega
    obtain ⟨m, hm⟩ := hdvd
    have hmpos : 0 < m := by
      rcases Nat.eq_zero_or_pos m with e | e
      · subst e; simp at hm; omega
      · exact e
    by_cases hdm : d ≤ m
    · have hdd : d * d ≤ x := by rw [hm]; exact Nat.mul_le_mul_left d hdm
      exact hno d hd2 (Nat.le_sqrt.mpr hdd) ⟨m, hm⟩
    · have hm2 : 2 ≤ m := by
        by_contra hm1
        have : m = 1 := by omega
        subst this
        omega
      have hmm : m * m ≤ x := by
        rw [hm]; exact Nat.mul_le_mul_right m (by omega)
      exact hno m hm2 (Nat.le_sqrt.mpr hmm) ⟨d, by rw [hm, Nat.mul_comm]⟩

theorem sieved_run :
    sieveLoop PRIME_ARR_THRESHOLD PRIME_ARR_THRESHOLD 2 (List.replicate PRIME_ARR_THRESHOLD 0)
      = .ok sieved ∧
    ∀ x, 2 ≤ x → x < PRIME_ARR_THRESHOLD → (sieved.getD x 0 = 0 ↔ Nat.Prime x) := by
  obtain ⟨sv1, J, hrun, hJ, hinv⟩ := sieveLoop_spec PRIME_ARR_THRESHOLD 2
    (List.replicate PRIME_ARR_THRESHOLD 0) (by omega) (by unfold PRIME_ARR_THRESHOLD; omega)
    (by
      have : PRIME_ARR_THRESHOLD ≤ (2 + PRIME_ARR_THRESHOLD) * (2 + PRIME_ARR_THRESHOLD) := by
        nlinarith
      nlinarith)
    SieveInv.sieve_start
  have hs : sieved = sv1 := by
    unfold sieved
    rw [hrun]
    rfl
  rw [hs]
  exact ⟨hrun, hinv.sieve_primes hJ⟩

theorem countLoop_spec (sv : List Nat)
    (hsv : ∀ x, 2 ≤ x → x < PRIME_ARR_THRESHOLD → (sv.getD x 0 = 0 ↔ Nat.Prime x)) (b : Nat) :
    ∀ (rem j c : Nat), 2 ≤ j → j + rem ≤ PRIME_ARR_THRESHOLD → c = Nat.count Nat.Prime j →
      c < b →
      (Nat.count Nat.Prime (j + rem) < b ∧ countLoop sv b rem j c = .ok none) ∨
      (∃ x, j ≤ x ∧ x < j + rem ∧ Nat.Prime x ∧ Nat.count Nat.Prime x + 1 = b ∧
        countLoop sv b rem j c = .ok (some x)) := by
  intro rem
  induction rem with
  | zero =>
    intro j c _ _ hc hlt
    left
    exact ⟨by rw [Nat.add_zero, ← hc]; exact hlt, rfl⟩
  | succ n ih =>
    intro j c hj hb hc hlt
    have hjT : j < PRIME_ARR_THRESHOLD := by omega
    rw [countLoop]
    simp only [hjT, if_true]
    have hpj := hsv j hj hjT
    by_cases hz : sv.getD j 0 = 0
    · have hprime : Nat.Prime j := hpj.mp hz
      simp only [hz, if_true]
      by_cases hbc : b = c + 1
      · right
        rw [if_pos hbc]
        exact ⟨j, Nat.le_refl _, by omega, hprime, by rw [← hc, hbc], rfl⟩
      · rw [if_neg hbc]
        have hc1 : c + 1 = Nat.count Nat.Prime (j + 1) := by
          rw [Nat.count_succ, if_pos hprime, hc]
        rcases ih (j + 1) (c + 1) (by omega) (by omega) hc1 (by omega) with ⟨h1, h2⟩ |
          ⟨x, h1, h2, h3, h4, h5⟩
        · left
          exact ⟨by rw [show j + (n + 1) = j + 1 + n by omega]; exact h1, h2⟩
        · right
          exact ⟨x, by omega, by omega, h3, h4, h5⟩
    · have hnp : ¬ Nat.Prime j := fun h => hz (hpj.mpr h)
      simp only [hz, if_false]
      have hbc : ¬ b = c := by omega
      rw [if_neg hbc]
      have hc1 : c = Nat.count Nat.Prime (j + 1) := by
        rw [Nat.count_succ, if_neg hnp, hc]; rfl
      rcases ih (j + 1) c (by omega) (by omega) hc1 hlt with ⟨h1, h2⟩ |
        ⟨x, h1, h2, h3, h4, h5⟩
      · left
        exact ⟨by rw [show j + (n + 1) = j + 1 + n by omega]; exact h1, h2⟩
      · right
        exact ⟨x, by omega, by omega, h3, h4, h5⟩

theorem count_prime_two : Nat.count Nat.Prime 2 = 0 := by decide

theorem countLoop_sieved (b : Nat) (hb : 1 ≤ b) :
    (Nat.count Nat.Prime PRIME_ARR_THRESHOLD < b ∧
      countLoop sieved b (PRIME_ARR_THRESHOLD - 2) 2 0 = .ok none) ∨
    (∃ x, 2 ≤ x ∧ x < PRIME_ARR_THRESHOLD ∧ Nat.Prime x ∧ Nat.count Nat.Prime x + 1 = b ∧
      countLoop sieved b (PRIME_ARR_THRESHOLD - 2) 2 0 = .ok (some x)) := by
  have hT : 2 + (PRIME_ARR_THRESHOLD - 2) = PRIME_ARR_THRESHOLD := by
    unfold PRIME_ARR_THRESHOLD; omega
  rcases countLoop_spec sieved sieved_run.2 b (PRIME_ARR_THRESHOLD - 2) 2 0 (by omega)
    (by omega) count_prime_two.symm (by omega) with ⟨h1, h2⟩ | ⟨x, h1, h2, h3, h4, h5⟩
  · left
    rw [hT] at h1
    exact ⟨h1, h2⟩
  · right
    rw [hT] at h2
    exact ⟨x, h1, h2, h3, h4, h5⟩

theorem calcLoop_first (b fuel : Nat) (sv : List Nat) (hf : 1 ≤ fuel) :
    calcLoop PRIME_ARR_THRESHOLD b fuel 3 sv =
      match countLoop sieved b (PRIME_ARR_THRESHOLD - 2) 2 0 with
      | .error e => .error e
      | .ok (some j) => .ok (j, sieved)
      | .ok none => .ok (0, sieved) := by
  obtain ⟨n, rfl⟩ : ∃ n, fuel = n + 1 := ⟨fuel - 1, by omega⟩
  have hrun := sieved_run.1
  have h3 : 3 < PRIME_ARR_THRESHOLD := by unfold PRIME_ARR_THRESHOLD; omega
  generalize hT : PRIME_ARR_THRESHOLD = T at hrun h3 ⊢
  rw [calcLoop]
  simp only [h3, if_true, hrun]
  cases hcount : countLoop sieved b (T - 2) 2 0 with
  | error e => rfl
  | ok r =>
    cases r with
    | none => simp [calcLoop_done]
    | some j => rfl

theorem calculate_run (a : Nat) (s : State) (ha : 1 ≤ a) :
    calculate a s =
      match countLoop sieved (rank s a) (PRIME_ARR_THRESHOLD - 2) 2 0 with
      | .error e => .error e
      | .ok (some j) => .ok (j, { s with STATUS := PROCESSING, sieve := sieved })
      | .ok none => .ok (0, { s with STATUS := PROCESSING, sieve := sieved }) := by
  unfold calculate rank
  rw [if_neg (by omega)]
  have h := calcLoop_first (if s.FAULTY then (a + 1) % U32 else a) PRIME_ARR_THRESHOLD s.sieve
    (by unfold PRIME_ARR_THRESHOLD; omega)
  generalize calcLoop PRIME_ARR_THRESHOLD (if s.FAULTY then (a + 1) % U32 else a)
    PRIME_ARR_THRESHOLD 3 s.sieve = c at h ⊢
  generalize countLoop sieved (if s.FAULTY then (a + 1) % U32 else a)
    (PRIME_ARR_THRESHOLD - 2) 2 0 = r at h ⊢
  subst h
  rw [setStatus_PROCESSING]
  cases r with
  | error e => rfl
  | ok r =>
    cases r with
    | none => rfl
    | some j => rfl

/-- The value of `calculate(a)` for `a >= 1`: with `b` the rank searched for, the prime that
has exactly `b - 1` primes below it when there are at least `b` primes below
`PRIME_ARR_THRESHOLD`, and 0 when there are fewer. -/
theorem calculate_value (a : Nat) (s : State) (ha : 1 ≤ a) (hb : 1 ≤ rank s a) :
    (rank s a ≤ Nat.count Nat.Prime PRIME_ARR_THRESHOLD ∧
      ∃ x, 2 ≤ x ∧ x < PRIME_ARR_THRESHOLD ∧ Nat.Prime x ∧
        Nat.count Nat.Prime x + 1 = rank s a ∧
        calculate a s = .ok (x, { s with STATUS := PROCESSING, sieve := sieved })) ∨
    (Nat.count Nat.Prime PRIME_ARR_THRESHOLD < rank s a ∧
      calculate a s = .ok (0, { s with STATUS := PROCESSING, sieve := sieved })) := by
  rw [calculate_run a s ha]
  rcases countLoop_sieved (rank s a) hb with ⟨h1, h2⟩ | ⟨x, h1, h2, h3, h4, h5⟩
  · right
    rw [h2]
    exact ⟨h1, rfl⟩
  · left
    rw [h5]
    refine ⟨?_, x, h1, h2, h3, h4, rfl⟩
    have hmono := Nat.count_monotone Nat.Prime (show x + 1 ≤ PRIME_ARR_THRESHOLD by omega)
    rw [Nat.count_succ, if_pos h3] at hmono
    omega

theorem trial_spec (n : Nat) :
    ∀ (fuel d : Nat), trial n fuel d = true ↔
      ∀ e, d ≤ e → e < d + fuel → e * e ≤ n → ¬ n % e = 0 := by
  intro fuel
  induction fuel with
  | zero =>
    intro d
    simp only [trial, true_iff]
    intro e h1 h2; omega
  | succ f ih =>
    intro d
    rw [trial]
    by_cases hsq : n < d * d
    · simp only [hsq, if_true, true_iff]
      intro e h1 _ h3
      have := Nat.mul_le_mul h1 h1
      omega
    · rw [if_neg hsq]
      by_cases hdiv : n % d = 0
      · rw [if_pos hdiv]
        constructor
        · intro h; cases h
        · intro h
          exact absurd hdiv (h d (Nat.le_refl _) (by omega) (by omega))
      · rw [if_neg hdiv, ih (d + 1)]
        constructor
        · intro h e h1 h2 h3
          by_cases hed : e = d
          · rw [hed]; exact hdiv
          · exact h e (by omega) (by omega) h3
        · intro h e h1 h2 h3
          exact h e (by omega) (by omega) h3

theorem isPrimeB_iff (n : Nat) (hn : n < 7921) : isPrimeB n = true ↔ Nat.Prime n := by
  unfold isPrimeB
  rw [Bool.and_eq_true, decide_eq_true_eq, trial_spec, Nat.prime_def_le_sqrt]
  constructor
  · rintro ⟨h2, h⟩
    refine ⟨h2, ?_⟩
    intro m hm hs hdvd
    have hmm : m * m ≤ n := Nat.le_sqrt.mp hs
    have hm89 : m < 89 := by
      by_contra hc
      have h1 : 89 ≤ m := by omega
      have := Nat.mul_le_mul h1 h1
      omega
    exact h m hm (by omega) hmm (Nat.mod_eq_zero_of_dvd hdvd)
  · rintro ⟨h2, h⟩
    refine ⟨h2, ?_⟩
    intro e he1 _ he3 hmod
    exact h e he1 (Nat.le_sqrt.mpr he3) (Nat.dvd_of_mod_eq_zero hmod)

theorem primesFrom_count :
    ∀ (len lo acc : Nat), lo + len ≤ 7921 →
      primesFrom len lo acc + Nat.count Nat.Prime lo = acc + Nat.count Nat.Prime (lo + len) := by
  intro len
  induction len with
  | zero => intro lo acc _; rw [primesFrom, Nat.add_zero]
  | succ n ih =>
    intro lo acc h
    rw [primesFrom]
    have hiff := isPrimeB_iff lo (by omega)
    have hstep := ih (lo + 1) (if isPrimeB lo then acc + 1 else acc) (by omega)
    rw [Nat.count_succ] at hstep
    have hidx : lo + 1 + n = lo + (n + 1) := by omega
    rw [hidx] at hstep
    by_cases hp : Nat.Prime lo
    · rw [hiff.mpr hp, if_pos rfl] at hstep ⊢
      rw [if_pos hp] at hstep
      omega
    · have hb : isPrimeB lo = false := by
        cases hc : isPrimeB lo
        · rfl
        · exact absurd (hiff.mp hc) hp
      rw [hb] at hstep ⊢
      rw [if_neg hp] at hstep
      simp only [Bool.false_eq_true, if_false] at hstep ⊢
      omega

theorem primes_chunk0 : primesFrom 990 0 0 = 166 := by decide!

theorem primes_chunk1 : primesFrom 990 990 0 = 133 := by decide!

theorem primes_chunk2 : primesFrom 990 1980 0 = 129 := by decide!

theorem primes_chunk3 : primesFrom 990 2970 0 = 120 := by decide!

theorem primes_chunk4 : primesFrom 990 3960 0 = 113 := by decide!

theorem primes_chunk5 : primesFrom 990 4950 0 = 119 := by decide!

theorem primes_chunk6 : primesFrom 990 5940 0 = 110 := by decide!

theorem primes_chunk7 : primesFrom 990 6930 0 = 110 := by decide!

theorem primesFrom_upto (len lo hi c : Nat) (hsum : lo + len = hi) (hhi : hi ≤ 7921)
    (hc : primesFrom len lo 0 = c) :
    Nat.count Nat.Prime hi = Nat.count Nat.Prime lo + c := by
  have h := primesFrom_count len lo 0 (by omega)
  rw [hsum, hc] at h
  omega

/-- There are exactly 1000 primes below `PRIME_ARR_THRESHOLD = 7920`. -/
theorem prime_count_threshold : Nat.count Nat.Prime PRIME_ARR_THRESHOLD = 1000 := by
  have h0 := primesFrom_upto 990 0 990 166 rfl (by omega) primes_chunk0
  have h1 := primesFrom_upto 990 990 1980 133 rfl (by omega) primes_chunk1
  have h2 := primesFrom_upto 990 1980 2970 129 rfl (by omega) primes_chunk2
  have h3 := primesFrom_upto 990 2970 3960 120 rfl (by omega) primes_chunk3
  have h4 := primesFrom_upto 990 3960 4950 113 rfl (by omega) primes_chunk4
  have h5 := primesFrom_upto 990 4950 5940 119 rfl (by omega) primes_chunk5
  have h6 := primesFrom_upto 990 5940 6930 110 rfl (by omega) primes_chunk6
  have h7 := primesFrom_upto 990 6930 PRIME_ARR_THRESHOLD 110 rfl (by decide) primes_chunk7
  rw [Nat.count_zero] at h0
  rw [h7, h6, h5, h4, h3, h2, h1, h0]

theorem rank_off (s : State) (a : Nat) (hf : s.FAULTY = false) : rank s a = a := by
  unfold rank
  rw [hf]
  rfl

theorem rank_on (s : State) (a : Nat) (hf : s.FAULTY = true) (ha : a + 1 < U32) :
    rank s a = a + 1 := by
  unfold rank
  rw [hf, if_pos rfl, Nat.mod_eq_of_lt ha]

/-- The value of `calculate(a)` for a rank `b` in `1 .. 1000`: the prime number with index
`b - 1` in the increasing enumeration of the primes, which is below `PRIME_ARR_THRESHOLD`. -/
theorem calculate_nth (a : Nat) (s : State) (ha : 1 ≤ a) (hb : 1 ≤ rank s a)
    (hle : rank s a ≤ 1000) :
    calculate a s =
      .ok (Nat.nth Nat.Prime (rank s a - 1), { s with STATUS := PROCESSING, sieve := sieved }) ∧
    Nat.nth Nat.Prime (rank s a - 1) < PRIME_ARR_THRESHOLD := by
  rcases calculate_value a s ha hb with ⟨_, x, _, hxT, hp, hc, hrun⟩ | ⟨hlt, _⟩
  · have hx : Nat.nth Nat.Prime (rank s a - 1) = x := by
      have : rank s a - 1 = Nat.count Nat.Prime x := by omega
      rw [this]
      exact Nat.nth_count hp
    rw [hx]
    exact ⟨hrun, hxT⟩
  · rw [prime_count_threshold] at hlt
    omega

/-- The value of `calculate(a)` for a rank above 1000: there is no such prime in the sieve,
and the result is 0. -/
theorem calculate_beyond (a : Nat) (s : State) (ha : 1 ≤ a) (hgt : 1000 < rank s a) :
    calculate a s = .ok (0, { s with STATUS := PROCESSING, sieve := sieved }) := by
  rcases calculate_value a s ha (by omega) with ⟨hle, _⟩ | ⟨_, hrun⟩
  · rw [prime_count_threshold] at hle
    omega
  · exact hrun

theorem prime_7919 : Nat.Prime 7919 := by norm_num

theorem nth_prime_999 : Nat.nth Nat.Prime 999 = 7919 := by
  have h := prime_count_threshold
  have hT : PRIME_ARR_THRESHOLD = 7919 + 1 := rfl
  rw [hT, Nat.count_succ, if_pos prime_7919] at h
  have h999 : Nat.count Nat.Prime 7919 = 999 := by omega
  rw [← h999]
  exact Nat.nth_count prime_7919

theorem calculate_same (n : Nat) (s t : State) (hf : s.FAULTY = t.FAULTY) :
    ∃ v s1 t1, calculate n s = .ok (v, s1) ∧ calculate n t = .ok (v, t1) := by
  by_cases hn : 1 ≤ n
  · have hr : rank t n = rank s n := by unfold rank; rw [hf]
    obtain ⟨v, s1, hs, _⟩ := calculate_spec n s
    refine ⟨v, s1, { t with STATUS := PROCESSING, sieve := sieved }, hs, ?_⟩
    rw [calculate_run n s hn] at hs
    rw [calculate_run n t hn, hr]
    generalize countLoop sieved (rank s n) (PRIME_ARR_THRESHOLD - 2) 2 0 = r at hs ⊢
    cases r with
    | error e => cases hs
    | ok r =>
      cases r with
      | none =>
        have hv : 0 = v := congrArg Prod.fst (Except.ok.inj hs)
        rw [← hv]
      | some j =>
        have hv : j = v := congrArg Prod.fst (Except.ok.inj hs)
        rw [← hv]
  · have h0 : n = 0 := by omega
    subst h0
    exact ⟨0, _, _, calculate_zero s, calculate_zero t⟩

/-- C17.  Workload correctness.  With the fault flag off, for every `n` with
`1 <= n <= PRIME_THRESHOLD` the call `calculate(n)` returns, and its value is the `n`-th prime
number (the prime with index `n - 1` in the increasing enumeration of the primes, which has
exactly `n - 1` primes below it); `calculate(1)` is 2 and `calculate(1000)` is 7919.
`calculate(0)` returns 0.  Two calls with the same argument and the same fault flag return the
same value whatever the rest of the state is, the content of the sieve buffer included. -/
theorem workload_correct :
    (∀ (n : Nat) (s : State), s.FAULTY = false → 1 ≤ n → n ≤ PRIME_THRESHOLD →
      ∃ s1, calculate n s = .ok (Nat.nth Nat.Prime (n - 1), s1) ∧
        Nat.Prime (Nat.nth Nat.Prime (n - 1)) ∧
        Nat.count Nat.Prime (Nat.nth Nat.Prime (n - 1)) = n - 1) ∧
    (∀ s : State, s.FAULTY = false → ∃ s1, calculate 1 s = .ok (2, s1)) ∧
    (∀ s : State, s.FAULTY = false → ∃ s1, calculate 1000 s = .ok (7919, s1)) ∧
    (∀ s : State, ∃ s1, calculate 0 s = .ok (0, s1)) ∧
    (∀ (n : Nat) (s t : State), s.FAULTY = t.FAULTY →
      ∃ v s1 t1, calculate n s = .ok (v, s1) ∧ calculate n t = .ok (v, t1)) := by
  have hmain : ∀ (n : Nat) (s : State), s.FAULTY = false → 1 ≤ n → n ≤ PRIME_THRESHOLD →
      calculate n s =
        .ok (Nat.nth Nat.Prime (n - 1), { s with STATUS := PROCESSING, sieve := sieved }) := by
    intro n s hf h1 h2
    have hr := rank_off s n hf
    have := (calculate_nth n s h1 (by rw [hr]; exact h1) (by rw [hr]; exact h2)).1
    rw [hr] at this
    exact this
  refine ⟨?_, ?_, ?_, ?_, calculate_same⟩
  · intro n s hf h1 h2
    exact ⟨_, hmain n s hf h1 h2, Nat.prime_nth_prime _, Nat.count_nth_of_infinite
      Nat.infinite_setOf_prime _⟩
  · intro s hf
    have := hmain 1 s hf (by omega) (by decide)
    rw [show (1 : Nat) - 1 = 0 from rfl, Nat.nth_prime_zero_eq_two] at this
    exact ⟨_, this⟩
  · intro s hf
    have := hmain 1000 s hf (by omega) (by decide)
    rw [show (1000 : Nat) - 1 = 999 from rfl, nth_prime_999] at this
    exact ⟨_, this⟩
  · intro s
    exact ⟨_, calculate_zero s⟩

/-- Witness for C17: the sixth prime on the freshly started board. -/
theorem workload_correct_witness :
    demoBoot.FAULTY = false ∧ 1 ≤ 6 ∧ 6 ≤ PRIME_THRESHOLD ∧
    ∃ s1, calculate 6 demoBoot = .ok (Nat.nth Nat.Prime (6 - 1), s1) ∧
      Nat.Prime (Nat.nth Nat.Prime (6 - 1)) ∧
      Nat.count Nat.Prime (Nat.nth Nat.Prime (6 - 1)) = 6 - 1 :=
  ⟨rfl, by decide, by decide, workload_correct.1 6 demoBoot rfl (by decide) (by decide)⟩

/-- Counterexample for C21 as stated: in `demoSplit` the three known nodes all differ from the
majority result `TIE`; the sweep punishes node 1 and returns, and node 2, whose vote differs
too, is left with the strike count 0 it had. -/
theorem sweep_stops_at_punishment :
    demoSplit.NODE_COUNT = 3 ∧ demoSplit.MAJORITY_RSLT = TIE ∧
    demoSplit.VOTE_NODE_ARR 1 = 9 ∧ demoSplit.VOTE_NODE_ARR 2 = 8 ∧
    demoSplit.VOTE_NODE_ARR 2 ≠ demoSplit.MAJORITY_RSLT ∧
    demoSplit.STRIKES_NODE_ARR 1 = 2 ∧ demoSplit.STRIKES_NODE_ARR 2 = 0 ∧
    strikeCheck demoBoard 100 demoSplit = .ok demoSplitSwept ∧
    demoSplitSwept.TRACE = demoSplit.TRACE ++ [Event.powerOut 1 0, Event.alarmReboot 3100] ∧
    demoSplitSwept.STRIKES_NODE_ARR 1 = 3 ∧ demoSplitSwept.STRIKES_NODE_ARR 2 = 0 ∧
    demoSplitSwept.STRIKES_NODE_ARR 2 ≠ demoSplit.STRIKES_NODE_ARR 2 + 1 :=
  ⟨rfl, rfl, rfl, rfl, by decide, rfl, rfl, rfl, rfl, rfl, rfl, by decide⟩

theorem struckTo_strikes (P : Platform) (s : State) (n j : Nat) :
    (struckTo P s n).STRIKES_NODE_ARR j = if j < n then strikeOf P s j else s.STRIKES_NODE_ARR j :=
  rfl

theorem punishedAt_strikes (P : Platform) (now : Nat) (s : State) (m j : Nat) :
    (punishedAt P now s m).STRIKES_NODE_ARR j =
      if j < m + 1 then strikeOf P s j else s.STRIKES_NODE_ARR j :=
  rfl

theorem strikeOf_cases (P : Platform) (s : State) (j : Nat) (b : State)
    (h : b.STRIKES_NODE_ARR j = strikeOf P s j) : Swept P s b j := by
  unfold strikeOf at h
  unfold Swept
  constructor
  · intro he
    rw [if_neg (fun hc => hc he)] at h
    exact h
  · intro hne
    rw [if_pos hne] at h
    exact ⟨h, fun hlt => by rw [h, Nat.mod_eq_of_lt hlt]⟩

/-- C21, amended.  Strike sweep up to the first punishment: in every state with at most 32
known nodes `strikeCheck` returns.  When it punishes no node, every known node has been
swept: its strike count is 0 if its vote equals `MAJORITY_RSLT`, and otherwise one higher
than before (modulo the width of a strike cell).  When it punishes a node, that is the first
known node `m` whose updated count exceeds 2 and which is a neighbour; the sweep returns
there, so the nodes `0 .. m` have been swept and every node after `m` has the strike count it
had before. -/
theorem sweep_covers_until_punishment (P : Platform) (now : Nat) (s : State)
    (hn : s.NODE_COUNT ≤ CAP) :
    ∃ b, strikeCheck P now s = .ok b ∧
      (((∀ j, j < s.NODE_COUNT → ¬ punished P s j) ∧ b.TRACE = s.TRACE ∧
          ∀ j, j < s.NODE_COUNT → Swept P s b j) ∨
        (∃ m, m < s.NODE_COUNT ∧ punished P s m ∧ (∀ j, j < m → ¬ punished P s j) ∧
          b.TRACE = s.TRACE ++
            [Event.powerOut (getNeighborFace P (s.ID_NODE_ARR m) s) 0,
              Event.alarmReboot ((now + P.reboot_PERIOD) % U32)] ∧
          (∀ j, j ≤ m → Swept P s b j) ∧
          (∀ j, m < j → b.STRIKES_NODE_ARR j = s.STRIKES_NODE_ARR j))) := by
  rcases first_punished P s s.NODE_COUNT with hq | ⟨m, hm, hp, hmin⟩
  · refine ⟨_, strikeCheck_quiet P now s hn hq, Or.inl ⟨hq, rfl, ?_⟩⟩
    intro j hj
    exact strikeOf_cases P s j _ (by rw [struckTo_strikes, if_pos hj])
  · refine ⟨_, strikeCheck_punish P now s hn m hm hp hmin,
      Or.inr ⟨m, hm, hp, hmin, rfl, ?_, ?_⟩⟩
    · intro j hj
      exact strikeOf_cases P s j _ (by rw [punishedAt_strikes, if_pos (by omega)])
    · intro j hj
      rw [punishedAt_strikes, if_neg (by omega)]

/-- Witness for C21 as amended: the sweep of `demoSplit` returns. -/
theorem sweep_covers_until_punishment_witness :
    demoSplit.NODE_COUNT ≤ CAP ∧
    ∃ b, strikeCheck demoBoard 100 demoSplit = .ok b ∧
      (((∀ j, j < demoSplit.NODE_COUNT → ¬ punished demoBoard demoSplit j) ∧
          b.TRACE = demoSplit.TRACE ∧
          ∀ j, j < demoSplit.NODE_COUNT → Swept demoBoard demoSplit b j) ∨
        (∃ m, m < demoSplit.NODE_COUNT ∧ punished demoBoard demoSplit m ∧
          (∀ j, j < m → ¬ punished demoBoard demoSplit j) ∧
          b.TRACE = demoSplit.TRACE ++
            [Event.powerOut (getNeighborFace demoBoard (demoSplit.ID_NODE_ARR m) demoSplit) 0,
              Event.alarmReboot ((100 + demoBoard.reboot_PERIOD) % U32)] ∧
          (∀ j, j ≤ m → Swept demoBoard demoSplit b j) ∧
          (∀ j, m < j → b.STRIKES_NODE_ARR j = demoSplit.STRIKES_NODE_ARR j))) :=
  ⟨by decide, sweep_covers_until_punishment demoBoard 100 demoSplit (by decide)⟩

/-- C22 at its failing input: node 7 is the neighbour on face 2 and disagrees in three
successive rounds; the third sweep powers face 2 down and sets `REBOOT_ARR[2]`.  When the
alarm fires, `reboot` clears the flag but calls `powerOut` with the value of the flag, 1, as
the face: face 1, which no sweep powered down, is switched on, and face 2 stays off. -/
theorem reboot_powers_face_one :
    r_handler demoBoard 50 2 (some (demoVoteAt 5000 0)) demoBoot = .ok demoLink1 ∧
    c_handler demoBoard 60 0 0 (some 0) demoLink1 = .ok demoLink2 ∧
    r_handler demoBoard 70 2 (some (demoVoteAt 6000 1)) demoLink2 = .ok demoLink3 ∧
    c_handler demoBoard 80 0 0 (some 0) demoLink3 = .ok demoLink4 ∧
    r_handler demoBoard 90 2 (some (demoVoteAt 7000 2)) demoLink4 = .ok demoLink5 ∧
    c_handler demoBoard 100 0 0 (some 0) demoLink5 = .ok demoLink6 ∧
    demoLink5.REBOOT_ARR 2 = 0 ∧ demoLink6.REBOOT_ARR 2 = 1 ∧
    demoLink6.TRACE.filter isPower = [Event.powerOut 2 0] ∧
    demoLink7.TRACE.filter isPower = [Event.powerOut 2 0, Event.powerOut 1 1] ∧
    demoLink7.REBOOT_ARR 2 = 0 ∧
    demoLink7.TRACE = demoLink6.TRACE ++ [Event.powerOut 1 1] ∧
    Event.powerOut 2 1 ∉ demoLink7.TRACE := by
  refine ⟨rfl, rfl, rfl, rfl, rfl, rfl, rfl, rfl, ?_, ?_, rfl, rfl, ?_⟩
  · decide
  · decide
  · decide

theorem calculate_one (s : State) (hf : s.FAULTY = false) :
    calculate 1 s = .ok (2, { s with STATUS := PROCESSING, sieve := sieved }) := by
  have h := (calculate_nth 1 s (by omega) (by rw [rank_off s 1 hf]) (by
    rw [rank_off s 1 hf]; omega)).1
  rw [rank_off s 1 hf, show (1 : Nat) - 1 = 0 from rfl, Nat.nth_prime_zero_eq_two] at h
  exact h

theorem c_handler_run (P : Platform) (now face junk N v : Nat) (s s1 s5 : State)
    (hN : N ≤ PRIME_THRESHOLD) (h1 : strikeCheck P now s = .ok s1)
    (h2 : calculate N (announced P now face junk N s1) = .ok (v, s5)) :
    c_handler P now face junk (some N) s = voteCount 0 v s5 := by
  rw [c_handler_eq, if_neg (by omega), h1]
  dsimp only
  rw [h2]

theorem demoCommandWith_run (buf : List Nat) :
    voteCount 0 2
      { announced demoBoard 10 0 0 1 (stateOf (strikeCheck demoBoard 10 demoBoot) demoBoot) with
        STATUS := PROCESSING, sieve := buf } = .ok (demoCommandWith buf) := rfl

theorem demoCommand1_run :
    c_handler demoBoard 10 0 0 (some 1) demoBoot = .ok demoCommand1 := by
  rw [c_handler_run demoBoard 10 0 0 1 2 demoBoot _ _ (by decide) rfl (calculate_one _ rfl)]
  exact demoCommandWith_run sieved

theorem demoCommandWith_trace (buf : List Nat) :
    (demoCommandWith buf).TRACE =
      demoBoot.TRACE ++
        [Event.send 1 demoNotice, Event.send 2 demoNotice, Event.send 3 demoNotice] ∧
    demoNotice.calc_ver = (demoCommandWith buf).HOST_CALC_VER ∧
    (demoCommandWith buf).VOTE_NODE_ARR 0 = 2 :=
  ⟨rfl, rfl, rfl⟩

/-- C23 at its failing input: the command `c1` reaches the freshly started board on face 0.
`c_handler` forwards its packet before it calls `calculate`: the three copies it sends carry
`calc = 1`, the new version 1 and `rslt = 0`, the content of the flushed `VOTE_NODE_ARR[0]`,
while the vote it then computes and records is `calculate(1) = 2`. -/
theorem command_forwards_no_vote :
    c_handler demoBoard 10 0 0 (some 1) demoBoot = .ok demoCommand1 ∧
    demoCommand1.TRACE =
      demoBoot.TRACE ++
        [Event.send 1 demoNotice, Event.send 2 demoNotice, Event.send 3 demoNotice] ∧
    demoNotice.CALC = 1 ∧ demoNotice.calc_ver = demoCommand1.HOST_CALC_VER ∧
    demoNotice.rslt = 0 ∧
    (∃ s1, calculate 1 demoBoot = .ok (2, s1)) ∧
    demoCommand1.VOTE_NODE_ARR 0 = 2 ∧ demoNotice.rslt ≠ demoCommand1.VOTE_NODE_ARR 0 :=
  ⟨demoCommand1_run, (demoCommandWith_trace sieved).1, rfl, (demoCommandWith_trace sieved).2.1,
    rfl, ⟨_, calculate_one demoBoot rfl⟩, (demoCommandWith_trace sieved).2.2,
    by rw [show demoCommand1.VOTE_NODE_ARR 0 = 2 from (demoCommandWith_trace sieved).2.2]; decide⟩

theorem calculate_faulty (n : Nat) (s : State) (hf : s.FAULTY = true) (h1 : 1 ≤ n)
    (h2 : n < PRIME_THRESHOLD) :
    calculate n s =
      .ok (Nat.nth Nat.Prime n, { s with STATUS := PROCESSING, sieve := sieved }) := by
  have h2' : n < 1000 := h2
  have hr : rank s n = n + 1 := rank_on s n hf (by unfold U32; omega)
  have h := (calculate_nth n s h1 (by rw [hr]; omega) (by rw [hr]; omega)).1
  rw [hr, Nat.add_sub_cancel] at h
  exact h

theorem calculate_thousand (s : State) (hf : s.FAULTY = true) :
    calculate 1000 s = .ok (0, { s with STATUS := PROCESSING, sieve := sieved }) :=
  calculate_beyond 1000 s (by omega) (by rw [rank_on s 1000 hf (by unfold U32; omega)]; omega)

theorem demoThousand_run :
    c_handler demoBoard 10 0 0 (some 1000) demoFaulty = .ok demoThousand := by
  rw [c_handler_run demoBoard 10 0 0 1000 0 demoFaulty _ _ (by decide) rfl
    (calculate_thousand _ rfl)]
  rfl

theorem demoThousandWith_votes (buf : List Nat) :
    (demoThousandWith buf).VOTE_NODE_ARR 0 = 0 ∧ (demoThousandWith buf).VOTE_COUNT = 0 ∧
    (demoThousandWith buf).HOST_CALC = 1000 :=
  ⟨rfl, rfl, rfl⟩

/-- C24 at its failing input: the fault flag is on and the accepted command `c1000` arrives.
`calculate(1000)` looks for the 1001st prime in a sieve that ends below 7920, finds none and
returns 0, where the 1001st prime is a prime number and not 0; `c_handler` returns with no
vote recorded for the host. -/
theorem faulty_thousand_is_zero :
    demoFaulty.FAULTY = true ∧ 1000 ≤ PRIME_THRESHOLD ∧
    (∃ s1, calculate 1000 demoFaulty = .ok (0, s1)) ∧
    Nat.Prime (Nat.nth Nat.Prime 1000) ∧ Nat.nth Nat.Prime 1000 ≠ 0 ∧
    c_handler demoBoard 10 0 0 (some 1000) demoFaulty = .ok demoThousand ∧
    demoThousand.HOST_CALC = 1000 ∧
    demoThousand.VOTE_NODE_ARR 0 = 0 ∧ demoThousand.VOTE_COUNT = 0 :=
  ⟨rfl, by decide, ⟨_, calculate_thousand demoFaulty rfl⟩, Nat.prime_nth_prime 1000,
    (Nat.prime_nth_prime 1000).ne_zero, demoThousand_run,
    (demoThousandWith_votes sieved).2.2, (demoThousandWith_votes sieved).1,
    (demoThousandWith_votes sieved).2.1⟩

theorem demoCrowd_reach : Reach demoBoard (EngineStep demoBoard) demoCrowd := by
  have h1 : Reach demoBoard (EngineStep demoBoard) demoCommand1 :=
    Reach.next demoBoot demoCommand1 (Reach.boot _ _ _)
      (Or.inr (Or.inr (Or.inl ⟨10, 0, 0, some 1, demoCommand1_run⟩)))
  have hfold : ∀ (l : List Nat) (s : State), Reach demoBoard (EngineStep demoBoard) s →
      Reach demoBoard (EngineStep demoBoard)
        (l.foldl (fun s k => stateOf (r_handler demoBoard 50 1 (some (demoBallot k)) s) s) s) := by
    intro l
    induction l with
    | nil => intro s hs; exact hs
    | cons k t ih =>
      intro s hs
      exact ih _ (reach_stateOf_r_handler hs 50 1 (some (demoBallot k)))
  exact hfold _ _ h1

theorem demoCrowd_count :
    demoCrowd.NODE_COUNT = 31 ∧ demoCrowd.VOTE_COUNT = 31 ∧ demoCrowd.CANDIDATE_COUNT = 31 := by
  decide!

theorem demoCrowd_halt :
    haltOf (r_handler demoBoard 50 1 (some (demoBallot 30)) demoCrowd) =
      some Halt.outOfBounds := by
  decide!

theorem getMaxLoop_error (a : Nat → Nat) :
    ∀ (rem i : Nat) (t : Bool) (mv mi : Nat) (e : Halt),
      getMaxLoop a rem i t mv mi = .error e → e = .outOfBounds := by
  intro rem
  induction rem with
  | zero => intro i t mv mi e h; simp [getMaxLoop] at h
  | succ n ih =>
    intro i t mv mi e h
    rw [getMaxLoop] at h
    by_cases hi : i < CAP
    · simp only [hi, if_true] at h
      split_ifs at h <;> exact ih _ _ _ _ _ h
    · simp only [hi, if_false] at h
      exact (Except.error.inj h).symm

theorem evalMajority_error (s : State) (e : Halt) (h : evalMajority s = .error e) :
    e ≠ .diverge := by
  unfold evalMajority at h
  by_cases hq : s.VOTE_COUNT ≥ VOTE_COUNT_MIN
  · rw [if_pos hq] at h
    by_cases hc : 0 = s.HOST_CALC
    · rw [if_pos hc, flush_eq] at h
      simp at h
    · rw [if_neg hc] at h
      cases hg : getMaxIndex s.CANDIDATE_VOTES_ARR ((s.CANDIDATE_COUNT + 1) % U32) with
      | error e1 =>
        rw [hg] at h
        have he : e1 = e := Except.error.inj h
        subst he
        unfold getMaxIndex at hg
        by_cases hz : (s.CANDIDATE_COUNT + 1) % U32 ≤ 0
        · rw [if_pos hz] at hg
          rw [← Except.error.inj hg]; decide
        · rw [if_neg hz] at hg
          cases hl : getMaxLoop s.CANDIDATE_VOTES_ARR ((s.CANDIDATE_COUNT + 1) % U32) 0 false 0
              INVALID with
          | error e2 =>
            rw [hl] at hg
            rw [← Except.error.inj hg, getMaxLoop_error _ _ _ _ _ _ _ hl]; decide
          | ok r =>
            rw [hl] at hg
            obtain ⟨t, mv, mi⟩ := r
            dsimp only at hg
            split_ifs at hg
      | ok j =>
        rw [hg] at h
        dsimp only at h
        by_cases hj : TIE = j
        · rw [if_pos hj, setStatus_OFF] at h
          simp at h
        · rw [if_neg hj] at h
          by_cases hjc : j < CAP
          · rw [if_pos hjc, setStatus_vote] at h
            simp at h
          · rw [if_neg hjc] at h
            rw [← Except.error.inj h]; decide
  · rw [if_neg hq, setStatus_OFF] at h
    simp at h

theorem voteCountAux_flat {s : State} (hs : Tally s) (i b : Nat) (hi : i < s.NODE_COUNT)
    (m : Nat) : voteCountAux (m + 1) i b s = voteCountAux 1 i b s := by
  rw [voteCountAux]
  conv_rhs => rw [voteCountAux]
  by_cases hb : 0 = b
  · rw [if_pos hb, if_pos hb]
  rw [if_neg hb, if_neg hb]
  by_cases hi : i < CAP
  swap
  · rw [if_neg hi, if_neg hi]
  rw [if_pos hi, if_pos hi]
  by_cases hbv : b = s.VOTE_NODE_ARR i
  · rw [if_pos hbv, if_pos hbv]
  rw [if_neg hbv, if_neg hbv]
  by_cases hv : 0 ≠ s.VOTE_NODE_ARR i
  · rw [if_pos hv, if_pos hv]
  rw [if_neg hv, if_neg hv]
  have hv0 : 0 = s.VOTE_NODE_ARR i := not_not.mp hv
  rw [if_pos hv0]
  dsimp only
  have hlt := hs.voters_lt i (by assumption) hv0.symm
  have hnc := hs.nc_le
  have hno : ¬ ((s.VOTE_COUNT + 1) % U32 > s.NODE_COUNT) := by
    rw [Nat.mod_eq_of_lt (by unfold CAP at hnc; unfold U32; omega)]
    omega
  rw [if_neg hno, if_neg hno]

theorem noHeal_of_tally {s : State} (hs : Tally s) (i b : Nat) (hi : i < s.NODE_COUNT) :
    NoHeal ⟨i, b, s⟩ := by
  have hnc := hs.nc_le
  have hle : s.VOTE_COUNT ≤ s.NODE_COUNT := by rw [hs.vc_eq]; exact Nat.count_le _
  refine ⟨hi, hle, ?_, voteCountAux_flat hs i b hi, ?_⟩
  · intro hv
    have hlt := hs.voters_lt i hi hv
    show ¬ (s.VOTE_COUNT + 1) % U32 > s.NODE_COUNT
    rw [Nat.mod_eq_of_lt (by unfold CAP at hnc; unfold U32; omega)]
    omega
  · show voteCountAux 1 i b s ≠ .error .diverge
    rw [← voteCountAux_flat hs i b hi 1]
    show voteCount i b s ≠ .error .diverge
    by_cases hb : b = 0
    · subst hb
      rw [voteCount_zero]
      exact fun h => nomatch h
    by_cases hv : s.VOTE_NODE_ARR i = 0
    · obtain ⟨k, _, _, _, e⟩ := voteCount_fresh hs i b hi hb hv
      rw [e]
      intro h
      exact evalMajority_error _ _ h rfl
    · rw [voteCount_recorded s i b (by omega) hv]
      exact fun h => nomatch h

theorem haltOf_error (r : Except Halt State) (e : Halt) (h : haltOf r = some e) :
    r = .error e := by
  cases r with
  | error e1 =>
    have h1 : some e1 = some e := h
    rw [Option.some.inj h1]
  | ok s =>
    have h1 : (none : Option Halt) = some e := h
    exact nomatch h1

/-- C25 at its failing input: after the command `c1` and the ballots of 30 peers, each with
a vote of its own, the board is in a reachable state with 31 known nodes and 31 candidates.
The ballot of a 31st peer with one more vote is counted by `voteCount` in the last free
slot, `CANDIDATE_COUNT` becomes 32, and the scan of `evalMajority` over
`CANDIDATE_COUNT + 1 = 33` entries leaves the 32-entry array: a scan of `getMaxIndex` over
33 entries reads index 32 whatever the array holds. -/
theorem candidate_scan_overruns :
    Reach demoBoard (EngineStep demoBoard) demoCrowd ∧
    demoCrowd.NODE_COUNT = 31 ∧ demoCrowd.VOTE_COUNT = 31 ∧ demoCrowd.CANDIDATE_COUNT = 31 ∧
    r_handler demoBoard 50 1 (some (demoBallot 30)) demoCrowd = .error .outOfBounds ∧
    ∀ a : Nat → Nat, getMaxIndex a (CAP + 1) = .error .outOfBounds :=
  ⟨demoCrowd_reach, demoCrowd_count.1, demoCrowd_count.2.1, demoCrowd_count.2.2,
    haltOf_error _ _ demoCrowd_halt, fun a => getMaxIndex_oob a (CAP + 1) (by omega)⟩

/-- C26 at its failing input: the state `demoAmnesty` is reached from `setup()` by one run
of `r_handler`, on the first packet of node 7, stamped 500 ms.  `log` admits node 7 at
index 1 with ping count 1; the spam guard fires although that count is below 2, and its
`-= 2` on the 16-bit cell wraps: the node ends the step with ping count 65535, larger than
the count before the decrement and larger than 1. -/
theorem amnesty_decrement_wraps :
    Reach demoBoard (EngineStep demoBoard) demoAmnesty ∧
    demoEarly.key.TIME < 1000 ∧
    (∀ k, k < demoBoot.NODE_COUNT → demoBoot.ID_NODE_ARR k ≠ demoEarly.key.ID) ∧
    demoAmnesty.NODE_COUNT = 2 ∧ demoAmnesty.ID_NODE_ARR 1 = demoEarly.key.ID ∧
    demoAmnesty = amnesty (logNew demoBoot 7 500 50) 1 ∧
    (logNew demoBoot 7 500 50).PC_NODE_ARR 1 < 2 ∧
    (logNew demoBoot 7 500 50).PC_NODE_ARR 1 < demoAmnesty.PC_NODE_ARR 1 ∧
    1 < demoAmnesty.PC_NODE_ARR 1 :=
  ⟨reach_stateOf_r_handler (Reach.boot _ _ _) 50 1 (some demoEarly), by decide, by decide,
    rfl, rfl, rfl, by decide, by decide, by decide⟩

theorem strikeOnly_node_count {s t : State} (h : StrikeOnly s t) :
    t.NODE_COUNT = s.NODE_COUNT := by
  obtain ⟨st, rb, tr, e⟩ := h
  subst e
  rfl

theorem r_acceptCalls_noHeal {P : Platform} {now face : Nat} {p : R_PKT} {idx : Nat}
    {s1 : State} (h : Inv s1) (hidx : idx < s1.NODE_COUNT) (c : VoteCall)
    (hc : c ∈ r_acceptCalls P now face p idx s1) : NoHeal c := by
  unfold r_acceptCalls at hc
  split at hc
  · simp at hc
  dsimp only at hc
  have h3 : Inv (accepted face p s1) := h.inv_of_accepted face p
  have hn3 : (accepted face p s1).NODE_COUNT = s1.NODE_COUNT := accepted_node_count face p s1
  split at hc
  · rw [List.mem_singleton] at hc
    subst hc
    exact noHeal_of_tally h3.tally idx p.rslt (by omega)
  split at hc
  swap
  · simp at hc
  split at hc
  · simp at hc
  rename_i s4 hs4
  have h4 : Inv s4 := h3.inv_of_strikeOnly (strikeCheck_frame hs4)
  have hn4 : s4.NODE_COUNT = s1.NODE_COUNT := by
    rw [strikeOnly_node_count (strikeCheck_frame hs4), hn3]
  have h5 : Inv (flushed s4) := h4.inv_of_flushed
  have hi5 : idx < (flushed s4).NODE_COUNT := by
    show idx < s4.NODE_COUNT
    omega
  rcases List.mem_cons.mp hc with e | hrest
  · subst e
    exact noHeal_of_tally h5.tally idx p.rslt hi5
  split at hrest
  · simp at hrest
  rename_i s6 hs6
  have h6 : Inv s6 := h5.inv_of_voteCount idx p.rslt hi5 hs6
  split at hrest
  · simp at hrest
  rename_i v s8 hs8
  have h8 : Inv s8 := (h6.inv_of_adopted p).inv_of_calculate hs8
  rw [List.mem_singleton] at hrest
  subst hrest
  exact noHeal_of_tally h8.tally 0 v h8.reg.nc_pos

theorem r_handlerCalls_noHeal {P : Platform} {now face : Nat} {scan : Option R_PKT}
    {s : State} (h : Inv s) (c : VoteCall) (hc : c ∈ r_handlerCalls P now face scan s) :
    NoHeal c := by
  cases scan with
  | none => simp [r_handlerCalls] at hc
  | some p =>
    unfold r_handlerCalls at hc
    dsimp only at hc
    split at hc
    · simp at hc
    rename_i idx s0 hl
    have h0 : Inv s0 := h.inv_of_log hl
    have hidx := (log_inv hl h.tally h.reg).2.2.1
    split at hc
    · simp at hc
    rename_i hne
    split at hc
    swap
    · simp at hc
    split at hc
    · simp at hc
    split at hc
    · simp at hc
    have hlt : idx < s0.NODE_COUNT := by
      rcases hidx with e | e
      · exact absurd e.symm hne
      · exact e
    exact r_acceptCalls_noHeal h0 hlt c hc

theorem c_handlerCalls_noHeal {P : Platform} {now face junk : Nat} {scan : Option Nat}
    {s : State} (h : Inv s) (c : VoteCall) (hc : c ∈ c_handlerCalls P now face junk scan s) :
    NoHeal c := by
  cases scan with
  | none => simp [c_handlerCalls] at hc
  | some N =>
    unfold c_handlerCalls at hc
    dsimp only at hc
    split at hc
    · simp at hc
    split at hc
    · simp at hc
    rename_i s1 hs1
    have h1 : Inv s1 := h.inv_of_strikeOnly (strikeCheck_frame hs1)
    split at hc
    · simp at hc
    rename_i v s5 hs5
    have h5 : Inv s5 := (h1.inv_of_announced P now face junk N).inv_of_calculate hs5
    rw [List.mem_singleton] at hc
    subst hc
    exact noHeal_of_tally h5.tally 0 v h5.reg.nc_pos

theorem r_handlerCalls_last (P : Platform) (now face : Nat) (scan : Option R_PKT)
    (s t : State) (hr : r_handler P now face scan s = .ok t) (c : VoteCall)
    (hc : (r_handlerCalls P now face scan s).getLast? = some c) :
    voteCount c.i c.b c.s = .ok t := by
  cases scan with
  | none => simp [r_handlerCalls] at hc
  | some p =>
    rw [r_handler_eq] at hr
    unfold r_handlerCalls at hc
    dsimp only at hc
    split at hr
    · simp at hr
    rename_i idx s0 hl
    rw [hl] at hc
    dsimp only at hc
    split at hr
    · rename_i hinv
      rw [if_pos hinv] at hc
      simp at hc
    rename_i hne
    rw [if_neg hne] at hc
    split at hr
    swap
    · simp at hr
    rename_i hcap
    rw [if_pos hcap] at hc
    split at hr
    · rename_i hsp
      rw [if_pos hsp] at hc
      simp at hc
    rename_i hsp
    rw [if_neg hsp] at hc
    split at hr
    · rename_i hst
      rw [if_pos hst] at hc
      simp at hc
    rename_i hst
    rw [if_neg hst] at hc
    unfold r_accept at hr
    unfold r_acceptCalls at hc
    split at hr
    · simp at hr
    rename_i hface
    rw [if_neg hface] at hc
    dsimp only at hr hc
    split at hr
    · rename_i hv
      rw [if_pos hv] at hc
      simp only [List.getLast?_singleton, Option.some.injEq] at hc
      subst hc
      exact hr
    rename_i hv
    rw [if_neg hv] at hc
    split at hr
    swap
    · rename_i hgt
      rw [if_neg hgt] at hc
      simp at hc
    rename_i hgt
    rw [if_pos hgt] at hc
    split at hr
    · simp at hr
    rename_i s4 hs4
    rw [hs4] at hc
    dsimp only at hc
    split at hr
    · simp at hr
    rename_i s6 hs6
    rw [hs6] at hc
    dsimp only at hc
    split at hr
    · simp at hr
    rename_i v s8 hs8
    rw [hs8] at hc
    dsimp only at hc
    simp only [List.getLast?_cons_cons, List.getLast?_singleton, Option.some.injEq] at hc
    subst hc
    exact hr

theorem c_handlerCalls_last (P : Platform) (now face junk : Nat) (scan : Option Nat)
    (s t : State) (hr : c_handler P now face junk scan s = .ok t) (c : VoteCall)
    (hc : (c_handlerCalls P now face junk scan s).getLast? = some c) :
    voteCount c.i c.b c.s = .ok t := by
  cases scan with
  | none => simp [c_handlerCalls] at hc
  | some N =>
    rw [c_handler_eq] at hr
    unfold c_handlerCalls at hc
    dsimp only at hc
    split at hr
    · rename_i hN
      rw [if_pos hN] at hc
      simp at hc
    rename_i hN
    rw [if_neg hN] at hc
    split at hr
    · simp at hr
    rename_i s1 hs1
    rw [hs1] at hc
    dsimp only at hc
    split at hr
    · simp at hr
    rename_i v s5 hs5
    rw [hs5] at hc
    dsimp only at hc
    simp only [List.getLast?_singleton, Option.some.injEq] at hc
    subst hc
    exact hr

/-- C27.  The self-heal branch is unreachable: in every state reached from the initial state
by `log`, `r_handler`, `c_handler` and `heartBeat` steps, `VOTE_COUNT <= NODE_COUNT` holds,
and every call `voteCount(i, b)` that a run of `r_handler` or of `c_handler` started there
makes (these are all the calls: `heartBeat` makes none, and when a handler returns, its
result is that of the last call listed) has `i < NODE_COUNT` and meets the test
`VOTE_COUNT > NODE_COUNT` false, so that `voteCount` neither flushes nor calls itself: its
run is the same for every bound on the recursion depth, the bound 1 included, and it is not
the halt that stands for an exhausted bound. -/
theorem self_heal_unreachable (P : Platform) (s : State) (h : Reach P (EngineStep P) s) :
    s.VOTE_COUNT ≤ s.NODE_COUNT ∧
    (∀ now face scan c, c ∈ r_handlerCalls P now face scan s → NoHeal c) ∧
    (∀ now face junk scan c, c ∈ c_handlerCalls P now face junk scan s → NoHeal c) ∧
    (∀ now face scan t, r_handler P now face scan s = .ok t →
      ∀ c, (r_handlerCalls P now face scan s).getLast? = some c →
        voteCount c.i c.b c.s = .ok t) ∧
    (∀ now face junk scan t, c_handler P now face junk scan s = .ok t →
      ∀ c, (c_handlerCalls P now face junk scan s).getLast? = some c →
        voteCount c.i c.b c.s = .ok t) := by
  have hi : Inv s := h.reach_fresh.1
  refine ⟨?_, ?_, ?_, ?_, ?_⟩
  · rw [hi.tally.vc_eq]; exact Nat.count_le _
  · intro now face scan c hc
    exact r_handlerCalls_noHeal hi c hc
  · intro now face junk scan c hc
    exact c_handlerCalls_noHeal hi c hc
  · intro now face scan t hr c hc
    exact r_handlerCalls_last P now face scan s t hr c hc
  · intro now face junk scan t hr c hc
    exact c_handlerCalls_last P now face junk scan s t hr c hc

/-- Witness for C27: the board that has heard one vote of node 7 receives a second packet
of that node; `r_handler` makes one call of `voteCount`, which does not self-heal. -/
theorem self_heal_unreachable_witness :
    Reach demoBoard (EngineStep demoBoard) demoOneVote ∧
    demoOneVote.VOTE_COUNT ≤ demoOneVote.NODE_COUNT ∧
    (r_handlerCalls demoBoard 70 1 (some (demoVoteAt 6000 0)) demoOneVote).length = 1 ∧
    ∀ c, c ∈ r_handlerCalls demoBoard 70 1 (some (demoVoteAt 6000 0)) demoOneVote →
      NoHeal c :=
  ⟨reach_stateOf_r_handler (Reach.boot _ _ _) 50 1 (some demoVote),
    (self_heal_unreachable demoBoard demoOneVote
      (reach_stateOf_r_handler (Reach.boot _ _ _) 50 1 (some demoVote))).1,
    rfl,
    (self_heal_unreachable demoBoard demoOneVote
      (reach_stateOf_r_handler (Reach.boot _ _ _) 50 1 (some demoVote))).2.1 70 1
      (some (demoVoteAt 6000 0))⟩

theorem count_inj_le_one (f : Nat → Nat) (u : Nat) :
    ∀ n, (∀ i j, i < n → j < n → f i = f j → i = j) →
      Nat.count (fun i => f i = u) n ≤ 1 := by
  intro n
  induction n with
  | zero => intro _; simp
  | succ n ih =>
    intro h
    rw [Nat.count_succ]
    have h1 := ih (fun i j hi hj e => h i j (by omega) (by omega) e)
    by_cases hn : f n = u
    · have h0 : Nat.count (fun i => f i = u) n = 0 := by
        apply count_none
        intro j hj hju
        have := h j n (by omega) (by omega) (hju.trans hn.symm)
        omega
      rw [h0, if_pos hn]
    · rw [if_neg hn]
      omega

theorem evalMajority_overrun (s : State) (hq : VOTE_COUNT_MIN ≤ s.VOTE_COUNT)
    (hc : s.HOST_CALC ≠ 0) (hcc : s.CANDIDATE_COUNT = CAP) :
    evalMajority s = .error .outOfBounds := by
  have hq2 : s.VOTE_COUNT ≥ VOTE_COUNT_MIN := hq
  have hc0 : ¬ (0 = s.HOST_CALC) := fun e => hc e.symm
  unfold evalMajority
  rw [if_pos hq2, if_neg hc0, hcc,
    getMaxIndex_oob s.CANDIDATE_VOTES_ARR ((CAP + 1) % U32) (by decide)]

theorem demoCrowd_book :
    demoCrowd.NODE_COUNT = 31 ∧ demoCrowd.HOST_CALC_VER = 1 ∧ demoCrowd.HOST_CALC = 1 ∧
    demoCrowd.PC_NODE_ARR 31 = 0 ∧ demoCrowd.CANDIDATE_COUNT = 31 ∧
    demoCrowd.VOTE_COUNT = 31 ∧ demoCrowd.MAJORITY_RSLT = TIE ∧ demoCrowd.STATUS = OFF := by
  decide!

theorem demoCrowd_ids : ∀ k, k < 31 → demoCrowd.ID_NODE_ARR k ≠ 230 := by
  decide!

theorem demoCrowd_votes :
    (List.range 32).map demoCrowd.VOTE_NODE_ARR = (List.range 31).map (fun i => i + 2) ++ [0] ∧
    (List.range 32).map demoCrowd.CANDIDATE_ARR = (List.range 31).map (fun i => i + 2) ++ [0] ∧
    (List.range 32).map demoCrowd.CANDIDATE_VOTES_ARR = List.replicate 31 1 ++ [0] := by
  decide!

theorem demoLast_book :
    demoLast.NODE_COUNT = 32 ∧ demoLast.VOTE_NODE_ARR 31 = 0 ∧ demoLast.CANDIDATE_COUNT = 31 ∧
    (∀ k, k < 31 → demoLast.CANDIDATE_ARR k ≠ 33) ∧
    ¬ (logNew demoCrowd 230 5000 50).PC_NODE_ARR 31 > (demoBallot 30).key.TIME / 1000 ∧
    ¬ (demoBallot 30).calc_ver < (logNew demoCrowd 230 5000 50).HOST_CALC_VER ∧
    (demoBallot 30).calc_ver = (logNew demoCrowd 230 5000 50).HOST_CALC_VER := by
  decide!

theorem demoTie32_book :
    demoTie32.NODE_COUNT = 32 ∧ demoTie32.VOTE_COUNT = 32 ∧ demoTie32.HOST_CALC = 1 ∧
    demoTie32.CANDIDATE_COUNT = 32 ∧ voters demoTie32 = 32 ∧
    (∀ i, i < 32 → demoTie32.VOTE_NODE_ARR i = i + 2) ∧
    (List.range 32).map demoTie32.VOTE_NODE_ARR = (List.range 32).map (fun i => i + 2) ∧
    (List.range 32).map demoTie32.CANDIDATE_ARR = (List.range 32).map (fun i => i + 2) ∧
    (List.range 32).map demoTie32.CANDIDATE_VOTES_ARR = List.replicate 32 1 := by
  decide!

theorem demoCrowd_log :
    log (demoBallot 30).key.ID (demoBallot 30).key.TIME 50 demoCrowd =
      .ok (31, logNew demoCrowd 230 5000 50) := by
  have h := log_new 230 5000 50 demoCrowd (by rw [demoCrowd_book.1]; decide)
    (by rw [demoCrowd_book.1]; exact demoCrowd_ids)
  rw [demoCrowd_book.1] at h
  exact h

theorem demoLast_call :
    r_handler demoBoard 50 1 (some (demoBallot 30)) demoCrowd = voteCount 31 33 demoLast := by
  rw [r_handler_eq, demoCrowd_log]
  dsimp only
  rw [if_neg (by decide), if_pos (by decide), if_neg demoLast_book.2.2.2.2.1,
    if_neg demoLast_book.2.2.2.2.2.1]
  unfold r_accept
  rw [if_neg (by decide)]
  dsimp only
  rw [if_pos demoLast_book.2.2.2.2.2.2]
  rfl

theorem demoLast_tally : Tally demoLast :=
  ((demoCrowd_reach.reach_fresh.1.inv_of_log demoCrowd_log).inv_of_accepted 1
    (demoBallot 30)).tally

theorem demoTie32_call : voteCount 31 33 demoLast = evalMajority demoTie32 := by
  obtain ⟨k, hk, hf, _, e⟩ := voteCount_fresh demoLast_tally 31 33
    (by rw [demoLast_book.1]; decide) (by decide) demoLast_book.2.1
  rw [demoLast_book.2.2.1] at hk hf
  have hk31 : k = 31 := by
    by_contra hne
    have hlt : k < 31 := by omega
    exact demoLast_book.2.2.2.1 k hlt (hf hlt)
  rw [e, hk31]
  rfl

theorem demoTie32_halt : evalMajority demoTie32 = .error .outOfBounds :=
  evalMajority_overrun demoTie32 (by rw [demoTie32_book.2.1]; decide)
    (by rw [demoTie32_book.2.2.1]; decide) demoTie32_book.2.2.2.1

theorem demoTie32_votesFor (u : Nat) : votesFor demoTie32 u ≤ 1 := by
  unfold votesFor
  rw [demoTie32_book.1]
  apply count_inj_le_one
  intro i j hi hj e
  rw [demoTie32_book.2.2.2.2.2.1 i hi, demoTie32_book.2.2.2.2.2.1 j hj] at e
  omega

theorem demoTie32_one (i : Nat) (hi : i < 32) : votesFor demoTie32 (i + 2) = 1 := by
  have h1 := demoTie32_votesFor (i + 2)
  have h2 : 0 < votesFor demoTie32 (i + 2) := by
    unfold votesFor
    rw [demoTie32_book.1]
    exact count_pos_of _ i 32 hi (demoTie32_book.2.2.2.2.2.1 i hi)
  omega

/-- C2 at its failing input: after the command `c1` and the distinct ballots of 30 peers the
board is in a reachable state with 31 candidates.  The ballot 33 of a 31st peer is counted
and `evalMajority` is called in `demoTie32`: 32 known nodes hold 32 different ballots, so the
ballots 2 and 3 (and every other) share the maximum of one voter each, at least 2 votes are
recorded and `HOST_CALC` is 1.  The scan of `CANDIDATE_COUNT + 1 = 33` tallies leaves the
array, and the run ends in that halt without declaring `TIE`. -/
theorem full_tie_is_not_declared :
    Reach demoBoard (EngineStep demoBoard) demoCrowd ∧
    r_handler demoBoard 50 1 (some (demoBallot 30)) demoCrowd = voteCount 31 33 demoLast ∧
    voteCount 31 33 demoLast = evalMajority demoTie32 ∧
    demoTie32.NODE_COUNT = 32 ∧ demoTie32.HOST_CALC = 1 ∧ voters demoTie32 = 32 ∧
    (List.range 32).map demoTie32.VOTE_NODE_ARR = (List.range 32).map (fun i => i + 2) ∧
    votesFor demoTie32 2 = 1 ∧ votesFor demoTie32 3 = 1 ∧
    (∀ u, votesFor demoTie32 u ≤ votesFor demoTie32 2) ∧
    evalMajority demoTie32 = .error .outOfBounds ∧
    r_handler demoBoard 50 1 (some (demoBallot 30)) demoCrowd = .error .outOfBounds :=
  ⟨demoCrowd_reach, demoLast_call, demoTie32_call, demoTie32_book.1, demoTie32_book.2.2.1,
    demoTie32_book.2.2.2.2.1, demoTie32_book.2.2.2.2.2.2.1, demoTie32_one 0 (by decide),
    demoTie32_one 1 (by decide),
    fun u => by rw [demoTie32_one 0 (by decide)]; exact demoTie32_votesFor u,
    demoTie32_halt, by rw [demoLast_call, demoTie32_call]; exact demoTie32_halt⟩

/-- C18 at its failing input: `demoTie32` is the state in which `evalMajority` runs when the
32nd of 32 different ballots has been counted (the last step of the reachable scenario of
`demoCrowd`).  It holds 32 recorded votes, a non-zero `HOST_CALC` and 32 candidates with one
vote each, a tie.  `evalMajority` asks `getMaxIndex` for a scan of 33 tallies, which leaves
the 32-entry array: the run halts there and sets no status. -/
theorem full_tie_sets_no_status :
    VOTE_COUNT_MIN ≤ demoTie32.VOTE_COUNT ∧ demoTie32.HOST_CALC ≠ 0 ∧
    demoTie32.CANDIDATE_COUNT = 32 ∧
    (List.range 32).map demoTie32.CANDIDATE_ARR = (List.range 32).map (fun i => i + 2) ∧
    (List.range 32).map demoTie32.CANDIDATE_VOTES_ARR = List.replicate 32 1 ∧
    getMaxIndex demoTie32.CANDIDATE_VOTES_ARR ((demoTie32.CANDIDATE_COUNT + 1) % U32) =
      .error .outOfBounds ∧
    evalMajority demoTie32 = .error .outOfBounds ∧
    Reach demoBoard (EngineStep demoBoard) demoCrowd ∧
    r_handler demoBoard 50 1 (some (demoBallot 30)) demoCrowd = evalMajority demoTie32 :=
  ⟨by rw [demoTie32_book.2.1]; decide, by rw [demoTie32_book.2.2.1]; decide,
    demoTie32_book.2.2.2.1, demoTie32_book.2.2.2.2.2.2.2.1, demoTie32_book.2.2.2.2.2.2.2.2,
    by rw [demoTie32_book.2.2.2.1]; exact getMaxIndex_oob _ _ (by decide),
    demoTie32_halt, demoCrowd_reach, by rw [demoLast_call, demoTie32_call]⟩

end Suffrage
